import Mathlib

/-!
# Verification of the legacy C++ limit-order matching engine

Shallow embedding of the matching kernel of the repository
(`OrderBook`, `OrderList`, `StructPriceLevels`, `Order`, `Exchange`,
`OrderMap`, `BookMap`) and proofs about the claims of the specification.

Modelling conventions:
* The fixed-point price type `Fixed<7>` is an external library; the spec
  describes it as a totally ordered additive scalar with market
  sentinels (`DBL_MAX` / `-DBL_MAX` in the code).  We model it as
  `WithBot (WithTop ℤ)`: finite prices are the exact scaled integers a
  `Fixed<7>` stores (`1.0 = 10000000`), `⊤` is the market-buy sentinel
  and `⊥` the market-sell sentinel.  The engine only compares prices,
  takes minima, and feeds them into the VWAP average, so this captures
  everything the core depends on ("ordered, additive scalar with a
  market sentinel"); the external library's VWAP rounding is modelled
  with truncating integer division on the scaled representation.
* Mutable heap `Order` objects shared between the `OrderMap`, the
  ladders and the quote table are modelled with a store
  `List (Nat × Order)` keyed by `exchangeId`; ladders and quote entries
  hold ids.  The `node` back-handle of an order is modelled by the
  `onList` flag (`Order::isOnList`, i.e. `!node->order.expired()`).
* C++ exceptions are modelled with an error channel that carries the
  state as mutated up to the throw (heap effects persist across a
  C++ `throw`).  Dereferencing a null `shared_ptr` (undefined
  behaviour, a crash in practice) is modelled as the error
  "null pointer dereference".
* `OrderList::remove` physically unlinks the order's own node, so on a
  well-formed book it removes the order from the level found by price
  search; the model removes it there and reports an error if the order
  is not in that level (a state the engine never reaches, where the
  C++ node would be linked into a different level).
* Fields irrelevant to every claim (`timeSubmitted`, the wall-clock
  `Trade::execId`, the never-written `_isQuote` flag) are omitted.
-/

namespace Clob

/-- Decidable equality for `Except`, used to evaluate engine results on
concrete inputs. -/
instance {ε α : Type} [DecidableEq ε] [DecidableEq α] :
    DecidableEq (Except ε α) := fun a b =>
  match a, b with
  | .ok x, .ok y =>
    if h : x = y then .isTrue (by rw [h]) else .isFalse (by simp [h])
  | .error x, .error y =>
    if h : x = y then .isTrue (by rw [h]) else .isFalse (by simp [h])
  | .ok _, .error _ => .isFalse (by simp)
  | .error _, .ok _ => .isFalse (by simp)

/-- Order side (`Order::Side`). -/
inductive Side where
  | buy
  | sell
deriving DecidableEq, Repr

/-- Price scalar: finite scaled-integer prices plus the two market
sentinels (`DBL_MAX` for market buys, `-DBL_MAX` for market sells). -/
abbrev Price : Type := WithBot (WithTop ℤ)

/-- A finite (limit) price, as the scaled integer a `Fixed<7>` stores. -/
def Price.lim (q : ℤ) : Price := ((q : WithTop ℤ) : Price)

/-- The market-buy sentinel (`DBL_MAX`). -/
def Price.mktBuy : Price := ((⊤ : WithTop ℤ) : Price)

/-- The market-sell sentinel (`-DBL_MAX`). -/
def Price.mktSell : Price := (⊥ : Price)

/-- The scaled integer the VWAP update sees for a price.  The sentinel
prices are the saturated conversion of `±DBL_MAX` into the fixed-point
type, modelled as `±2^1024` scaled units. -/
def Price.toZ : Price → ℤ :=
  WithBot.recBotCoe (-(2 ^ 1024)) (WithTop.recTopCoe (2 ^ 1024) id)

/-- Mutable order state (`struct Order` of `include/core/order.h`).
`quantity`, `price` are `_quantity`, `_price` (mutated by the quote
re-arm); `remaining`/`filled` are the execution counters; `cumQty` and
`avgPrice` are `_cumQty` and `_avgPrice`; `onList` models
`isOnList()`, i.e. whether the intrusive list node is attached. -/
structure Order where
  exchangeId : Nat
  sessionId : String
  orderId : String
  instrument : String
  side : Side
  price : Price
  quantity : Int
  remaining : Int
  filled : Int
  cumQty : Int
  avgPrice : Int
  onList : Bool
deriving DecidableEq, Repr

/-- `Order::fill(quantity, price)`: adjust the execution counters and
the VWAP average. -/
def Order.fill (o : Order) (q : Int) (p : Price) : Order :=
  { o with
    remaining := o.remaining - q
    filled := o.filled + q
    avgPrice := (o.avgPrice * o.cumQty + p.toZ * q) / (o.cumQty + q)
    cumQty := o.cumQty + q }

/-- `Order::cancel()`: zero the remaining quantity (and nothing else). -/
def Order.cancel (o : Order) : Order := { o with remaining := 0 }

/-- `Order::isMarket()`: the price is one of the two sentinels. -/
def Order.isMarket (o : Order) : Prop :=
  o.price = Price.mktBuy ∨ o.price = Price.mktSell

instance (o : Order) : Decidable o.isMarket := by
  unfold Order.isMarket; infer_instance

/-- `Order::isActive()`: `remaining > 0`. -/
def Order.isActive (o : Order) : Prop := 0 < o.remaining

/-- Construct an order the way `Order::Order` does: `remaining`
initialised to the quantity, everything else zero, not on any list. -/
def mkOrder (sess oid inst : String) (p : Price) (q : Int) (sd : Side)
    (xid : Nat) : Order :=
  { exchangeId := xid, sessionId := sess, orderId := oid,
    instrument := inst, side := sd, price := p, quantity := q,
    remaining := q, filled := 0, cumQty := 0, avgPrice := 0,
    onList := false }

/-- The order store: the heap of shared `Order` objects, keyed by
`exchangeId`.  This is also the `OrderMap` (`add` prepends to a bucket
list and `get` returns the first match, ids are unique). -/
abbrev Store : Type := List (Nat × Order)

/-- `OrderMap::get`: first entry with the id. -/
def Store.get (st : Store) (oid : Nat) : Option Order :=
  (st.find? (fun p => p.1 = oid)).map (·.2)

/-- Mutate the shared order object with the given id. -/
def Store.upd (st : Store) (oid : Nat) (f : Order → Order) : Store :=
  st.map (fun p => if p.1 = oid then (p.1, f p.2) else p)

/-- One price level: an `OrderList`, the FIFO of resting order ids at
one price (`pushback` appends at the tail, `front` is the head). -/
structure Level where
  price : Price
  fifo : List Nat
deriving DecidableEq, Repr

/-- One side's ladder, a `StructPriceLevels<std::vector<OrderList>>`
ordered best-first: ascending prices for asks, descending for bids. -/
abbrev Ladder : Type := List Level

/-- The strict comparator `price_compare_struct::operator()`:
`ascending ? t.price() < u : t.price() > u`. -/
def cmpP (asc : Bool) (x y : Price) : Prop :=
  if asc then x < y else y < x

instance (asc : Bool) (x y : Price) : Decidable (cmpP asc x y) := by
  unfold cmpP; infer_instance

/-- `StructPriceLevels::insertOrder`: `std::lower_bound` by the side's
comparator, append to the level of equal price, or insert a fresh
one-element level at the insertion point. -/
def Ladder.insertOrder (asc : Bool) (p : Price) (oid : Nat) :
    Ladder → Ladder
  | [] => [⟨p, [oid]⟩]
  | l :: ls =>
    if cmpP asc l.price p then l :: Ladder.insertOrder asc p oid ls
    else if l.price = p then ⟨l.price, l.fifo ++ [oid]⟩ :: ls
    else ⟨p, [oid]⟩ :: l :: ls

/-- `StructPriceLevels::removeOrder`: find the level with the order's
price (throw "price level for order does not exist" if absent), then
`OrderList::remove` — throw "node is null on removal" if the order's
list handle is dead (`node->order.expired()`, our `onList = false`),
otherwise unlink; drop the level if it empties.  An order missing from
the found level is flagged as "order not on level" (never reached on a
well-formed book; see the module comment). -/
def Ladder.removeOrder (asc onList : Bool) (p : Price) (oid : Nat) :
    Ladder → Except String Ladder
  | [] => .error "price level for order does not exist"
  | l :: ls =>
    if cmpP asc l.price p then
      (Ladder.removeOrder asc onList p oid ls).map (l :: ·)
    else if l.price = p then
      if onList = false then .error "node is null on removal"
      else if oid ∈ l.fifo then
        let f := l.fifo.erase oid
        .ok (if f = [] then ls else ⟨l.price, f⟩ :: ls)
      else .error "order not on level"
    else .error "price level for order does not exist"

/-- `PriceLevels::front()` composed with `OrderList::front()`: the head
order id of the best level, if any. -/
def Ladder.frontOid : Ladder → Option Nat
  | [] => none
  | l :: _ => l.fifo.head?

/-- All order ids resting on a ladder, best level first. -/
def Ladder.oids (ls : Ladder) : List Nat := ls.flatMap (·.fifo)

/-- A trade as delivered to the listener (`struct Trade`): execution
price and quantity plus the two participating orders (identified by
their `exchangeId`; the wall-clock `execId` is irrelevant to every
claim and omitted). -/
structure TradeRec where
  price : Price
  qty : Int
  aggressorId : Nat
  passiveId : Nat
deriving DecidableEq, Repr

/-- A listener notification (`OrderBookListener::onOrder` receives the
order's state at call time; `onTrade` the trade record). -/
inductive Event where
  | onOrder (o : Order)
  | onTrade (t : TradeRec)
deriving DecidableEq, Repr

/-- The state an `OrderBook` method works on: the shared order heap,
this book's two ladders and the listener's event log. -/
structure BookCtx where
  store : Store
  bids : Ladder
  asks : Ladder
  events : List Event
deriving DecidableEq, Repr

/-- Ids resting in this book (both ladders). -/
def BookCtx.oids (c : BookCtx) : List Nat := c.bids.oids ++ c.asks.oids

/-- Number of resting orders in this book. -/
def BookCtx.restingCount (c : BookCtx) : Nat := c.oids.length

/-- Result of one iteration of the `matchOrders` while-loop. -/
inductive StepRes where
  | brk (c : BookCtx)
  | err (msg : String) (c : BookCtx)
  | traded (t : TradeRec) (c : BookCtx)
deriving DecidableEq, Repr

/-- One iteration of the `OrderBook::matchOrders` loop: stop if either
ladder is empty or the best bid does not reach the best ask; otherwise
trade `min(bid.remaining, ask.remaining)` at `min(bid._price,
ask._price)`, remove whichever side is exhausted, and notify the
listener (order events first, then the trade). -/
def matchStep (aggr : Side) (c : BookCtx) : StepRes :=
  match c.bids.frontOid, c.asks.frontOid with
  | none, _ =>
    if c.bids = [] ∨ c.asks = [] then .brk c else .err "null order" c
  | _, none =>
    if c.bids = [] ∨ c.asks = [] then .brk c else .err "null order" c
  | some bOid, some aOid =>
    match c.store.get bOid, c.store.get aOid with
    | some bo, some ao =>
      if ao.price ≤ bo.price then
        let qty := min bo.remaining ao.remaining
        let price := min bo.price ao.price
        let bo1 := bo.fill qty price
        let ao1 := ao.fill qty price
        let st1 := (c.store.upd bOid (·.fill qty price)).upd aOid
          (·.fill qty price)
        let t : TradeRec :=
          { price := price, qty := qty,
            aggressorId := if aggr = .buy then bOid else aOid,
            passiveId := if aggr = .buy then aOid else bOid }
        -- remove the bid first, then the ask, as the code does;
        -- a failed removal is a C++ throw with the fills retained
        if bo1.remaining = 0 then
          match c.bids.removeOrder false bo.onList bo1.price bOid with
          | .error m =>
            .err m { c with store := st1 }
          | .ok bids1 =>
            let st2 := st1.upd bOid (fun o => { o with onList := false })
            let bo2 := { bo1 with onList := false }
            if ao1.remaining = 0 then
              match c.asks.removeOrder true ao.onList ao1.price aOid with
              | .error m =>
                .err m { c with store := st2, bids := bids1 }
              | .ok asks1 =>
                let st3 := st2.upd aOid (fun o => { o with onList := false })
                let ao2 := { ao1 with onList := false }
                .traded t
                  { store := st3, bids := bids1, asks := asks1,
                    events := c.events ++
                      [.onOrder bo2, .onOrder ao2, .onTrade t] }
            else
              .traded t
                { store := st2, bids := bids1, asks := c.asks,
                  events := c.events ++
                    [.onOrder bo2, .onOrder ao1, .onTrade t] }
        else
          if ao1.remaining = 0 then
            match c.asks.removeOrder true ao.onList ao1.price aOid with
            | .error m =>
              .err m { c with store := st1 }
            | .ok asks1 =>
              let st3 := st1.upd aOid (fun o => { o with onList := false })
              let ao2 := { ao1 with onList := false }
              .traded t
                { store := st3, bids := c.bids, asks := asks1,
                  events := c.events ++
                    [.onOrder bo1, .onOrder ao2, .onTrade t] }
          else
            .traded t
              { store := st1, bids := c.bids, asks := c.asks,
                events := c.events ++
                  [.onOrder bo1, .onOrder ao1, .onTrade t] }
      else .brk c
    | _, _ => .err "null order" c

/-- The `matchOrders` while-loop, by fuel; `matchOrders` supplies fuel
`restingCount + 1`, which is always sufficient because every traded
iteration removes at least one resting order (proved below). -/
def matchLoopGo : Nat → Side → BookCtx → BookCtx × Option String
  | 0, _, c => (c, some "loop fuel exhausted")
  | fuel + 1, aggr, c =>
    match matchStep aggr c with
    | .brk c1 => (c1, none)
    | .err m c1 => (c1, some m)
    | .traded _ c1 => matchLoopGo fuel aggr c1

/-- The residual market-order cleanup after the loop: if the front of
the aggressor-side ladder is a market order, cancel it, remove it and
notify the listener (`matchOrders`, tail). -/
def residualCancel (aggr : Side) (c : BookCtx) : BookCtx × Option String :=
  let ladder := if aggr = Side.buy then c.bids else c.asks
  match ladder.frontOid with
  | none => (c, none)
  | some oid =>
    match c.store.get oid with
    | none => (c, some "null order")
    | some o =>
      if o.isMarket then
        let o1 := { o.cancel with onList := false }
        let st1 := c.store.upd oid (fun x => { x.cancel with onList := false })
        match ladder.removeOrder (aggr = Side.sell) o.onList o.price oid with
        | .error m => ({ c with store := st1 }, some m)
        | .ok lad1 =>
          if aggr = Side.buy then
            ({ store := st1, bids := lad1, asks := c.asks,
               events := c.events ++ [.onOrder o1] }, none)
          else
            ({ store := st1, bids := c.bids, asks := lad1,
               events := c.events ++ [.onOrder o1] }, none)
      else (c, none)

/-- `OrderBook::matchOrders(aggressorSide)`: the loop followed by the
residual market-order cleanup. -/
def matchOrders (aggr : Side) (c : BookCtx) : BookCtx × Option String :=
  match matchLoopGo (c.restingCount + 1) aggr c with
  | (c1, some m) => (c1, some m)
  | (c1, none) => residualCancel aggr c1

/-- `OrderBook::insertOrder`: silently drop null or non-positive
remaining quantity; otherwise append to the side's ladder, notify the
listener, and match with this side as aggressor. -/
def obInsertOrder (oid : Nat) (c : BookCtx) : BookCtx × Option String :=
  match c.store.get oid with
  | none => (c, none)
  | some o =>
    if o.remaining ≤ 0 then (c, none)
    else
      let st1 := c.store.upd oid (fun x => { x with onList := true })
      let o1 := { o with onList := true }
      let c1 : BookCtx :=
        if o.side = Side.buy then
          { store := st1,
            bids := c.bids.insertOrder false o.price oid,
            asks := c.asks,
            events := c.events ++ [.onOrder o1] }
        else
          { store := st1,
            bids := c.bids,
            asks := c.asks.insertOrder true o.price oid,
            events := c.events ++ [.onOrder o1] }
      matchOrders o.side c1

/-- `OrderBook::cancelOrder`: `-1` if the order is gone or not
cancellable; otherwise zero `remaining` first (`order->cancel()`), and
only then check the list handle — an off-list order yields `-1` with
`remaining` already zeroed. -/
def obCancelOrder (oid : Nat) (c : BookCtx) :
    (Except String Int) × BookCtx :=
  match c.store.get oid with
  | none => (.ok (-1), c)
  | some o =>
    if 0 < o.remaining then
      let st1 := c.store.upd oid Order.cancel
      if o.onList then
        let lad := if o.side = Side.buy then c.bids else c.asks
        match lad.removeOrder (o.side = Side.sell) o.onList o.price oid with
        | .error m => (.error m, { c with store := st1 })
        | .ok lad1 =>
          let st2 := st1.upd oid (fun x => { x with onList := false })
          let o1 := { o.cancel with onList := false }
          if o.side = Side.buy then
            (.ok 0, { store := st2, bids := lad1, asks := c.asks,
                      events := c.events ++ [.onOrder o1] })
          else
            (.ok 0, { store := st2, bids := c.bids, asks := lad1,
                      events := c.events ++ [.onOrder o1] })
      else (.ok (-1), { c with store := st1 })
    else (.ok (-1), c)

/-- The quote re-arm of one order (`OrderBook::quote`, lines 100-103 /
108-111): set price and quantity to the targets, `remaining := qty`,
`filled := 0` — and nothing else; `_cumQty` and `_avgPrice` are not
touched. -/
def Order.rearm (o : Order) (p : Price) (q : Int) : Order :=
  { o with price := p, quantity := q, remaining := q, filled := 0 }

/-- `OrderBook::quote(quotes, bidPrice, bidQty, askPrice, askQty)`:
remove whichever side is resting, then for each side with a non-zero
target quantity re-arm, insert and match with that side as aggressor.
The code dereferences both `shared_ptr`s unconditionally, so a missing
side (never created by the exchange's lazy factory) is a null-pointer
dereference. -/
def obQuote (refs : Option Nat × Option Nat) (bp : Price) (bq : Int)
    (ap : Price) (aq : Int) (c : BookCtx) : BookCtx × Option String :=
  match refs.1 with
  | none => (c, some "null pointer dereference")
  | some bId =>
    match c.store.get bId with
    | none => (c, some "null order")
    | some bo =>
      let step1 : BookCtx × Option String :=
        if bo.onList then
          match c.bids.removeOrder false bo.onList bo.price bId with
          | .error m => (c, some m)
          | .ok bids1 =>
            ({ c with
               bids := bids1,
               store := c.store.upd bId (fun x => { x with onList := false }) },
             none)
        else (c, none)
      match step1 with
      | (c1, some m) => (c1, some m)
      | (c1, none) =>
        match refs.2 with
        | none => (c1, some "null pointer dereference")
        | some aId =>
          match c1.store.get aId with
          | none => (c1, some "null order")
          | some ao =>
            let step2 : BookCtx × Option String :=
              if ao.onList then
                match c1.asks.removeOrder true ao.onList ao.price aId with
                | .error m => (c1, some m)
                | .ok asks1 =>
                  ({ c1 with
                     asks := asks1,
                     store := c1.store.upd aId
                       (fun x => { x with onList := false }) },
                   none)
              else (c1, none)
            match step2 with
            | (c2, some m) => (c2, some m)
            | (c2, none) =>
              let step3 : BookCtx × Option String :=
                if bq ≠ 0 then
                  let st := c2.store.upd bId
                    (fun x => { x.rearm bp bq with onList := true })
                  matchOrders Side.buy
                    { c2 with
                      store := st,
                      bids := c2.bids.insertOrder false bp bId }
                else (c2, none)
              match step3 with
              | (c3, some m) => (c3, some m)
              | (c3, none) =>
                if aq ≠ 0 then
                  let st := c3.store.upd aId
                    (fun x => { x.rearm ap aq with onList := true })
                  matchOrders Side.sell
                    { c3 with
                      store := st,
                      asks := c3.asks.insertOrder true ap aId }
                else (c3, none)

/-- Per-book persistent state: the two ladders and the quote table
`(sessionId, quoteId) → QuoteOrders` (each side an optional order id;
`QuoteOrders` default-initialises both sides to null). -/
structure BookState where
  bids : Ladder
  asks : Ladder
  quotes : List ((String × String) × (Option Nat × Option Nat))
deriving DecidableEq, Repr

/-- A fresh, empty `OrderBook`. -/
def emptyBook : BookState := { bids := [], asks := [], quotes := [] }

/-- All order ids resting in a book. -/
def BookState.oids (b : BookState) : List Nat := b.bids.oids ++ b.asks.oids

/-- Whole-engine state: the `OrderMap` (`orders`), the `BookMap`
(`books`, at most one book per instrument name), the monotonic id
counter (`Exchange::nextID`, last id handed out) and the listener's
event log. -/
structure ExchState where
  orders : Store
  books : List (String × BookState)
  nextId : Nat
  events : List Event
deriving DecidableEq, Repr

/-- The initial engine state. -/
def initExch : ExchState :=
  { orders := [], books := [], nextId := 0, events := [] }

/-- `BookMap::get`. -/
def getBook (bs : List (String × BookState)) (inst : String) :
    Option BookState :=
  (bs.find? (fun p => p.1 = inst)).map (·.2)

/-- `BookMap::getOrCreate`: the existing book, or publish a fresh empty
one (the open-addressed table guarantees at most one book per name; the
model never runs out of room). -/
def getOrCreate (bs : List (String × BookState)) (inst : String) :
    BookState × List (String × BookState) :=
  match getBook bs inst with
  | some b => (b, bs)
  | none => (emptyBook, bs ++ [(inst, emptyBook)])

/-- Replace the book stored under an instrument name. -/
def setBook (bs : List (String × BookState)) (inst : String)
    (b : BookState) : List (String × BookState) :=
  bs.map (fun p => if p.1 = inst then (p.1, b) else p)

/-- Run a `BookCtx` computation against the book of one instrument and
write the ladders, heap and event log back. -/
def ExchState.withBook (s : ExchState) (inst : String)
    (c : BookCtx) (quotes : List ((String × String) × (Option Nat × Option Nat))) :
    ExchState :=
  { s with
    orders := c.store,
    events := c.events,
    books := setBook s.books inst
      { bids := c.bids, asks := c.asks, quotes := quotes } }

/-- `Exchange::insertOrder` before the catch-all: get-or-create the
book, allocate the next id, construct the order, publish it into the
`OrderMap` (prepend), insert into the book and match.  The returned
error, if any, is the C++ exception in flight; the state carries every
mutation made before the throw. -/
def exchInsertCore (s : ExchState) (sess inst : String) (p : Price)
    (q : Int) (sd : Side) (ostr : String) :
    (Nat × ExchState) × Option String :=
  let bb := getOrCreate s.books inst
  let id := s.nextId + 1
  let o := mkOrder sess ostr inst p q sd id
  let st1 : Store := (id, o) :: s.orders
  let c0 : BookCtx :=
    { store := st1, bids := bb.1.bids, asks := bb.1.asks,
      events := s.events }
  let r := obInsertOrder id c0
  let s1 : ExchState :=
    { orders := r.1.store,
      books := setBook bb.2 inst
        { bids := r.1.bids, asks := r.1.asks, quotes := bb.1.quotes },
      nextId := id,
      events := r.1.events }
  ((id, s1), r.2)

/-- `Exchange::insertOrder`: the core wrapped in `try/catch` — any
exception is swallowed and turned into an empty result (`nullopt`);
heap mutations made before the throw persist. -/
def exchInsertOrder (s : ExchState) (sess inst : String) (p : Price)
    (q : Int) (sd : Side) (ostr : String) : Option Nat × ExchState :=
  match exchInsertCore s sess inst p q sd ostr with
  | ((id, s1), none) => (some id, s1)
  | ((_, s1), some _) => (none, s1)

/-- `Exchange::buy`. -/
def exchBuy (s : ExchState) (sess inst : String) (p : Price) (q : Int)
    (ostr : String) : Option Nat × ExchState :=
  exchInsertOrder s sess inst p q Side.buy ostr

/-- `Exchange::sell`. -/
def exchSell (s : ExchState) (sess inst : String) (p : Price) (q : Int)
    (ostr : String) : Option Nat × ExchState :=
  exchInsertOrder s sess inst p q Side.sell ostr

/-- `Exchange::marketBuy`: a buy at the `DBL_MAX` sentinel. -/
def exchMarketBuy (s : ExchState) (sess inst : String) (q : Int)
    (ostr : String) : Option Nat × ExchState :=
  exchBuy s sess inst Price.mktBuy q ostr

/-- `Exchange::marketSell`: a sell at the `-DBL_MAX` sentinel. -/
def exchMarketSell (s : ExchState) (sess inst : String) (q : Int)
    (ostr : String) : Option Nat × ExchState :=
  exchSell s sess inst Price.mktSell q ostr

/-- `Exchange::cancel`: look the order up by exchange id, validate the
session, route to the book; `true` iff the book reports success (`0`).
There is no catch here: a book-level error propagates to the caller. -/
def exchCancel (s : ExchState) (xid : Nat) (sess : String) :
    (Except String Bool) × ExchState :=
  match s.orders.get xid with
  | none => (.ok false, s)
  | some o =>
    if o.sessionId ≠ sess then (.ok false, s)
    else
      match getBook s.books o.instrument with
      | none => (.ok false, s)
      | some b =>
        let c0 : BookCtx :=
          { store := s.orders, bids := b.bids, asks := b.asks,
            events := s.events }
        let r := obCancelOrder xid c0
        let s1 := s.withBook o.instrument r.2 b.quotes
        match r.1 with
        | .error m => (.error m, s1)
        | .ok res => (.ok (res = 0), s1)

/-- `Exchange::getOrder`: a snapshot of the order, provided both the
`OrderMap` entry and the instrument's book exist. -/
def exchGetOrder (s : ExchState) (xid : Nat) : Option Order :=
  match s.orders.get xid with
  | none => none
  | some o =>
    match getBook s.books o.instrument with
    | none => none
    | some _ => some o

/-- `Exchange::quote`: get-or-create the book, look up or lazily create
the `(sessionId, quoteId)` bucket — the factory constructs (and
publishes into the `OrderMap`) an order only for each side with a
*positive* target quantity — then hand the pair to `OrderBook::quote`.
No catch: errors propagate. -/
def exchQuote (s : ExchState) (sess inst : String) (bp : Price)
    (bq : Int) (ap : Price) (aq : Int) (qid : String) :
    ExchState × Option String :=
  let bb := getOrCreate s.books inst
  let b := bb.1
  match (b.quotes.find? (fun e => e.1 = (sess, qid))).map (·.2) with
  | some refs =>
    let c0 : BookCtx :=
      { store := s.orders, bids := b.bids, asks := b.asks,
        events := s.events }
    let r := obQuote refs bp bq ap aq c0
    ({ s with
       orders := r.1.store,
       events := r.1.events,
       books := setBook bb.2 inst
         { bids := r.1.bids, asks := r.1.asks, quotes := b.quotes } },
     r.2)
  | none =>
    let bidId : Option Nat := if 0 < bq then some (s.nextId + 1) else none
    let nid1 := if 0 < bq then s.nextId + 1 else s.nextId
    let askId : Option Nat := if 0 < aq then some (nid1 + 1) else none
    let nid2 := if 0 < aq then nid1 + 1 else nid1
    let refs : Option Nat × Option Nat := (bidId, askId)
    let st1 : Store :=
      match askId with
      | some i => (i, mkOrder sess qid inst ap aq Side.sell i) :: s.orders
      | none => s.orders
    let st2 : Store :=
      match bidId with
      | some i => (i, mkOrder sess qid inst bp bq Side.buy i) :: st1
      | none => st1
    let quotes1 := b.quotes ++ [((sess, qid), refs)]
    let c0 : BookCtx :=
      { store := st2, bids := b.bids, asks := b.asks, events := s.events }
    let r := obQuote refs bp bq ap aq c0
    ({ orders := r.1.store,
       books := setBook bb.2 inst
         { bids := r.1.bids, asks := r.1.asks, quotes := quotes1 },
       nextId := nid2,
       events := r.1.events },
     r.2)

/-- A public engine operation (the `Exchange` API surface that mutates
state). -/
inductive Op where
  | limit (sd : Side) (sess inst : String) (p : ℤ) (q : Int) (ostr : String)
  | market (sd : Side) (sess inst : String) (q : Int) (ostr : String)
  | quoteOp (sess inst : String) (bp : ℤ) (bq : Int) (ap : ℤ) (aq : Int)
      (qid : String)
  | cancelOp (xid : Nat) (sess : String)

/-- Apply one public operation; the resulting state is the engine state
afterwards (for an operation that throws, the state as mutated up to
the throw — heap effects persist). -/
def applyOp (s : ExchState) : Op → ExchState
  | .limit sd sess inst p q ostr =>
    (exchInsertOrder s sess inst (Price.lim p) q sd ostr).2
  | .market sd sess inst q ostr =>
    (exchInsertOrder s sess inst
      (if sd = Side.buy then Price.mktBuy else Price.mktSell) q sd ostr).2
  | .quoteOp sess inst bp bq ap aq qid =>
    (exchQuote s sess inst (Price.lim bp) bq (Price.lim ap) aq qid).1
  | .cancelOp xid sess => (exchCancel s xid sess).2

/-- Engine states reachable from boot through the public API. -/
inductive Reachable : ExchState → Prop where
  | init : Reachable initExch
  | step {s : ExchState} (op : Op) : Reachable s → Reachable (applyOp s op)

/-- An operation whose quote target quantities are nonnegative (all
other operations are unrestricted). -/
def PosOp : Op → Prop
  | .quoteOp _ _ _ bq _ aq _ => 0 ≤ bq ∧ 0 ≤ aq
  | _ => True

/-- Engine states reachable using only nonnegative quote targets. -/
inductive ReachablePos : ExchState → Prop where
  | init : ReachablePos initExch
  | step {s : ExchState} (op : Op) : PosOp op → ReachablePos s →
      ReachablePos (applyOp s op)

/-- Run a sequence of operations from a state. -/
def runOps (s : ExchState) (ops : List Op) : ExchState :=
  ops.foldl applyOp s

/-- The trades in an event log, in emission order. -/
def tradesOf (evs : List Event) : List TradeRec :=
  evs.filterMap (fun e => match e with | .onTrade t => some t | _ => none)

/-! ## Well-formedness

The invariants that every reachable engine state satisfies.  They are
phrased so that each component is decidable and can be established on
concrete states by evaluation. -/

/-- A property of the value an optional lookup returns; fails on a
missing value. -/
def optHolds {α : Type} : Option α → (α → Prop) → Prop
  | none, _ => False
  | some a, P => P a

instance {α : Type} (x : Option α) (P : α → Prop) [∀ a, Decidable (P a)] :
    Decidable (optHolds x P) := by
  cases x <;> simp only [optHolds] <;> infer_instance

/-- Executable counterpart of `List.Chain'`, used only to decide it. -/
def chainD {α : Type} (R : α → α → Prop) [DecidableRel R] :
    List α → Bool
  | [] => true
  | [_] => true
  | a :: b :: t => decide (R a b) && chainD R (b :: t)

theorem chainD_iff_chain' {α : Type} (R : α → α → Prop) [DecidableRel R] :
    ∀ ls : List α, chainD R ls = true ↔ ls.Chain' R
  | [] => by simp [chainD]
  | [a] => by simp [chainD]
  | a :: b :: t => by
    simp only [chainD, Bool.and_eq_true, decide_eq_true_eq,
      List.chain'_cons, chainD_iff_chain' R (b :: t)]

/-- A ladder is sorted strictly by its side's comparator (asks
ascending, bids descending). -/
def Ladder.sortedBy (asc : Bool) (ls : Ladder) : Prop :=
  ls.Chain' (fun a b => cmpP asc a.price b.price)

instance (asc : Bool) (ls : Ladder) : Decidable (ls.sortedBy asc) :=
  decidable_of_iff _
    (chainD_iff_chain' (fun a b : Level => cmpP asc a.price b.price) ls)

/-- Every level of the ladder is nonempty and every resting id resolves
to a live order of the right side, price and instrument whose list
handle is attached. -/
def Ladder.memOK (st : Store) (inst : String) (sd : Side) (ls : Ladder) :
    Prop :=
  ∀ l ∈ ls, l.fifo ≠ [] ∧ ∀ oid ∈ l.fifo,
    optHolds (st.get oid) (fun o =>
      o.onList = true ∧ o.side = sd ∧ o.price = l.price ∧
      o.instrument = inst)

instance (st : Store) (inst : String) (sd : Side) (ls : Ladder) :
    Decidable (ls.memOK st inst sd) := by
  unfold Ladder.memOK; infer_instance

/-- Every order referenced from the quote table exists and has the
right side and instrument (the exchange's factory publishes both
created orders into the `OrderMap` before storing the pair). -/
def quotesOK (st : Store) (inst : String)
    (qs : List ((String × String) × (Option Nat × Option Nat))) : Prop :=
  ∀ e ∈ qs,
    (∀ oid, e.2.1 = some oid →
      optHolds (st.get oid) (fun o => o.side = Side.buy ∧ o.instrument = inst)) ∧
    (∀ oid, e.2.2 = some oid →
      optHolds (st.get oid) (fun o => o.side = Side.sell ∧ o.instrument = inst))

instance {α : Type} (x : Option α) (P : α → Prop) [∀ a, Decidable (P a)] :
    Decidable (∀ a, x = some a → P a) :=
  match x with
  | none => .isTrue (by intro a h; cases h)
  | some v =>
    decidable_of_iff (P v)
      ⟨fun h a ha => by cases ha; exact h, fun h => h v rfl⟩

instance (st : Store) (inst : String)
    (qs : List ((String × String) × (Option Nat × Option Nat))) :
    Decidable (quotesOK st inst qs) := by
  unfold quotesOK; infer_instance

/-- `remaining + filled = quantity`, or the order has been cancelled
(`remaining` zeroed with `filled` untouched) and is off every list. -/
def sumPred (o : Order) : Prop :=
  o.remaining + o.filled = o.quantity ∨ (o.remaining = 0 ∧ o.onList = false)

instance (o : Order) : Decidable (sumPred o) := by
  unfold sumPred; infer_instance

/-- The fill-accounting invariant over the whole heap. -/
def sumOK (st : Store) : Prop := ∀ p ∈ st, sumPred p.2

instance (st : Store) : Decidable (sumOK st) := by
  unfold sumOK; infer_instance

/-- Well-formedness of one book against the heap. -/
def bookWF (st : Store) (inst : String) (b : BookState) : Prop :=
  b.bids.sortedBy false ∧ b.asks.sortedBy true ∧
  b.bids.memOK st inst Side.buy ∧ b.asks.memOK st inst Side.sell ∧
  b.oids.Nodup ∧ quotesOK st inst b.quotes

instance (st : Store) (inst : String) (b : BookState) :
    Decidable (bookWF st inst b) := by
  unfold bookWF; infer_instance

/-- Every order whose list handle is attached really rests on the
correct side ladder of its instrument's book (the converse direction of
`Ladder.memOK`): `isOnList()` never lies. -/
def onListOK (s : ExchState) : Prop :=
  ∀ p ∈ s.orders, p.2.onList = true →
    optHolds (getBook s.books p.2.instrument) (fun b =>
      if p.2.side = Side.buy then p.1 ∈ Ladder.oids b.bids
      else p.1 ∈ Ladder.oids b.asks)

instance (s : ExchState) : Decidable (onListOK s) := by
  unfold onListOK; infer_instance

/-- Well-formedness of the whole engine state. -/
def WF (s : ExchState) : Prop :=
  (s.orders.map (·.1)).Nodup ∧
  (∀ k ∈ s.orders.map (·.1), 0 < k ∧ k ≤ s.nextId) ∧
  (s.books.map (·.1)).Nodup ∧
  (∀ p ∈ s.books, bookWF s.orders p.1 p.2) ∧
  sumOK s.orders ∧
  onListOK s

instance (s : ExchState) : Decidable (WF s) := by
  unfold WF; infer_instance

/-- Every resting order has strictly positive remaining quantity. -/
def posOK (s : ExchState) : Prop :=
  ∀ p ∈ s.books, ∀ oid ∈ p.2.oids,
    optHolds (s.orders.get oid) (fun o => 0 < o.remaining)

instance (s : ExchState) : Decidable (posOK s) := by
  unfold posOK; infer_instance

/-- Well-formedness of one book's working context, the invariant every
`OrderBook` method preserves: unique heap keys, sorted ladders whose
resting ids resolve to matching live orders, no id resting twice,
fill accounting, and truthful list handles for this instrument. -/
def ctxInv (inst : String) (c : BookCtx) : Prop :=
  (c.store.map (·.1)).Nodup ∧
  c.bids.sortedBy false ∧ c.asks.sortedBy true ∧
  c.bids.memOK c.store inst Side.buy ∧
  c.asks.memOK c.store inst Side.sell ∧
  (Ladder.oids c.bids ++ Ladder.oids c.asks).Nodup ∧
  sumOK c.store ∧
  (∀ k o, Store.get c.store k = some o → o.onList = true →
    o.instrument = inst →
    (if o.side = Side.buy then k ∈ Ladder.oids c.bids
     else k ∈ Ladder.oids c.asks))

/-- Every order resting in the context has positive remaining
quantity. -/
def ctxPos (c : BookCtx) : Prop :=
  ∀ oid ∈ c.oids, optHolds (Store.get c.store oid) (fun o => 0 < o.remaining)

instance (c : BookCtx) : Decidable (ctxPos c) := by
  unfold ctxPos; infer_instance

/-- How a single book operation may evolve the shared heap: the keys
are unchanged, every order keeps its side, instrument and session, and
orders of other instruments are not touched at all. -/
def StoreEvol (inst : String) (st st' : Store) : Prop :=
  st'.map (·.1) = st.map (·.1) ∧
  ∀ k o, Store.get st k = some o → ∃ o', Store.get st' k = some o' ∧
    o'.side = o.side ∧ o'.instrument = o.instrument ∧
    o'.sessionId = o.sessionId ∧ (o.instrument ≠ inst → o' = o)

/-! ## Concrete scenarios

Engine runs used to settle the claims on concrete inputs.  Prices are
scaled by `10^7` (`Fixed<7>`): `1.0 = 10000000`, `0.75 = 7500000`. -/

/-- Scenario S1, first leg: `Buy(price=1.0, qty=10)` on instrument
"I". -/
def s1AfterBuy : ExchState :=
  (exchBuy initExch "b" "I" (Price.lim 10000000) 10 "o1").2

/-- Scenario S1, both legs: then `Sell(price=0.75, qty=10)`. -/
def s1Final : ExchState :=
  (exchSell s1AfterBuy "a" "I" (Price.lim 7500000) 10 "o2").2

/-- `Buy(1.0, 20)` followed by an owner cancel. -/
def cancelRun : ExchState :=
  applyOp (applyOp initExch (.limit Side.buy "b" "I" 10000000 20 "o1"))
    (.cancelOp 1 "b")

/-- The single `OrderMap` entry of `cancelRun`: the cancelled buy, with
`remaining` zeroed and `filled` untouched. -/
def cancelRunPair : Nat × Order :=
  (1, { exchangeId := 1,
        sessionId := "b",
        orderId := "o1",
        instrument := "I",
        side := Side.buy,
        price := Price.lim 10000000,
        quantity := 20,
        remaining := 0,
        filled := 0,
        cumQty := 0,
        avgPrice := 0,
        onList := false })

/-- A two-sided, non-crossing quote (bid 900 × 10, ask 1000 × 10). -/
def quoteBase : ExchState :=
  applyOp initExch (.quoteOp "s" "I" 900 10 1000 10 "q")

/-- Re-arming `quoteBase` with a *negative* bid target quantity. -/
def quoteNeg : ExchState :=
  applyOp quoteBase (.quoteOp "s" "I" 900 (-5) 1000 10 "q")

/-- A self-crossing first quote (bid 1000 × 10 against ask 900 × 10):
both quote orders trade against each other and leave the book. -/
def quoteCross : ExchState :=
  applyOp initExch (.quoteOp "s" "I" 1000 10 900 10 "q")

/-- Re-arming the bid side of `quoteCross` (bid 1000 × 5, ask pulled). -/
def quoteCrossRearm : ExchState :=
  applyOp quoteCross (.quoteOp "s" "I" 1000 5 900 0 "q")

/-- A corrupted book used to exercise the invariant-violation path: the
resting ask's list handle is dead (`onList = false`) although the order
still sits on the ask ladder, so any removal throws
"node is null on removal" (`OrderList::remove`). -/
def corruptState : ExchState :=
  { orders := [(1,
      { exchangeId := 1, sessionId := "a", orderId := "x",
        instrument := "I", side := Side.sell, price := Price.lim 900,
        quantity := 5, remaining := 5, filled := 0, cumQty := 0,
        avgPrice := 0, onList := false })],
    books := [("I",
      { bids := [], asks := [⟨Price.lim 900, [1]⟩], quotes := [] })],
    nextId := 1, events := [] }

/-- The resting bid of the crossed book below. -/
def crossedBid : Order :=
  { exchangeId := 1, sessionId := "b", orderId := "1",
    instrument := "I", side := Side.buy, price := Price.lim 1000,
    quantity := 10, remaining := 10, filled := 0, cumQty := 0,
    avgPrice := 0, onList := true }

/-- The resting ask of the crossed book below. -/
def crossedAsk : Order :=
  { exchangeId := 2, sessionId := "a", orderId := "2",
    instrument := "I", side := Side.sell, price := Price.lim 900,
    quantity := 4, remaining := 4, filled := 0, cumQty := 0,
    avgPrice := 0, onList := true }

/-- A small crossed book handed directly to the matching loop: one bid
(id 1, price 1000, remaining 10) against one ask (id 2, price 900,
remaining 4). -/
def crossedCtx : BookCtx :=
  { store := [(1, crossedBid), (2, crossedAsk)],
    bids := [⟨Price.lim 1000, [1]⟩],
    asks := [⟨Price.lim 900, [2]⟩],
    events := [] }

/-- The trade the matching loop performs on `crossedCtx`. -/
def crossedTrade : TradeRec :=
  { price := Price.lim 900, qty := 4, aggressorId := 1, passiveId := 2 }

/-- The partially filled bid of `crossedCtx` after one iteration. -/
def crossedBidAfter : Order :=
  { exchangeId := 1, sessionId := "b", orderId := "1",
    instrument := "I", side := Side.buy, price := Price.lim 1000,
    quantity := 10, remaining := 6, filled := 4, cumQty := 4,
    avgPrice := 900, onList := true }

/-- The fully filled ask of `crossedCtx` after one iteration. -/
def crossedAskAfter : Order :=
  { exchangeId := 2, sessionId := "a", orderId := "2",
    instrument := "I", side := Side.sell, price := Price.lim 900,
    quantity := 4, remaining := 0, filled := 4, cumQty := 4,
    avgPrice := 900, onList := false }

/-- `crossedCtx` after one iteration of the matching loop. -/
def crossedAfter : BookCtx :=
  { store := [(1, crossedBidAfter), (2, crossedAskAfter)],
    bids := [⟨Price.lim 1000, [1]⟩],
    asks := [],
    events := [.onOrder crossedBidAfter, .onOrder crossedAskAfter,
      .onTrade crossedTrade] }


/-- The bid-side quote order of `quoteCross` after both sides filled. -/
def quoteCrossBid : Order :=
  { exchangeId := 1, sessionId := "s", orderId := "q",
    instrument := "I", side := Side.buy, price := Price.lim 1000,
    quantity := 10, remaining := 0, filled := 10, cumQty := 10,
    avgPrice := 900, onList := false }

/-- The ask-side quote order of `quoteCross` after both sides filled. -/
def quoteCrossAsk : Order :=
  { exchangeId := 2, sessionId := "s", orderId := "q",
    instrument := "I", side := Side.sell, price := Price.lim 900,
    quantity := 10, remaining := 0, filled := 10, cumQty := 10,
    avgPrice := 900, onList := false }

/-- The book context of instrument "I" after `quoteCross`: both quote
orders fully filled and off the (empty) ladders. -/
def quoteCrossCtx : BookCtx :=
  { store := quoteCross.orders, bids := [], asks := [],
    events := quoteCross.events }

/-- The book of instrument "I" after `quoteBase`. -/
def quoteBaseBook : BookState :=
  { bids := [⟨Price.lim 900, [1]⟩], asks := [⟨Price.lim 1000, [2]⟩],
    quotes := [(("s", "q"), (some 1, some 2))] }

/-- The resting bid quote order of `quoteBase`. -/
def quoteBaseBid : Order :=
  { exchangeId := 1, sessionId := "s", orderId := "q",
    instrument := "I", side := Side.buy, price := Price.lim 900,
    quantity := 10, remaining := 10, filled := 0, cumQty := 0,
    avgPrice := 0, onList := true }

/-- The resting ask quote order of `quoteBase`. -/
def quoteBaseAsk : Order :=
  { exchangeId := 2, sessionId := "s", orderId := "q",
    instrument := "I", side := Side.sell, price := Price.lim 1000,
    quantity := 10, remaining := 10, filled := 0, cumQty := 0,
    avgPrice := 0, onList := true }


/-! ## Store and book-map lemmas -/

theorem Store.get_cons (k : Nat) (o : Order) (st : Store) (k' : Nat) :
    Store.get ((k, o) :: st) k' = if k' = k then some o else Store.get st k' := by
  by_cases h : k = k'
  · subst h; simp [Store.get, List.find?_cons_of_pos]
  · rw [if_neg (fun hc => h hc.symm)]
    simp [Store.get, List.find?_cons_of_neg, h]

theorem Store.get_upd (st : Store) (k : Nat) (f : Order → Order)
    (k' : Nat) :
    Store.get (Store.upd st k f) k' =
      if k' = k then (Store.get st k').map f else Store.get st k' := by
  induction st with
  | nil => simp only [Store.upd, List.map_nil, Store.get]; split <;> simp
  | cons p st ih =>
    obtain ⟨a, o⟩ := p
    by_cases hak : a = k
    · subst hak
      by_cases hk' : k' = a
      · subst hk'
        simp [Store.upd, Store.get_cons]
      · have e1 : Store.upd ((a, o) :: st) a f =
            (a, f o) :: Store.upd st a f := by simp [Store.upd]
        rw [e1, Store.get_cons, if_neg hk', Store.get_cons, if_neg hk',
          ih, if_neg hk', if_neg hk']
    · have e1 : Store.upd ((a, o) :: st) k f =
          (a, o) :: Store.upd st k f := by simp [Store.upd, hak]
      by_cases hk' : k' = a
      · subst hk'
        rw [e1, Store.get_cons, if_pos rfl, Store.get_cons, if_pos rfl,
          if_neg hak]
      · rw [e1, Store.get_cons, if_neg hk', Store.get_cons, if_neg hk']
        exact ih

theorem Store.upd_keys (st : Store) (k : Nat) (f : Order → Order) :
    (Store.upd st k f).map (·.1) = st.map (·.1) := by
  induction st with
  | nil => rfl
  | cons p st ih =>
    by_cases hp : p.1 = k <;> simp only [Store.upd, List.map_cons, hp,
      if_pos, if_neg, ite_true, ite_false] <;>
      simpa [Store.upd] using ih

theorem getBook_cons (k : String) (b : BookState)
    (bs : List (String × BookState)) (k' : String) :
    getBook ((k, b) :: bs) k' = if k' = k then some b else getBook bs k' := by
  by_cases h : k = k'
  · subst h; simp [getBook, List.find?_cons_of_pos]
  · rw [if_neg (fun hc => h hc.symm)]
    simp [getBook, List.find?_cons_of_neg, h]

theorem getBook_setBook (bs : List (String × BookState)) (inst : String)
    (x : BookState) (inst' : String) :
    getBook (setBook bs inst x) inst' =
      if inst' = inst then (getBook bs inst').map (fun _ => x)
      else getBook bs inst' := by
  induction bs with
  | nil => simp only [setBook, List.map_nil, getBook]; split <;> simp
  | cons p bs ih =>
    obtain ⟨a, b⟩ := p
    by_cases hak : a = inst
    · subst hak
      by_cases hk' : inst' = a
      · subst hk'
        simp [setBook, getBook_cons]
      · have e1 : setBook ((a, b) :: bs) a x =
            (a, x) :: setBook bs a x := by simp [setBook]
        rw [e1, getBook_cons, if_neg hk', getBook_cons, if_neg hk',
          ih, if_neg hk', if_neg hk']
    · have e1 : setBook ((a, b) :: bs) inst x =
          (a, b) :: setBook bs inst x := by simp [setBook, hak]
      by_cases hk' : inst' = a
      · subst hk'
        rw [e1, getBook_cons, if_pos rfl, getBook_cons, if_pos rfl,
          if_neg hak]
      · rw [e1, getBook_cons, if_neg hk', getBook_cons, if_neg hk']
        exact ih

theorem setBook_setBook (bs : List (String × BookState)) (inst : String)
    (x : BookState) :
    setBook (setBook bs inst x) inst x = setBook bs inst x := by
  induction bs with
  | nil => rfl
  | cons p bs ih =>
    by_cases hp : p.1 = inst <;> simp [setBook, hp] <;>
      simpa [setBook] using ih

theorem setBook_keys (bs : List (String × BookState)) (inst : String)
    (x : BookState) :
    (setBook bs inst x).map (·.1) = bs.map (·.1) := by
  induction bs with
  | nil => rfl
  | cons p bs ih =>
    by_cases hp : p.1 = inst <;> simp only [setBook, List.map_cons,
      if_pos, if_neg, hp, ite_true, ite_false] <;>
      simpa [setBook] using ih

/-! ## Cancellation lemmas -/

theorem obCancel_none (oid : Nat) (c : BookCtx)
    (h : Store.get c.store oid = none) :
    obCancelOrder oid c = (.ok (-1), c) := by
  unfold obCancelOrder; rw [h]

theorem obCancel_nonpos (oid : Nat) (c : BookCtx) (o : Order)
    (h : Store.get c.store oid = some o) (hr : ¬ 0 < o.remaining) :
    obCancelOrder oid c = (.ok (-1), c) := by
  unfold obCancelOrder; rw [h]; simp [hr]

/-- After any `cancelOrder` call, either the call was a no-op `-1`
(the order is missing or already terminal), or the target order's
`remaining` has been zeroed with its identity fields unchanged. -/
theorem obCancel_post (oid : Nat) (c : BookCtx) :
    (obCancelOrder oid c = (.ok (-1), c) ∧
      (Store.get c.store oid = none ∨
        ∃ o, Store.get c.store oid = some o ∧ ¬ 0 < o.remaining)) ∨
    (∃ o, Store.get c.store oid = some o ∧ 0 < o.remaining ∧
      ∃ oo, Store.get (obCancelOrder oid c).2.store oid = some oo ∧
        oo.remaining = 0 ∧ oo.sessionId = o.sessionId ∧
        oo.instrument = o.instrument) := by
  cases h : Store.get c.store oid with
  | none => exact .inl ⟨obCancel_none oid c h, .inl rfl⟩
  | some o =>
    by_cases hr : 0 < o.remaining
    · right
      refine ⟨o, rfl, hr, ?_⟩
      unfold obCancelOrder
      rw [h]
      by_cases hl : o.onList
      · simp only [if_pos hr, if_pos hl]
        cases hrem : Ladder.removeOrder (o.side = Side.sell) o.onList
            o.price oid (if o.side = Side.buy then c.bids else c.asks) with
        | error m =>
          refine ⟨o.cancel, ?_, rfl, rfl, rfl⟩
          simp [Store.get_upd, h]
        | ok lad1 =>
          by_cases hsd : o.side = Side.buy
          · simp only [if_pos hsd]
            refine ⟨{ o.cancel with onList := false }, ?_, rfl, rfl, rfl⟩
            simp [Store.get_upd, h, Order.cancel]
          · simp only [if_neg hsd]
            refine ⟨{ o.cancel with onList := false }, ?_, rfl, rfl, rfl⟩
            simp [Store.get_upd, h, Order.cancel]
      · simp only [if_pos hr, if_neg hl]
        refine ⟨o.cancel, ?_, rfl, rfl, rfl⟩
        simp [Store.get_upd, h]
    · exact .inl ⟨obCancel_nonpos oid c o h hr, .inr ⟨o, rfl, hr⟩⟩

/-! ## Evaluation lemmas for `Exchange::cancel` -/

theorem exchCancel_no_order (s : ExchState) (xid : Nat) (sess : String)
    (h : Store.get s.orders xid = none) :
    exchCancel s xid sess = (.ok false, s) := by
  unfold exchCancel; rw [h]

theorem exchCancel_bad_session (s : ExchState) (xid : Nat) (sess : String)
    (o : Order) (h : Store.get s.orders xid = some o)
    (hs : o.sessionId ≠ sess) :
    exchCancel s xid sess = (.ok false, s) := by
  unfold exchCancel; rw [h]; simp [hs]

theorem exchCancel_no_book (s : ExchState) (xid : Nat) (sess : String)
    (o : Order) (h : Store.get s.orders xid = some o)
    (hs : o.sessionId = sess) (hb : getBook s.books o.instrument = none) :
    exchCancel s xid sess = (.ok false, s) := by
  unfold exchCancel; rw [h]; simp [hs, hb]

theorem exchCancel_eval (s : ExchState) (xid : Nat) (sess : String)
    (o : Order) (b : BookState)
    (h : Store.get s.orders xid = some o) (hs : o.sessionId = sess)
    (hb : getBook s.books o.instrument = some b) :
    exchCancel s xid sess =
      (match (obCancelOrder xid
          { store := s.orders, bids := b.bids, asks := b.asks,
            events := s.events }).1 with
        | .error m => .error m
        | .ok res => .ok (decide (res = 0)),
       { s with
         orders := (obCancelOrder xid
           { store := s.orders, bids := b.bids, asks := b.asks,
             events := s.events }).2.store,
         events := (obCancelOrder xid
           { store := s.orders, bids := b.bids, asks := b.asks,
             events := s.events }).2.events,
         books := setBook s.books o.instrument
           { bids := (obCancelOrder xid
               { store := s.orders, bids := b.bids, asks := b.asks,
                 events := s.events }).2.bids,
             asks := (obCancelOrder xid
               { store := s.orders, bids := b.bids, asks := b.asks,
                 events := s.events }).2.asks,
             quotes := b.quotes } }) := by
  unfold exchCancel
  rw [h]
  simp only [hs, ne_eq, not_true_eq_false, if_false, ite_false, hb]
  cases (obCancelOrder xid
    { store := s.orders, bids := b.bids, asks := b.asks,
      events := s.events }).1 <;> rfl

/-- A cancel whose target is missing or already terminal returns
`false` and — provided rewriting the book entry is a no-op, as it is
for any state just written by a cancel — leaves the state unchanged. -/
theorem exchCancel_false_of_zero (s : ExchState) (xid : Nat) (sess : String)
    (hz : ∀ o, Store.get s.orders xid = some o → ¬ 0 < o.remaining)
    (hsb : ∀ o b, Store.get s.orders xid = some o →
      getBook s.books o.instrument = some b →
      setBook s.books o.instrument
        { bids := b.bids, asks := b.asks, quotes := b.quotes } = s.books) :
    exchCancel s xid sess = (.ok false, s) := by
  obtain ⟨sor, sbk, snx, sev⟩ := s
  cases h1 : Store.get sor xid with
  | none => exact exchCancel_no_order _ xid sess h1
  | some o =>
    by_cases hsess : o.sessionId = sess
    · cases hb : getBook sbk o.instrument with
      | none => exact exchCancel_no_book _ xid sess o h1 hsess hb
      | some b =>
        rw [exchCancel_eval _ xid sess o b h1 hsess hb,
          obCancel_nonpos xid _ o h1 (hz o h1)]
        simp only [Prod.mk.injEq, ExchState.mk.injEq]
        simp [hsb o b h1 hb]
    · exact exchCancel_bad_session _ xid sess o h1 hsess

/-- Claim C8: `cancel` is idempotent in effect.  For every engine
state, exchange id and session, an immediately repeated cancel call
returns `false` and leaves the whole engine state (order fields,
ladders, book map, events) exactly as the first call left it; by
induction the same holds for every later repeat. -/
theorem C8_cancel_idempotent (s : ExchState) (xid : Nat) (sess : String) :
    exchCancel (exchCancel s xid sess).2 xid sess =
      (.ok false, (exchCancel s xid sess).2) := by
  cases h1 : Store.get s.orders xid with
  | none =>
    rw [exchCancel_no_order s xid sess h1]
    exact exchCancel_no_order s xid sess h1
  | some o =>
    by_cases hsess : o.sessionId = sess
    case neg =>
      rw [exchCancel_bad_session s xid sess o h1 hsess]
      exact exchCancel_bad_session s xid sess o h1 hsess
    case pos =>
    cases hb : getBook s.books o.instrument with
    | none =>
      rw [exchCancel_no_book s xid sess o h1 hsess hb]
      exact exchCancel_no_book s xid sess o h1 hsess hb
    | some b =>
      rcases obCancel_post xid
          { store := s.orders, bids := b.bids, asks := b.asks,
            events := s.events } with
        ⟨hres, hwhy⟩ | ⟨o', ho', _, oo, hoo, hz, hsess2, hinst2⟩
      · -- first call was a `-1` no-op: the state only had its book
        -- entry rewritten in place
        have hS : (exchCancel s xid sess).2 =
            { s with books := (setBook s.books o.instrument
                ⟨b.bids, b.asks, b.quotes⟩) } := by
          rw [exchCancel_eval s xid sess o b h1 hsess hb, hres]
        rw [hS]
        refine exchCancel_false_of_zero _ xid sess ?_ ?_
        · intro oz hoz
          have hoz' : Store.get s.orders xid = some oz := hoz
          rw [h1] at hoz'
          obtain rfl : o = oz := by injection hoz'
          rcases hwhy with hnone | ⟨o2, ho2, hr2⟩
          · rw [show Store.get
                ({ store := s.orders, bids := b.bids, asks := b.asks,
                   events := s.events } : BookCtx).store xid =
              Store.get s.orders xid from rfl, h1] at hnone
            cases hnone
          · have : Store.get s.orders xid = some o2 := ho2
            rw [h1] at this
            obtain rfl : o = o2 := by injection this
            exact hr2
        · intro oz bz hoz hbz
          have hoz' : Store.get s.orders xid = some oz := hoz
          rw [h1] at hoz'
          obtain rfl : o = oz := by injection hoz'
          have hbz' : getBook (setBook s.books o.instrument
              (⟨b.bids, b.asks, b.quotes⟩ : BookState)) o.instrument =
              some bz := hbz
          rw [getBook_setBook, if_pos rfl, hb] at hbz'
          obtain rfl : (⟨b.bids, b.asks, b.quotes⟩ : BookState) = bz := by
            injection hbz'
          exact setBook_setBook s.books o.instrument
            ⟨b.bids, b.asks, b.quotes⟩
      · -- first call zeroed `remaining`
        have ho2 : o' = o := by
          have h' : Store.get s.orders xid = some o' := ho'
          rw [h1] at h'
          injection h' with h''
          exact h''.symm
        have hoi : oo.instrument = o.instrument := by rw [hinst2, ho2]
        have hS : (exchCancel s xid sess).2 =
            { s with
              orders := (obCancelOrder xid
                ⟨s.orders, b.bids, b.asks, s.events⟩).2.store,
              events := (obCancelOrder xid
                ⟨s.orders, b.bids, b.asks, s.events⟩).2.events,
              books := (setBook s.books o.instrument
                ⟨(obCancelOrder xid
                    ⟨s.orders, b.bids, b.asks, s.events⟩).2.bids,
                  (obCancelOrder xid
                    ⟨s.orders, b.bids, b.asks, s.events⟩).2.asks,
                  b.quotes⟩) } := by
          rw [exchCancel_eval s xid sess o b h1 hsess hb]
        rw [hS]
        refine exchCancel_false_of_zero _ xid sess ?_ ?_
        · intro oz hoz
          have hoz' : Store.get (obCancelOrder xid
              (⟨s.orders, b.bids, b.asks, s.events⟩ : BookCtx)).2.store
              xid = some oz := hoz
          rw [hoo] at hoz'
          obtain rfl : oo = oz := by injection hoz'
          rw [hz]
          exact lt_irrefl 0
        · intro oz bz hoz hbz
          have hoz' : Store.get (obCancelOrder xid
              (⟨s.orders, b.bids, b.asks, s.events⟩ : BookCtx)).2.store
              xid = some oz := hoz
          rw [hoo] at hoz'
          obtain rfl : oo = oz := by injection hoz'
          have hbz' : getBook (setBook s.books o.instrument
              (⟨(obCancelOrder xid
                  (⟨s.orders, b.bids, b.asks, s.events⟩ : BookCtx)).2.bids,
                (obCancelOrder xid
                  (⟨s.orders, b.bids, b.asks, s.events⟩ : BookCtx)).2.asks,
                b.quotes⟩ : BookState)) oo.instrument = some bz := hbz
          rw [hoi, getBook_setBook, if_pos rfl, hb] at hbz'
          have hbz2 := (Option.some.injEq _ _).mp hbz'
          rw [hoi]
          rw [← hbz2]
          exact setBook_setBook s.books o.instrument _
/-! ## Claim counterexamples and concrete evaluations -/

/-- Claim C1 is false as stated: in scenario S1 — `Buy(1.0, 10)` then
`Sell(0.75, 10)` — the engine produces exactly one trade with the sell
as aggressor and the buy as passive, but its price is `0.75` (the ask
side's price, `min(bid, ask)`), not the passive buy's `1.0` the claim
requires. -/
theorem C1_counterexample :
    tradesOf s1Final.events =
      [{ price := Price.lim 7500000, qty := 10,
         aggressorId := 2, passiveId := 1 }] ∧
    Price.lim 7500000 ≠ Price.lim 10000000 := by decide

/-- Claim C2 is false as stated: after `Buy(1.0, 20)` and a successful
owner cancel — both public operations — the order has `remaining = 0`
and `filled = 0` while its original quantity is `20`, so
`remaining + filled ≠ originalQuantity` (and no quote re-arm is in
flight). -/
theorem C2_counterexample :
    Reachable cancelRun ∧
    (cancelRun.orders.get 1).map
      (fun o => (o.remaining, o.filled, o.quantity)) = some (0, 0, 20) ∧
    (0 : Int) + 0 ≠ 20 := by
  refine ⟨?_, by decide, by decide⟩
  exact .step _ (.step _ .init)

/-- Claim C3 is false as stated: re-arming a quote with a *negative*
bid target quantity (`bidQuantity != 0` is the only check) leaves an
order resting on the bid ladder with `remaining = -5 ≤ 0`. -/
theorem C3_counterexample :
    Reachable quoteNeg ∧
    (getBook quoteNeg.books "I").map (·.bids) =
      some [⟨Price.lim 900, [1]⟩] ∧
    (quoteNeg.orders.get 1).map (·.remaining) = some (-5) := by
  refine ⟨?_, by decide, by decide⟩
  exact .step _ (.step _ .init)

/-- Claim C4 is false as stated: after a self-crossing quote fills both
quote orders (`cumQty = 10`, `avgPrice = 900`), re-arming the bid side
resets `remaining` and `filled` but leaves `cumQty = 10 ≠ 0` and
`avgPrice = 900 ≠ 0` — the quote path never touches `_cumQty` or
`_avgPrice`. -/
theorem C4_counterexample :
    Reachable quoteCrossRearm ∧
    (quoteCrossRearm.orders.get 1).map
      (fun o => (o.remaining, o.filled, o.cumQty, o.avgPrice)) =
      some (5, 0, 10, 900) ∧
    ((10 : Int) ≠ 0 ∧ (900 : Int) ≠ 0) := by
  refine ⟨?_, by decide, by decide⟩
  exact .step _ (.step _ .init)

/-- Claim C5 (code bug): the very first quote for a `(sessionId,
quoteId)` with a zero bid target makes `Exchange::quote`'s lazy factory
create only the ask order, and `OrderBook::quote` then dereferences the
null bid `shared_ptr` — the operation does not complete safely but
crashes (undefined behaviour), modelled as the
"null pointer dereference" error. -/
theorem C5_null_deref :
    (exchQuote initExch "s" "I" (Price.lim 10000000) 0
      (Price.lim 10100000) 10 "q").2 = some "null pointer dereference" := by
  decide

/-- Claim C6 is false as stated: submitting `Buy(qty = 0)` is *not*
free of state changes — the exchange allocates exchange id 1, publishes
the order into the `OrderMap` before the book rejects it, returns the
id, and the order is visible through `get_order` (the book ladders stay
empty and no event is emitted). -/
theorem C6_counterexample :
    (exchBuy initExch "b" "I" (Price.lim 10000000) 0 "o1").1 = some 1 ∧
    exchGetOrder (exchBuy initExch "b" "I" (Price.lim 10000000) 0 "o1").2 1 ≠
      none := by decide

/-- Claim C7 is false as stated: on a book whose resting ask has a dead
list handle, submitting a crossing buy drives the matching loop into
`OrderList::remove`, which throws "node is null on removal" — and
`Exchange::insertOrder`'s catch-all converts that invariant violation
into an ordinary empty submit result instead of aborting the
process. -/
theorem C7_counterexample :
    (exchInsertCore corruptState "b" "I" (Price.lim 10000000) 5 Side.buy
      "o").2 = some "node is null on removal" ∧
    (exchInsertOrder corruptState "b" "I" (Price.lim 10000000) 5 Side.buy
      "o").1 = none := by decide

/-! ## Matching-loop lemmas -/

/-- A successful ladder removal takes out exactly one occurrence of the
order id. -/
theorem removeOrder_perm (asc onl : Bool) (p : Price) (oid : Nat) :
    ∀ ls ls', Ladder.removeOrder asc onl p oid ls = .ok ls' →
      List.Perm (Ladder.oids ls) (oid :: Ladder.oids ls') := by
  intro ls
  induction ls with
  | nil => intro ls' h; cases h
  | cons l ls ih =>
    intro ls' h
    unfold Ladder.removeOrder at h
    have e1 : Ladder.oids (l :: ls) = l.fifo ++ Ladder.oids ls := by
      simp [Ladder.oids]
    by_cases hc : cmpP asc l.price p
    · rw [if_pos hc] at h
      cases hrec : Ladder.removeOrder asc onl p oid ls with
      | error m => rw [hrec] at h; cases h
      | ok ls2 =>
        rw [hrec] at h
        have hls' : ls' = l :: ls2 := by
          simpa [Except.map] using h.symm
        subst hls'
        have e2 : Ladder.oids (l :: ls2) = l.fifo ++ Ladder.oids ls2 := by
          simp [Ladder.oids]
        rw [e1, e2]
        exact ((ih ls2 hrec).append_left l.fifo).trans List.perm_middle
    · rw [if_neg hc] at h
      by_cases hp : l.price = p
      · rw [if_pos hp] at h
        by_cases ho : onl = false
        · rw [if_pos ho] at h; cases h
        · rw [if_neg ho] at h
          by_cases hm : oid ∈ l.fifo
          · rw [if_pos hm] at h
            have h2 : (Except.ok
                (if l.fifo.erase oid = [] then ls
                 else ⟨l.price, l.fifo.erase oid⟩ :: ls) :
                  Except String Ladder) =
                Except.ok ls' := h
            have hfifo := List.perm_cons_erase hm
            by_cases hf : l.fifo.erase oid = []
            · rw [if_pos hf] at h2
              have hls' : ls' = ls := (Except.ok.injEq _ _).mp h2.symm
              rw [hls', e1]
              have hp2 := hfifo.append_right (Ladder.oids ls)
              rw [hf] at hp2
              simpa using hp2
            · rw [if_neg hf] at h2
              have hls' : ls' = ⟨l.price, l.fifo.erase oid⟩ :: ls :=
                (Except.ok.injEq _ _).mp h2.symm
              rw [hls', e1]
              have hp2 := hfifo.append_right (Ladder.oids ls)
              have e2 : Ladder.oids (⟨l.price, l.fifo.erase oid⟩ :: ls) =
                  l.fifo.erase oid ++ Ladder.oids ls := by
                simp [Ladder.oids]
              rw [e2]
              simpa using hp2
          · rw [if_neg hm] at h; cases h
      · rw [if_neg hp] at h; cases h

theorem removeOrder_length (asc onl : Bool) (p : Price) (oid : Nat)
    (ls ls' : Ladder) (h : Ladder.removeOrder asc onl p oid ls = .ok ls') :
    (Ladder.oids ls).length = (Ladder.oids ls').length + 1 := by
  have := (removeOrder_perm asc onl p oid ls ls' h).length_eq
  simpa using this

/-- Everything the loop body guarantees about a traded iteration: the
quantity is the minimum of the two front remainings, the price is
`min(bid, ask)` — the ask side's price, since the loop only trades when
`bid ≥ ask` — aggressor/passive follow the aggressor side, and the
number of resting orders strictly decreases. -/
theorem matchStep_traded_spec (aggr : Side) (c : BookCtx) (t : TradeRec)
    (c' : BookCtx) (h : matchStep aggr c = .traded t c')
    (bOid aOid : Nat) (hbf : Ladder.frontOid c.bids = some bOid)
    (haf : Ladder.frontOid c.asks = some aOid)
    (bo ao : Order) (hbo : Store.get c.store bOid = some bo)
    (hao : Store.get c.store aOid = some ao) :
    t.qty = min bo.remaining ao.remaining ∧
    t.price = min bo.price ao.price ∧
    ao.price ≤ bo.price ∧ t.price = ao.price ∧
    t.aggressorId = (if aggr = Side.buy then bOid else aOid) ∧
    t.passiveId = (if aggr = Side.buy then aOid else bOid) ∧
    c'.restingCount < c.restingCount := by
  simp only [matchStep, hbf, haf, hbo, hao] at h
  by_cases hpr : ao.price ≤ bo.price
  case neg => rw [if_neg hpr] at h; cases h
  case pos =>
  rw [if_pos hpr] at h
  have hminp : min bo.price ao.price = ao.price := min_eq_right hpr
  by_cases hzb : (bo.fill (min bo.remaining ao.remaining)
      (min bo.price ao.price)).remaining = 0
  · rw [if_pos hzb] at h
    cases hrb : Ladder.removeOrder false bo.onList
        (bo.fill (min bo.remaining ao.remaining)
          (min bo.price ao.price)).price bOid c.bids with
    | error m => rw [hrb] at h; cases h
    | ok bids1 =>
      rw [hrb] at h
      dsimp only [] at h
      have hlb := removeOrder_length _ _ _ _ _ _ hrb
      by_cases hza : (ao.fill (min bo.remaining ao.remaining)
          (min bo.price ao.price)).remaining = 0
      · rw [if_pos hza] at h
        cases hra : Ladder.removeOrder true ao.onList
            (ao.fill (min bo.remaining ao.remaining)
              (min bo.price ao.price)).price aOid c.asks with
        | error m => rw [hra] at h; cases h
        | ok asks1 =>
          rw [hra] at h
          dsimp only [] at h
          have hla := removeOrder_length _ _ _ _ _ _ hra
          injection h with ht hc'
          subst ht; subst hc'
          refine ⟨rfl, rfl, hpr, hminp, rfl, rfl, ?_⟩
          simp only [BookCtx.restingCount, BookCtx.oids,
            List.length_append] at hlb hla ⊢
          omega
      · rw [if_neg hza] at h
        injection h with ht hc'
        subst ht; subst hc'
        refine ⟨rfl, rfl, hpr, hminp, rfl, rfl, ?_⟩
        simp only [BookCtx.restingCount, BookCtx.oids,
          List.length_append] at hlb ⊢
        omega
  · rw [if_neg hzb] at h
    by_cases hza : (ao.fill (min bo.remaining ao.remaining)
        (min bo.price ao.price)).remaining = 0
    · rw [if_pos hza] at h
      cases hra : Ladder.removeOrder true ao.onList
          (ao.fill (min bo.remaining ao.remaining)
            (min bo.price ao.price)).price aOid c.asks with
      | error m => rw [hra] at h; cases h
      | ok asks1 =>
        rw [hra] at h
        dsimp only [] at h
        have hla := removeOrder_length _ _ _ _ _ _ hra
        injection h with ht hc'
        subst ht; subst hc'
        refine ⟨rfl, rfl, hpr, hminp, rfl, rfl, ?_⟩
        simp only [BookCtx.restingCount, BookCtx.oids,
          List.length_append] at hla ⊢
        omega
    · exfalso
      rcases min_choice bo.remaining ao.remaining with hm | hm
      · exact hzb (by simp [Order.fill, hm])
      · exact hza (by simp [Order.fill, hm])

/-- A traded iteration strictly decreases the number of resting
orders (no hypotheses about the state at all). -/
theorem matchStep_traded_decreases (aggr : Side) (c : BookCtx)
    (t : TradeRec) (c' : BookCtx) (h : matchStep aggr c = .traded t c') :
    c'.restingCount < c.restingCount := by
  cases hbf : Ladder.frontOid c.bids with
  | none =>
    cases haf : Ladder.frontOid c.asks with
    | none =>
      simp only [matchStep, hbf, haf] at h
      split at h <;> cases h
    | some aOid =>
      simp only [matchStep, hbf, haf] at h
      split at h <;> cases h
  | some bOid =>
    cases haf : Ladder.frontOid c.asks with
    | none =>
      simp only [matchStep, hbf, haf] at h
      split at h <;> cases h
    | some aOid =>
      cases hbo : Store.get c.store bOid with
      | none =>
        simp only [matchStep, hbf, haf, hbo] at h
        cases h
      | some bo =>
        cases hao : Store.get c.store aOid with
        | none =>
          simp only [matchStep, hbf, haf, hbo, hao] at h
          cases h
        | some ao =>
          exact (matchStep_traded_spec aggr c t c' h bOid aOid hbf haf
            bo ao hbo hao).2.2.2.2.2.2

/-- The loop needs no more fuel than the number of resting orders plus
one: every traded iteration strictly decreases that number, so any
larger fuel computes the same result — the while-loop terminates. -/
theorem matchLoopGo_fuel (aggr : Side) :
    ∀ (n : Nat) (c : BookCtx), c.restingCount < n →
      matchLoopGo n aggr c = matchLoopGo (c.restingCount + 1) aggr c := by
  intro n
  induction n using Nat.strong_induction_on with
  | _ n ih =>
    intro c hc
    cases n with
    | zero => exact absurd hc (Nat.not_lt_zero _)
    | succ m =>
      simp only [matchLoopGo]
      cases hstep : matchStep aggr c with
      | brk c1 => rfl
      | err msg c1 => rfl
      | traded t c1 =>
        have hd := matchStep_traded_decreases aggr c t c1 hstep
        have h1 : c1.restingCount < m := by omega
        have h2 : c1.restingCount < c.restingCount := hd
        dsimp only []
        rw [ih m (by omega) c1 h1, ih c.restingCount (by omega) c1 h2]

/-- Claim C9: the matching loop terminates.  In every traded iteration
the quantity is `min` of the two front remaining quantities, so at
least one front order reaches `remaining = 0` (and its removal makes
the resting count strictly decrease); consequently fuel
`restingCount + 1` suffices for the loop on any book state. -/
theorem C9_matching_terminates :
    (∀ (aggr : Side) (c : BookCtx) (t : TradeRec) (c' : BookCtx),
      matchStep aggr c = .traded t c' →
      c'.restingCount < c.restingCount ∧
      ∀ bOid aOid bo ao,
        Ladder.frontOid c.bids = some bOid →
        Ladder.frontOid c.asks = some aOid →
        Store.get c.store bOid = some bo →
        Store.get c.store aOid = some ao →
        t.qty = min bo.remaining ao.remaining ∧
        (bo.remaining - t.qty = 0 ∨ ao.remaining - t.qty = 0)) ∧
    (∀ (fuel : Nat) (aggr : Side) (c : BookCtx),
      c.restingCount < fuel →
      matchLoopGo fuel aggr c = matchLoopGo (c.restingCount + 1) aggr c) := by
  constructor
  · intro aggr c t c' h
    refine ⟨matchStep_traded_decreases aggr c t c' h, ?_⟩
    intro bOid aOid bo ao hbf haf hbo hao
    have hspec := matchStep_traded_spec aggr c t c' h bOid aOid hbf haf
      bo ao hbo hao
    refine ⟨hspec.1, ?_⟩
    rcases min_choice bo.remaining ao.remaining with hm | hm
    · left; rw [hspec.1, hm]; omega
    · right; rw [hspec.1, hm]; omega
  · exact fun fuel aggr c h => matchLoopGo_fuel aggr fuel c h

/-- Witness for C9 on the concrete crossed book `crossedCtx` (bid 10 at
1000 against ask 4 at 900): the step trades and drops the resting count
from 2 to 1, and fuel 5 computes the same loop result as fuel
`restingCount + 1 = 3`. -/
theorem C9_matching_terminates_witness :
    crossedAfter.restingCount < crossedCtx.restingCount ∧
    matchLoopGo 5 Side.buy crossedCtx =
      matchLoopGo (crossedCtx.restingCount + 1) Side.buy crossedCtx := by
  constructor
  · exact (C9_matching_terminates.1 Side.buy crossedCtx crossedTrade
      crossedAfter (by decide)).1
  · exact C9_matching_terminates.2 5 Side.buy crossedCtx (by decide)

/-- Claim C1 (amended): in every traded iteration of the matching loop
the trade price is `min(bid.price, ask.price)`, i.e. always the ask
side's front price (the loop requires `bid ≥ ask`); it equals the
passive order's price exactly when the aggressor is the buy side, and
equals the *aggressor's* price when the aggressor is the sell side.
In particular scenario S1 — `Buy(1.0, 10)` then `Sell(0.75, 10)` —
produces exactly one trade with price `0.75`, quantity 10, the sell as
aggressor and the buy as passive, after which both orders are terminal
and both ladders are empty. -/
theorem C1_trade_price_is_min :
    (∀ (aggr : Side) (c : BookCtx) (t : TradeRec) (c' : BookCtx)
      (bOid aOid : Nat) (bo ao : Order),
      matchStep aggr c = .traded t c' →
      Ladder.frontOid c.bids = some bOid →
      Ladder.frontOid c.asks = some aOid →
      Store.get c.store bOid = some bo →
      Store.get c.store aOid = some ao →
      t.price = min bo.price ao.price ∧ t.price = ao.price ∧
      (aggr = Side.buy → t.passiveId = aOid) ∧
      (aggr = Side.sell → t.aggressorId = aOid)) ∧
    (tradesOf s1Final.events =
      [{ price := Price.lim 7500000, qty := 10,
         aggressorId := 2, passiveId := 1 }] ∧
     (Store.get s1Final.orders 1).map (fun o => (o.remaining, o.filled)) =
       some (0, 10) ∧
     (Store.get s1Final.orders 2).map (fun o => (o.remaining, o.filled)) =
       some (0, 10) ∧
     (getBook s1Final.books "I").map (fun b => (b.bids, b.asks)) =
       some ([], [])) := by
  constructor
  · intro aggr c t c' bOid aOid bo ao h hbf haf hbo hao
    have hspec := matchStep_traded_spec aggr c t c' h bOid aOid hbf haf
      bo ao hbo hao
    refine ⟨hspec.2.1, hspec.2.2.2.1, ?_, ?_⟩
    · intro hb; rw [hspec.2.2.2.2.2.1, if_pos hb]
    · intro hsd
      rw [hspec.2.2.2.2.1]
      cases aggr with
      | buy => cases hsd
      | sell => rfl
  · exact ⟨by decide, by decide, by decide, by decide⟩

/-- Witness for the amended C1 on `crossedCtx`: the concrete traded
step satisfies the price specification. -/
theorem C1_trade_price_is_min_witness :
    crossedTrade.price = min (Price.lim 1000) (Price.lim 900) ∧
    crossedTrade.price = Price.lim 900 := by
  have h := (C1_trade_price_is_min.1 Side.buy crossedCtx crossedTrade
    crossedAfter 1 2 crossedBid crossedAsk
    (by decide) (by decide) (by decide) (by decide) (by decide))
  have e1 : crossedBid.price = Price.lim 1000 := rfl
  have e2 : crossedAsk.price = Price.lim 900 := rfl
  rw [e1, e2] at h
  exact ⟨h.1, h.2.1⟩

/-! ## Submit lemmas -/

theorem obInsert_nonpos (oid : Nat) (c : BookCtx) (o : Order)
    (h : Store.get c.store oid = some o) (hq : o.remaining ≤ 0) :
    obInsertOrder oid c = (c, none) := by
  unfold obInsertOrder; rw [h]; simp [hq]

theorem getBook_append_miss (bs : List (String × BookState)) (inst : String)
    (b : BookState) (h : getBook bs inst = none) :
    getBook (bs ++ [(inst, b)]) inst = some b := by
  induction bs with
  | nil => simp [getBook, List.find?_cons_of_pos]
  | cons p bs ih =>
    rw [show (p :: bs) ++ [(inst, b)] = p :: (bs ++ [(inst, b)]) from rfl]
    rw [show (p : String × BookState) = (p.1, p.2) from rfl] at h ⊢
    rw [getBook_cons] at h
    rw [getBook_cons]
    by_cases hk : inst = p.1
    · rw [if_pos hk] at h; cases h
    · rw [if_neg hk] at h
      rw [if_neg hk]
      exact ih h

theorem getBook_append_found (bs : List (String × BookState))
    (inst : String) (t : List (String × BookState)) (b : BookState)
    (h : getBook bs inst = some b) :
    getBook (bs ++ t) inst = some b := by
  induction bs with
  | nil => cases h
  | cons p bs ih =>
    rw [show (p :: bs) ++ t = p :: (bs ++ t) from rfl]
    rw [show (p : String × BookState) = (p.1, p.2) from rfl] at h ⊢
    rw [getBook_cons] at h
    rw [getBook_cons]
    by_cases hk : inst = p.1
    · rw [if_pos hk] at h; rw [if_pos hk]; exact h
    · rw [if_neg hk] at h; rw [if_neg hk]; exact ih h

/-- `getOrCreate` always leaves the instrument's book retrievable. -/
theorem getOrCreate_get (bs : List (String × BookState)) (inst : String) :
    getBook (getOrCreate bs inst).2 inst = some (getOrCreate bs inst).1 := by
  unfold getOrCreate
  cases h : getBook bs inst with
  | some b => exact h
  | none => exact getBook_append_miss bs inst emptyBook h

/-- A submit with non-positive quantity: the book silently rejects, but
the exchange has already allocated the id, created the order, published
it into the `OrderMap` and returns the id; no event is emitted and no
ladder changes. -/
theorem exchInsertCore_nonpos_eval (s : ExchState) (sess inst : String)
    (p : Price) (q : Int) (sd : Side) (ostr : String) (hq : q ≤ 0) :
    exchInsertCore s sess inst p q sd ostr =
      ((s.nextId + 1,
        { orders := (s.nextId + 1,
            mkOrder sess ostr inst p q sd (s.nextId + 1)) :: s.orders,
          books := setBook (getOrCreate s.books inst).2 inst
            { bids := (getOrCreate s.books inst).1.bids,
              asks := (getOrCreate s.books inst).1.asks,
              quotes := (getOrCreate s.books inst).1.quotes },
          nextId := s.nextId + 1,
          events := s.events }), none) := by
  unfold exchInsertCore
  dsimp only []
  rw [obInsert_nonpos (s.nextId + 1) _
    (mkOrder sess ostr inst p q sd (s.nextId + 1))
    (by rw [Store.get_cons, if_pos rfl])
    (by simpa [mkOrder] using hq)]

/-- Claim C6 (amended): submitting `quantity ≤ 0` is rejected by the
book — no ladder of any book changes and no listener event is emitted —
but the exchange is *not* free of state changes: it allocates the next
exchange id, publishes the order into the `OrderMap` before the book
sees it, returns the id, and the order is visible through `get_order`
(and `all_orders`) from then on. -/
theorem C6_nonpositive_submit (s : ExchState) (sess inst : String)
    (p : Price) (q : Int) (sd : Side) (ostr : String) (hq : q ≤ 0) :
    (exchInsertOrder s sess inst p q sd ostr).1 = some (s.nextId + 1) ∧
    (exchInsertOrder s sess inst p q sd ostr).2.events = s.events ∧
    (exchInsertOrder s sess inst p q sd ostr).2.orders =
      (s.nextId + 1, mkOrder sess ostr inst p q sd (s.nextId + 1)) ::
        s.orders ∧
    exchGetOrder (exchInsertOrder s sess inst p q sd ostr).2
      (s.nextId + 1) =
      some (mkOrder sess ostr inst p q sd (s.nextId + 1)) ∧
    (∀ inst2 b2, getBook s.books inst2 = some b2 →
      ∃ b3, getBook (exchInsertOrder s sess inst p q sd ostr).2.books
          inst2 = some b3 ∧
        b3.bids = b2.bids ∧ b3.asks = b2.asks ∧ b3.quotes = b2.quotes) := by
  have hcore := exchInsertCore_nonpos_eval s sess inst p q sd ostr hq
  have heval : exchInsertOrder s sess inst p q sd ostr =
      (some (s.nextId + 1),
       { orders := (s.nextId + 1,
           mkOrder sess ostr inst p q sd (s.nextId + 1)) :: s.orders,
         books := setBook (getOrCreate s.books inst).2 inst
           { bids := (getOrCreate s.books inst).1.bids,
             asks := (getOrCreate s.books inst).1.asks,
             quotes := (getOrCreate s.books inst).1.quotes },
         nextId := s.nextId + 1,
         events := s.events }) := by
    unfold exchInsertOrder
    rw [hcore]
  rw [heval]
  refine ⟨rfl, rfl, rfl, ?_, ?_⟩
  · unfold exchGetOrder
    rw [Store.get_cons, if_pos rfl]
    dsimp only []
    have hinst : (mkOrder sess ostr inst p q sd (s.nextId + 1)).instrument =
        inst := rfl
    rw [hinst, getBook_setBook, if_pos rfl, getOrCreate_get]
    rfl
  · intro inst2 b2 hb2
    by_cases hi : inst2 = inst
    · subst hi
      refine ⟨{ bids := (getOrCreate s.books inst2).1.bids,
                asks := (getOrCreate s.books inst2).1.asks,
                quotes := (getOrCreate s.books inst2).1.quotes }, ?_, ?_, ?_, ?_⟩
      · rw [getBook_setBook, if_pos rfl, getOrCreate_get]
        rfl
      all_goals
        unfold getOrCreate
        rw [hb2]
    · refine ⟨b2, ?_, rfl, rfl, rfl⟩
      rw [getBook_setBook, if_neg hi]
      unfold getOrCreate
      cases h : getBook s.books inst with
      | some b => exact hb2
      | none => exact getBook_append_found s.books inst2 _ b2 hb2

/-- Witness for the amended C6: from the empty engine, `Buy(1.0, 0)` on
"I" returns id 1, makes order 1 visible through `get_order`, emits no
event, and the book ladders stay empty. -/
theorem C6_nonpositive_submit_witness :
    (exchBuy initExch "b" "I" (Price.lim 10000000) 0 "o1").1 = some 1 ∧
    exchGetOrder (exchBuy initExch "b" "I" (Price.lim 10000000) 0 "o1").2 1 =
      some (mkOrder "b" "o1" "I" (Price.lim 10000000) 0 Side.buy 1) ∧
    (exchBuy initExch "b" "I" (Price.lim 10000000) 0 "o1").2.events = [] := by
  have h := C6_nonpositive_submit initExch "b" "I" (Price.lim 10000000) 0
    Side.buy "o1" (by decide)
  exact ⟨h.1, h.2.2.2.1, h.2.1⟩

/-- Claim C7 (amended): an internal invariant violation (a dead list
handle or a missing price level during a removal) raises an internal
error, not a process abort — and `Exchange::insertOrder`'s catch-all
converts any such in-flight error into an ordinary empty submit result
while keeping every state mutation made before the throw. -/
theorem C7_invariant_violation_caught (s : ExchState) (sess inst : String)
    (p : Price) (q : Int) (sd : Side) (ostr : String) (m : String)
    (h : (exchInsertCore s sess inst p q sd ostr).2 = some m) :
    exchInsertOrder s sess inst p q sd ostr =
      (none, (exchInsertCore s sess inst p q sd ostr).1.2) := by
  unfold exchInsertOrder
  cases hc : exchInsertCore s sess inst p q sd ostr with
  | mk a b =>
    obtain ⟨id, s1⟩ := a
    rw [hc] at h
    cases b with
    | none => cases h
    | some m2 => rfl

/-- Witness for the amended C7: on the corrupted book of
`corruptState` the core submit throws "node is null on removal" and the
public API returns an empty result with the partially mutated state. -/
theorem C7_invariant_violation_caught_witness :
    exchInsertOrder corruptState "b" "I" (Price.lim 10000000) 5 Side.buy
      "o" =
      (none, (exchInsertCore corruptState "b" "I" (Price.lim 10000000) 5
        Side.buy "o").1.2) := by
  exact C7_invariant_violation_caught corruptState "b" "I"
    (Price.lim 10000000) 5 Side.buy "o" "node is null on removal"
    (by decide)

/-- Claim C4 (amended): for a quote side with a non-zero target
quantity, `OrderBook::quote` assigns exactly `price := targetPrice`,
`quantity := targetQty`, `remaining := targetQty`, `filled := 0` and
re-attaches the list handle — `cumQty` and `avgPrice` are *not* reset —
then inserts the order into that side's ladder and runs matching with
that side as aggressor (here a no-op: the opposite ladder is empty).
Stated for a bid re-arm on a book with both quote orders off-list and
both ladders empty and a zero ask target. -/
theorem C4_quote_rearm (bId aId : Nat) (bo ao : Order) (z : ℤ)
    (bq : Int) (ap : Price) (c : BookCtx)
    (hb : Store.get c.store bId = some bo) (hbl : bo.onList = false)
    (ha : Store.get c.store aId = some ao) (hal : ao.onList = false)
    (hbids : c.bids = []) (hasks : c.asks = [])
    (hbq : bq ≠ 0) :
    obQuote (some bId, some aId) (Price.lim z) bq ap 0 c =
      ({ store := Store.upd c.store bId
           (fun x => { x.rearm (Price.lim z) bq with onList := true }),
         bids := [⟨Price.lim z, [bId]⟩],
         asks := [],
         events := c.events }, none) ∧
    Store.get (Store.upd c.store bId
        (fun x => { x.rearm (Price.lim z) bq with onList := true })) bId =
      some { bo.rearm (Price.lim z) bq with onList := true } ∧
    ({ bo.rearm (Price.lim z) bq with onList := true } : Order).remaining
      = bq ∧
    ({ bo.rearm (Price.lim z) bq with onList := true } : Order).filled
      = 0 ∧
    ({ bo.rearm (Price.lim z) bq with onList := true } : Order).price
      = Price.lim z ∧
    ({ bo.rearm (Price.lim z) bq with onList := true } : Order).quantity
      = bq ∧
    ({ bo.rearm (Price.lim z) bq with onList := true } : Order).cumQty
      = bo.cumQty ∧
    ({ bo.rearm (Price.lim z) bq with onList := true } : Order).avgPrice
      = bo.avgPrice := by
  have hget : Store.get (Store.upd c.store bId
      (fun x => { x.rearm (Price.lim z) bq with onList := true })) bId =
      some { bo.rearm (Price.lim z) bq with onList := true } := by
    rw [Store.get_upd, if_pos rfl, hb]; rfl
  refine ⟨?_, hget, rfl, rfl, rfl, rfl, rfl, rfl⟩
  have hnm : ¬({ bo.rearm (Price.lim z) bq with onList := true } :
      Order).isMarket := by
    intro h
    cases h with
    | inl h => exact WithTop.coe_ne_top (WithBot.coe_inj.mp h)
    | inr h => exact WithBot.coe_ne_bot h
  have hmo : matchOrders Side.buy
      { store := Store.upd c.store bId
          (fun x => { x.rearm (Price.lim z) bq with onList := true }),
        bids := [⟨Price.lim z, [bId]⟩], asks := [],
        events := c.events } =
      ({ store := Store.upd c.store bId
           (fun x => { x.rearm (Price.lim z) bq with onList := true }),
         bids := [⟨Price.lim z, [bId]⟩], asks := [],
         events := c.events }, none) := by
    unfold matchOrders
    have hloop : matchLoopGo
        (({ store := Store.upd c.store bId
              (fun x => { x.rearm (Price.lim z) bq with onList := true }),
            bids := [⟨Price.lim z, [bId]⟩], asks := [],
            events := c.events } : BookCtx).restingCount + 1) Side.buy
        { store := Store.upd c.store bId
            (fun x => { x.rearm (Price.lim z) bq with onList := true }),
          bids := [⟨Price.lim z, [bId]⟩], asks := [],
          events := c.events } =
        ({ store := Store.upd c.store bId
             (fun x => { x.rearm (Price.lim z) bq with onList := true }),
           bids := [⟨Price.lim z, [bId]⟩], asks := [],
           events := c.events }, none) := rfl
    rw [hloop]
    unfold residualCancel
    dsimp only []
    rw [if_pos (rfl : Side.buy = Side.buy)]
    rw [show Ladder.frontOid [⟨Price.lim z, [bId]⟩] = some bId from rfl]
    dsimp only []
    rw [hget]
    dsimp only []
    rw [if_neg hnm]
  unfold obQuote
  dsimp only []
  rw [hb]
  dsimp only []
  rw [hbl]
  rw [if_neg (by decide : ¬(false = true))]
  dsimp only []
  rw [ha]
  dsimp only []
  rw [hal]
  rw [if_neg (by decide : ¬(false = true))]
  dsimp only []
  rw [if_pos hbq]
  rw [hbids, hasks]
  rw [show Ladder.insertOrder false (Price.lim z) bId ([] : Ladder) =
    [⟨Price.lim z, [bId]⟩] from rfl]
  rw [hmo]
  dsimp only []
  rw [if_neg (by decide : ¬((0 : Int) ≠ 0))]

/-- Witness for the amended C4 at the state after the self-crossing
quote `quoteCross`: re-arming the bid to 1000 × 5 leaves
`cumQty = 10` and `avgPrice = 900` from the earlier fill untouched. -/
theorem C4_quote_rearm_witness :
    obQuote (some 1, some 2) (Price.lim 1000) 5 (Price.lim 900) 0
        quoteCrossCtx =
      ({ store := Store.upd quoteCrossCtx.store 1
           (fun x => { x.rearm (Price.lim 1000) 5 with onList := true }),
         bids := [⟨Price.lim 1000, [1]⟩],
         asks := [],
         events := quoteCrossCtx.events }, none) ∧
    Store.get (Store.upd quoteCrossCtx.store 1
        (fun x => { x.rearm (Price.lim 1000) 5 with onList := true })) 1 =
      some { quoteCrossBid.rearm (Price.lim 1000) 5 with onList := true } ∧
    ({ quoteCrossBid.rearm (Price.lim 1000) 5 with onList := true } :
      Order).remaining = 5 ∧
    ({ quoteCrossBid.rearm (Price.lim 1000) 5 with onList := true } :
      Order).filled = 0 ∧
    ({ quoteCrossBid.rearm (Price.lim 1000) 5 with onList := true } :
      Order).price = Price.lim 1000 ∧
    ({ quoteCrossBid.rearm (Price.lim 1000) 5 with onList := true } :
      Order).quantity = 5 ∧
    ({ quoteCrossBid.rearm (Price.lim 1000) 5 with onList := true } :
      Order).cumQty = quoteCrossBid.cumQty ∧
    ({ quoteCrossBid.rearm (Price.lim 1000) 5 with onList := true } :
      Order).avgPrice = quoteCrossBid.avgPrice :=
  C4_quote_rearm 1 2 quoteCrossBid quoteCrossAsk 1000 5 (Price.lim 900)
    quoteCrossCtx (by decide) rfl (by decide) rfl rfl rfl (by decide)


/-- Claim C10: a quote with zero target quantities pulls the resting
quote orders from their ladders by detaching the list handle only:
`remaining`, `filled`, `avgPrice` and `cumQty` are untouched, the order
is gone from its ladder, and — because `Order::cancel` is never called —
the pulled order still reports `isActive` (`remaining > 0`) through
`get_order`. -/
theorem C10_quote_pull (s : ExchState) (sess inst qid : String)
    (bp ap : Price) (b : BookState) (bId aId : Nat) (bo ao : Order)
    (bids1 asks1 : Ladder)
    (hb : getBook s.books inst = some b)
    (hq : (b.quotes.find? (fun e => e.1 = (sess, qid))).map (·.2) =
      some (some bId, some aId))
    (hne : aId ≠ bId)
    (hbo : Store.get s.orders bId = some bo) (hbl : bo.onList = true)
    (hao : Store.get s.orders aId = some ao) (hal : ao.onList = true)
    (hbi : bo.instrument = inst)
    (hrb : Ladder.removeOrder false true bo.price bId b.bids = .ok bids1)
    (hra : Ladder.removeOrder true true ao.price aId b.asks = .ok asks1)
    (hnd : (Ladder.oids b.bids).Nodup)
    (hrem : 0 < bo.remaining) :
    (exchQuote s sess inst bp 0 ap 0 qid).2 = none ∧
    Store.get (exchQuote s sess inst bp 0 ap 0 qid).1.orders bId =
      some { bo with onList := false } ∧
    Store.get (exchQuote s sess inst bp 0 ap 0 qid).1.orders aId =
      some { ao with onList := false } ∧
    getBook (exchQuote s sess inst bp 0 ap 0 qid).1.books inst =
      some { bids := bids1, asks := asks1, quotes := b.quotes } ∧
    bId ∉ Ladder.oids bids1 ∧
    ({ bo with onList := false } : Order).remaining = bo.remaining ∧
    ({ bo with onList := false } : Order).filled = bo.filled ∧
    ({ bo with onList := false } : Order).avgPrice = bo.avgPrice ∧
    ({ bo with onList := false } : Order).cumQty = bo.cumQty ∧
    exchGetOrder (exchQuote s sess inst bp 0 ap 0 qid).1 bId =
      some { bo with onList := false } ∧
    ({ bo with onList := false } : Order).isActive := by
  have hgoc : getOrCreate s.books inst = (b, s.books) := by
    unfold getOrCreate; rw [hb]
  have hget1 : Store.get (Store.upd s.orders bId
      (fun x => { x with onList := false })) aId = some ao := by
    rw [Store.get_upd, if_neg hne, hao]
  have hget1b : Store.get (Store.upd s.orders bId
      (fun x => { x with onList := false })) bId =
      some { bo with onList := false } := by
    rw [Store.get_upd, if_pos rfl, hbo]; rfl
  have hget2b : Store.get (Store.upd (Store.upd s.orders bId
      (fun x => { x with onList := false })) aId
      (fun x => { x with onList := false })) bId =
      some { bo with onList := false } := by
    rw [Store.get_upd, if_neg (fun h => hne h.symm), hget1b]
  have hget2a : Store.get (Store.upd (Store.upd s.orders bId
      (fun x => { x with onList := false })) aId
      (fun x => { x with onList := false })) aId =
      some { ao with onList := false } := by
    rw [Store.get_upd, if_pos rfl, hget1]; rfl
  have hquote : obQuote (some bId, some aId) bp 0 ap 0
      { store := s.orders, bids := b.bids, asks := b.asks,
        events := s.events } =
      ({ store := Store.upd (Store.upd s.orders bId
           (fun x => { x with onList := false })) aId
           (fun x => { x with onList := false }),
         bids := bids1, asks := asks1, events := s.events }, none) := by
    unfold obQuote
    dsimp only []
    rw [hbo]
    dsimp only []
    rw [hbl]
    rw [if_pos (rfl : true = true)]
    rw [hrb]
    dsimp only []
    rw [hget1]
    dsimp only []
    rw [hal]
    rw [if_pos (rfl : true = true)]
    rw [hra]
    dsimp only []
    rw [if_neg (by decide : ¬((0 : Int) ≠ 0))]
    dsimp only []
    rw [if_neg (by decide : ¬((0 : Int) ≠ 0))]
  have hout : exchQuote s sess inst bp 0 ap 0 qid =
      ({ s with
         orders := Store.upd (Store.upd s.orders bId
           (fun x => { x with onList := false })) aId
           (fun x => { x with onList := false }),
         events := s.events,
         books := setBook s.books inst
           { bids := bids1, asks := asks1, quotes := b.quotes } }, none) := by
    unfold exchQuote
    dsimp only []
    rw [hgoc]
    dsimp only []
    rw [hq]
    dsimp only []
    rw [hquote]
  rw [hout]
  refine ⟨rfl, hget2b, hget2a, ?_, ?_, rfl, rfl, rfl, rfl, ?_, hrem⟩
  · dsimp only []
    rw [getBook_setBook, if_pos rfl, hb]
    rfl
  · have hperm := removeOrder_perm false true bo.price bId b.bids bids1 hrb
    intro hmem
    have h2 : List.count bId (Ladder.oids b.bids) =
        List.count bId (bId :: Ladder.oids bids1) := hperm.count_eq bId
    have h3 : (1 : Nat) < List.count bId (bId :: Ladder.oids bids1) := by
      simp only [List.count_cons_self]
      have := List.count_pos_iff.mpr hmem
      omega
    have h4 : List.count bId (Ladder.oids b.bids) ≤ 1 :=
      List.nodup_iff_count_le_one.mp hnd bId
    omega
  · unfold exchGetOrder
    dsimp only []
    rw [hget2b]
    dsimp only []
    rw [show ({ bo with onList := false } : Order).instrument =
      bo.instrument from rfl, hbi, getBook_setBook, if_pos rfl, hb]
    rfl

/-- Witness for C10 at `quoteBase` (bid 900 × 10 and ask 1000 × 10
resting): the zero-target quote pulls both orders, their fill fields
survive, and order 1 still reports active through `get_order`. -/
theorem C10_quote_pull_witness :
    (exchQuote quoteBase "s" "I" (Price.lim 900) 0 (Price.lim 1000) 0
      "q").2 = none ∧
    Store.get (exchQuote quoteBase "s" "I" (Price.lim 900) 0
        (Price.lim 1000) 0 "q").1.orders 1 =
      some { quoteBaseBid with onList := false } ∧
    Store.get (exchQuote quoteBase "s" "I" (Price.lim 900) 0
        (Price.lim 1000) 0 "q").1.orders 2 =
      some { quoteBaseAsk with onList := false } ∧
    getBook (exchQuote quoteBase "s" "I" (Price.lim 900) 0
        (Price.lim 1000) 0 "q").1.books "I" =
      some { bids := [], asks := [], quotes := quoteBaseBook.quotes } ∧
    (1 : Nat) ∉ Ladder.oids [] ∧
    ({ quoteBaseBid with onList := false } : Order).remaining =
      quoteBaseBid.remaining ∧
    ({ quoteBaseBid with onList := false } : Order).filled =
      quoteBaseBid.filled ∧
    ({ quoteBaseBid with onList := false } : Order).avgPrice =
      quoteBaseBid.avgPrice ∧
    ({ quoteBaseBid with onList := false } : Order).cumQty =
      quoteBaseBid.cumQty ∧
    exchGetOrder (exchQuote quoteBase "s" "I" (Price.lim 900) 0
        (Price.lim 1000) 0 "q").1 1 =
      some { quoteBaseBid with onList := false } ∧
    ({ quoteBaseBid with onList := false } : Order).isActive :=
  C10_quote_pull quoteBase "s" "I" "q" (Price.lim 900) (Price.lim 1000)
    quoteBaseBook 1 2 quoteBaseBid quoteBaseAsk [] []
    (by decide) (by decide) (by decide) (by decide) rfl (by decide) rfl
    rfl (by decide) (by decide) (by decide) (by decide)

/-! ## Comparator and store lemmas -/

theorem cmpP_trans (asc : Bool) {a b c : Price} (h1 : cmpP asc a b)
    (h2 : cmpP asc b c) : cmpP asc a c := by
  cases asc <;> simp only [cmpP, if_true, if_false, Bool.false_eq_true] at *
  · exact lt_trans h2 h1
  · exact lt_trans h1 h2

theorem cmpP_irrefl (asc : Bool) (a : Price) : ¬ cmpP asc a a := by
  cases asc <;> simp [cmpP]

theorem cmpP_of_ne (asc : Bool) {a b : Price} (h1 : ¬ cmpP asc a b)
    (h2 : a ≠ b) : cmpP asc b a := by
  cases asc <;> simp only [cmpP, if_true, if_false, Bool.false_eq_true,
    not_lt] at *
  · exact lt_of_le_of_ne h1 h2
  · exact lt_of_le_of_ne h1 h2.symm

theorem Store.get_mem {st : Store} {k : Nat} {o : Order}
    (h : Store.get st k = some o) : (k, o) ∈ st := by
  unfold Store.get at h
  cases hf : st.find? (fun p => p.1 = k) with
  | none => rw [hf] at h; cases h
  | some p =>
    rw [hf] at h
    have hm := List.mem_of_find?_eq_some hf
    have hp := List.find?_some hf
    have hk : p.1 = k := by simpa using hp
    have ho : p.2 = o := by simpa using h
    rw [← hk, ← ho]
    exact hm

theorem Store.get_mem_keys {st : Store} {k : Nat} {o : Order}
    (h : Store.get st k = some o) : k ∈ st.map (·.1) :=
  List.mem_map.mpr ⟨(k, o), Store.get_mem h, rfl⟩

theorem Store.mem_get {st : Store} (hnd : (st.map (·.1)).Nodup)
    {k : Nat} {o : Order} (hm : (k, o) ∈ st) : Store.get st k = some o := by
  induction st with
  | nil => cases hm
  | cons p st ih =>
    rcases List.mem_cons.mp hm with h | h
    · subst h
      rw [show ((k, o) :: st : Store) = ((k, o) :: st) from rfl,
        Store.get_cons, if_pos rfl]
    · have hk : k ≠ p.1 := by
        intro he
        have : p.1 ∈ st.map (·.1) := List.mem_map.mpr ⟨(k, o), h, by rw [he]⟩
        exact (List.nodup_cons.mp (by simpa using hnd)).1 this
      rw [show (p :: st : Store) = ((p.1, p.2) :: st) from rfl,
        Store.get_cons, if_neg hk]
      exact ih (List.nodup_cons.mp (by simpa using hnd)).2 h

theorem Store.get_none {st : Store} {k : Nat}
    (h : k ∉ st.map (·.1)) : Store.get st k = none := by
  unfold Store.get
  cases hf : st.find? (fun p => p.1 = k) with
  | none => rfl
  | some p =>
    exfalso
    have hp : p.1 = k := by simpa using List.find?_some hf
    exact h (List.mem_map.mpr ⟨p, List.mem_of_find?_eq_some hf, hp⟩)

theorem Store.get_isSome {st : Store} {k : Nat}
    (h : k ∈ st.map (·.1)) : ∃ o, Store.get st k = some o := by
  obtain ⟨p, hp, hk⟩ := List.mem_map.mp h
  have hs : (st.find? (fun q => q.1 = k)).isSome := by
    rw [List.find?_isSome]
    exact ⟨p, hp, by simpa using hk⟩
  obtain ⟨q, hq⟩ := Option.isSome_iff_exists.mp hs
  exact ⟨q.2, by unfold Store.get; rw [hq]; rfl⟩

theorem StoreEvol.refl (inst : String) (st : Store) : StoreEvol inst st st :=
  ⟨rfl, fun _ o h => ⟨o, h, rfl, rfl, rfl, fun _ => rfl⟩⟩

theorem StoreEvol.trans {inst : String} {s1 s2 s3 : Store}
    (h1 : StoreEvol inst s1 s2) (h2 : StoreEvol inst s2 s3) :
    StoreEvol inst s1 s3 := by
  refine ⟨h2.1.trans h1.1, fun k o h => ?_⟩
  obtain ⟨o2, hg2, hs2, hi2, hss2, hu2⟩ := h1.2 k o h
  obtain ⟨o3, hg3, hs3, hi3, hss3, hu3⟩ := h2.2 k o2 hg2
  refine ⟨o3, hg3, hs3.trans hs2, hi3.trans hi2, hss3.trans hss2, ?_⟩
  intro hne
  rw [hu3 (by rw [hi2]; exact hne), hu2 hne]

theorem StoreEvol.upd {inst : String} (st : Store) (k : Nat)
    (f : Order → Order)
    (hf : ∀ o, (f o).side = o.side ∧ (f o).instrument = o.instrument ∧
      (f o).sessionId = o.sessionId)
    (hk : ∀ o, Store.get st k = some o → o.instrument = inst) :
    StoreEvol inst st (Store.upd st k f) := by
  refine ⟨Store.upd_keys st k f, fun k2 o h => ?_⟩
  rw [Store.get_upd]
  by_cases hkk : k2 = k
  · subst hkk
    rw [if_pos rfl, h]
    exact ⟨f o, rfl, (hf o).1, (hf o).2.1, (hf o).2.2,
      fun hne => absurd (hk o h) hne⟩
  · rw [if_neg hkk]
    exact ⟨o, h, rfl, rfl, rfl, fun _ => rfl⟩

/-! ## Ladder structure lemmas -/

theorem sortedBy_pairwise {asc : Bool} {ls : Ladder} :
    Ladder.sortedBy asc ls ↔
      ls.Pairwise (fun a b => cmpP asc a.price b.price) := by
  unfold Ladder.sortedBy
  have htr : IsTrans Level (fun a b => cmpP asc a.price b.price) :=
    ⟨fun a b c h1 h2 => cmpP_trans asc h1 h2⟩
  exact @List.chain'_iff_pairwise _ _ htr _

theorem oids_cons (l : Level) (ls : Ladder) :
    Ladder.oids (l :: ls) = l.fifo ++ Ladder.oids ls := by
  simp [Ladder.oids]

theorem oids_append (a b : Ladder) :
    Ladder.oids (a ++ b) = Ladder.oids a ++ Ladder.oids b := by
  simp [Ladder.oids]

theorem mem_oids {x : Nat} {ls : Ladder} :
    x ∈ Ladder.oids ls ↔ ∃ l ∈ ls, x ∈ l.fifo := by
  simp [Ladder.oids]

theorem insertOrder_oids_perm (asc : Bool) (p : Price) (oid : Nat) :
    ∀ ls : Ladder,
      List.Perm (Ladder.oids (Ladder.insertOrder asc p oid ls))
        (oid :: Ladder.oids ls)
  | [] => by simp [Ladder.insertOrder, Ladder.oids]
  | l :: ls => by
    unfold Ladder.insertOrder
    by_cases hc : cmpP asc l.price p
    · rw [if_pos hc, oids_cons, oids_cons]
      exact List.Perm.trans
        ((insertOrder_oids_perm asc p oid ls).append_left l.fifo)
        List.perm_middle
    · rw [if_neg hc]
      by_cases hp : l.price = p
      · rw [if_pos hp, oids_cons, oids_cons]
        exact List.Perm.append_right _
          (List.perm_append_singleton oid l.fifo)
      · rw [if_neg hp, oids_cons, oids_cons]
        exact List.Perm.refl _

theorem insertOrder_head_price (asc : Bool) (p : Price) (oid : Nat)
    (ls : Ladder) (lh : Level)
    (hh : (Ladder.insertOrder asc p oid ls).head? = some lh) :
    lh.price = p ∨ ∃ l0, ls.head? = some l0 ∧ lh.price = l0.price := by
  cases ls with
  | nil =>
    simp only [Ladder.insertOrder, List.head?_cons, Option.some.injEq] at hh
    exact .inl (by rw [← hh])
  | cons l ls =>
    unfold Ladder.insertOrder at hh
    by_cases hc : cmpP asc l.price p
    · rw [if_pos hc] at hh
      simp only [List.head?_cons, Option.some.injEq] at hh
      exact .inr ⟨l, rfl, by rw [← hh]⟩
    · rw [if_neg hc] at hh
      by_cases hp : l.price = p
      · rw [if_pos hp] at hh
        simp only [List.head?_cons, Option.some.injEq] at hh
        exact .inl (by rw [← hh]; exact hp)
      · rw [if_neg hp] at hh
        simp only [List.head?_cons, Option.some.injEq] at hh
        exact .inl (by rw [← hh])

theorem insertOrder_sorted (asc : Bool) (p : Price) (oid : Nat) :
    ∀ ls : Ladder, Ladder.sortedBy asc ls →
      Ladder.sortedBy asc (Ladder.insertOrder asc p oid ls)
  | [] => by
    intro _
    simp [Ladder.insertOrder, Ladder.sortedBy]
  | l :: ls => by
    intro hs
    unfold Ladder.sortedBy at hs
    rw [List.chain'_cons'] at hs
    obtain ⟨hhd, htl⟩ := hs
    unfold Ladder.insertOrder
    by_cases hc : cmpP asc l.price p
    · rw [if_pos hc]
      unfold Ladder.sortedBy
      rw [List.chain'_cons']
      refine ⟨?_, insertOrder_sorted asc p oid ls htl⟩
      intro b hb
      rw [Option.mem_def] at hb
      rcases insertOrder_head_price asc p oid ls b hb with hbp | ⟨l0, h0, hbp⟩
      · rw [hbp]; exact hc
      · rw [hbp]
        exact hhd l0 (Option.mem_def.mpr h0)
    · rw [if_neg hc]
      by_cases hp : l.price = p
      · rw [if_pos hp]
        unfold Ladder.sortedBy
        rw [List.chain'_cons']
        exact ⟨hhd, htl⟩
      · rw [if_neg hp]
        unfold Ladder.sortedBy
        rw [List.chain'_cons']
        refine ⟨?_, ?_⟩
        · intro b hb
          rw [Option.mem_def] at hb
          simp only [List.head?_cons, Option.some.injEq] at hb
          rw [← hb]
          exact cmpP_of_ne asc hc (fun h => hp h)
        · rw [List.chain'_cons']
          exact ⟨hhd, htl⟩

theorem insertOrder_levels (asc : Bool) (p : Price) (oid : Nat) :
    ∀ ls : Ladder, ∀ lv ∈ Ladder.insertOrder asc p oid ls,
      lv ∈ ls ∨
      (lv.price = p ∧ ∃ l ∈ ls, l.price = p ∧ lv.fifo = l.fifo ++ [oid]) ∨
      lv = ⟨p, [oid]⟩
  | [] => by
    intro lv hlv
    simp only [Ladder.insertOrder, List.mem_singleton] at hlv
    exact .inr (.inr hlv)
  | l :: ls => by
    intro lv hlv
    unfold Ladder.insertOrder at hlv
    by_cases hc : cmpP asc l.price p
    · rw [if_pos hc] at hlv
      rcases List.mem_cons.mp hlv with h | h
      · exact .inl (h ▸ List.mem_cons_self l ls)
      · rcases insertOrder_levels asc p oid ls lv h with h2 | h2 | h2
        · exact .inl (List.mem_cons_of_mem l h2)
        · obtain ⟨hv, l2, hl2, hl2p, hl2f⟩ := h2
          exact .inr (.inl ⟨hv, l2, List.mem_cons_of_mem l hl2, hl2p, hl2f⟩)
        · exact .inr (.inr h2)
    · rw [if_neg hc] at hlv
      by_cases hp : l.price = p
      · rw [if_pos hp] at hlv
        rcases List.mem_cons.mp hlv with h | h
        · exact .inr (.inl ⟨by rw [h]; exact hp,
            l, List.mem_cons_self l ls, hp, by rw [h]⟩)
        · exact .inl (List.mem_cons_of_mem l h)
      · rw [if_neg hp] at hlv
        rcases List.mem_cons.mp hlv with h | h
        · exact .inr (.inr h)
        · exact .inl h

theorem removeOrder_struct (asc onl : Bool) (p : Price) (oid : Nat) :
    ∀ ls ls' : Ladder, Ladder.removeOrder asc onl p oid ls = .ok ls' →
      ∃ pre l post, ls = pre ++ l :: post ∧ l.price = p ∧
        oid ∈ l.fifo ∧ onl = true ∧
        ((l.fifo.erase oid = [] ∧ ls' = pre ++ post) ∨
         (l.fifo.erase oid ≠ [] ∧
           ls' = pre ++ ⟨l.price, l.fifo.erase oid⟩ :: post))
  | [], ls' => by intro h; cases h
  | l :: ls, ls' => by
    intro h
    unfold Ladder.removeOrder at h
    by_cases hc : cmpP asc l.price p
    · rw [if_pos hc] at h
      cases hrec : Ladder.removeOrder asc onl p oid ls with
      | error m => rw [hrec] at h; cases h
      | ok ls2 =>
        rw [hrec] at h
        have hls' : ls' = l :: ls2 := by simpa [Except.map] using h.symm
        obtain ⟨pre, lv, post, he, hp2, hm, ho, hcase⟩ :=
          removeOrder_struct asc onl p oid ls ls2 hrec
        refine ⟨l :: pre, lv, post, by rw [he]; rfl, hp2, hm, ho, ?_⟩
        rcases hcase with ⟨h1, h2⟩ | ⟨h1, h2⟩
        · exact .inl ⟨h1, by rw [hls', h2]; rfl⟩
        · exact .inr ⟨h1, by rw [hls', h2]; rfl⟩
    · rw [if_neg hc] at h
      by_cases hp : l.price = p
      · rw [if_pos hp] at h
        by_cases ho : onl = false
        · rw [if_pos ho] at h; cases h
        · rw [if_neg ho] at h
          by_cases hm : oid ∈ l.fifo
          · rw [if_pos hm] at h
            have h2 : (Except.ok
                (if l.fifo.erase oid = [] then ls
                 else ⟨l.price, l.fifo.erase oid⟩ :: ls) :
                  Except String Ladder) = Except.ok ls' := h
            have honl : onl = true := by
              revert ho; cases onl <;> simp
            refine ⟨[], l, ls, rfl, hp, hm, honl, ?_⟩
            by_cases hf : l.fifo.erase oid = []
            · rw [if_pos hf] at h2
              exact .inl ⟨hf, ((Except.ok.injEq _ _).mp h2).symm⟩
            · rw [if_neg hf] at h2
              exact .inr ⟨hf, ((Except.ok.injEq _ _).mp h2).symm⟩
          · rw [if_neg hm] at h; cases h
      · rw [if_neg hp] at h; cases h

/-! ## Derived removal lemmas -/

theorem removeOrder_sorted {asc onl : Bool} {p : Price} {oid : Nat}
    {ls ls' : Ladder} (h : Ladder.removeOrder asc onl p oid ls = .ok ls')
    (hs : Ladder.sortedBy asc ls) : Ladder.sortedBy asc ls' := by
  obtain ⟨pre, l, post, he, _, _, _, hcase⟩ :=
    removeOrder_struct asc onl p oid ls ls' h
  rw [sortedBy_pairwise] at hs ⊢
  rw [he] at hs
  rcases hcase with ⟨_, h2⟩ | ⟨_, h2⟩
  · rw [h2]
    exact hs.sublist (List.Sublist.append_left (List.sublist_cons_self l post) pre)
  · rw [h2]
    rw [List.pairwise_append] at hs ⊢
    refine ⟨hs.1, ?_, ?_⟩
    · rw [List.pairwise_cons]
      have h3 := hs.2.1
      rw [List.pairwise_cons] at h3
      exact ⟨h3.1, h3.2⟩
    · intro a ha b hb
      rcases List.mem_cons.mp hb with h3 | h3
      · have h4 := hs.2.2 a ha l (List.mem_cons_self l post)
        rw [h3]
        exact h4
      · exact hs.2.2 a ha b (List.mem_cons_of_mem l h3)

theorem removeOrder_levels {asc onl : Bool} {p : Price} {oid : Nat}
    {ls ls' : Ladder} (h : Ladder.removeOrder asc onl p oid ls = .ok ls') :
    ∀ lv ∈ ls', lv ∈ ls ∨
      ∃ l ∈ ls, lv.price = l.price ∧ lv.fifo = l.fifo.erase oid ∧
        lv.fifo ≠ [] := by
  obtain ⟨pre, l, post, he, _, _, _, hcase⟩ :=
    removeOrder_struct asc onl p oid ls ls' h
  intro lv hlv
  rcases hcase with ⟨_, h2⟩ | ⟨hne, h2⟩
  · rw [h2] at hlv
    left
    rw [he]
    rcases List.mem_append.mp hlv with h3 | h3
    · exact List.mem_append_left _ h3
    · exact List.mem_append_right _ (List.mem_cons_of_mem l h3)
  · rw [h2] at hlv
    rcases List.mem_append.mp hlv with h3 | h3
    · left
      rw [he]
      exact List.mem_append_left _ h3
    · rcases List.mem_cons.mp h3 with h4 | h4
      · right
        have hml : l ∈ ls := by
          rw [he]
          exact List.mem_append_right _ (List.mem_cons_self l post)
        refine ⟨l, hml, ?_, ?_, ?_⟩
        · rw [h4]
        · rw [h4]
        · rw [h4]; exact hne
      · left
        rw [he]
        exact List.mem_append_right _ (List.mem_cons_of_mem l h4)

theorem removeOrder_success {asc : Bool} {p : Price} {oid : Nat}
    {ls : Ladder} (hs : Ladder.sortedBy asc ls) :
    ∀ l0, l0 ∈ ls → l0.price = p → oid ∈ l0.fifo →
      ∃ ls', Ladder.removeOrder asc true p oid ls = .ok ls' := by
  induction ls with
  | nil => intro l0 h; cases h
  | cons l ls ih =>
    intro l0 hl0 hp0 hm0
    have hpw := sortedBy_pairwise.mp hs
    rw [List.pairwise_cons] at hpw
    unfold Ladder.removeOrder
    by_cases hc : cmpP asc l.price p
    · rw [if_pos hc]
      have hl0t : l0 ∈ ls := by
        rcases List.mem_cons.mp hl0 with h | h
        · exfalso
          rw [← h, hp0] at hc
          exact cmpP_irrefl asc p hc
        · exact h
      obtain ⟨ls2, hls2⟩ := ih (sortedBy_pairwise.mpr hpw.2) l0 hl0t hp0 hm0
      exact ⟨l :: ls2, by rw [hls2]; rfl⟩
    · rw [if_neg hc]
      have hlp : l.price = p := by
        rcases List.mem_cons.mp hl0 with h | h
        · rw [← h, hp0]
        · exfalso
          have := hpw.1 l0 h
          rw [hp0] at this
          exact hc this
      rw [if_pos hlp]
      rw [if_neg (by decide : ¬(true = false))]
      have hl0h : l0 = l := by
        rcases List.mem_cons.mp hl0 with h | h
        · exact h
        · exfalso
          have := hpw.1 l0 h
          rw [hp0, ← hlp] at this
          exact cmpP_irrefl asc l.price this
      rw [if_pos (hl0h ▸ hm0)]
      exact ⟨_, rfl⟩

theorem removeOrder_mem_of_ne {asc onl : Bool} {p : Price} {oid x : Nat}
    {ls ls' : Ladder} (h : Ladder.removeOrder asc onl p oid ls = .ok ls')
    (hx : x ∈ Ladder.oids ls) (hne : x ≠ oid) : x ∈ Ladder.oids ls' := by
  have hperm := removeOrder_perm asc onl p oid ls ls' h
  have := hperm.mem_iff.mp hx
  rcases List.mem_cons.mp this with h2 | h2
  · exact absurd h2 hne
  · exact h2

theorem removeOrder_mem_rev {asc onl : Bool} {p : Price} {oid x : Nat}
    {ls ls' : Ladder} (h : Ladder.removeOrder asc onl p oid ls = .ok ls')
    (hx : x ∈ Ladder.oids ls') : x ∈ Ladder.oids ls := by
  have hperm := removeOrder_perm asc onl p oid ls ls' h
  exact hperm.mem_iff.mpr (List.mem_cons_of_mem oid hx)

theorem removeOrder_not_mem {asc onl : Bool} {p : Price} {oid : Nat}
    {ls ls' : Ladder} (hnd : (Ladder.oids ls).Nodup)
    (h : Ladder.removeOrder asc onl p oid ls = .ok ls') :
    oid ∉ Ladder.oids ls' := by
  have hperm := removeOrder_perm asc onl p oid ls ls' h
  intro hmem
  have h2 := hperm.count_eq oid
  have h3 : (1 : Nat) < List.count oid (oid :: Ladder.oids ls') := by
    simp only [List.count_cons_self]
    have := List.count_pos_iff.mpr hmem
    omega
  have h4 : List.count oid (Ladder.oids ls) ≤ 1 :=
    List.nodup_iff_count_le_one.mp hnd oid
  omega

/-! ## memOK and sumOK transport lemmas -/

theorem memOK_upd_keep {st : Store} {inst : String} {sd : Side}
    {ls : Ladder} (hm : ls.memOK st inst sd) (k : Nat) (f : Order → Order)
    (hf : ∀ o, (f o).side = o.side ∧ (f o).price = o.price ∧
      (f o).instrument = o.instrument ∧ (f o).onList = o.onList) :
    ls.memOK (Store.upd st k f) inst sd := by
  intro l hl
  obtain ⟨hne, hids⟩ := hm l hl
  refine ⟨hne, fun oid hoid => ?_⟩
  have h1 := hids oid hoid
  rw [Store.get_upd]
  by_cases hk : oid = k
  · rw [if_pos hk]
    cases hg : Store.get st oid with
    | none => rw [hg] at h1; exact h1.elim
    | some o =>
      rw [hg] at h1
      obtain ⟨ho1, ho2, ho3, ho4⟩ := h1
      exact ⟨by rw [(hf o).2.2.2]; exact ho1, by rw [(hf o).1]; exact ho2,
        by rw [(hf o).2.1]; exact ho3, by rw [(hf o).2.2.1]; exact ho4⟩
  · rw [if_neg hk]
    exact h1

theorem memOK_upd_irrelevant {st : Store} {inst : String} {sd : Side}
    {ls : Ladder} (hm : ls.memOK st inst sd) (k : Nat) (f : Order → Order)
    (hk : k ∉ Ladder.oids ls) :
    ls.memOK (Store.upd st k f) inst sd := by
  intro l hl
  obtain ⟨hne, hids⟩ := hm l hl
  refine ⟨hne, fun oid hoid => ?_⟩
  have h1 := hids oid hoid
  rw [Store.get_upd]
  have hne2 : oid ≠ k := by
    intro he
    rw [← he] at hk
    exact hk (mem_oids.mpr ⟨l, hl, hoid⟩)
  rw [if_neg hne2]
  exact h1

theorem memOK_remove {st : Store} {inst : String} {sd : Side}
    {ls ls' : Ladder} {asc onl : Bool} {p : Price} {oid : Nat}
    (hm : ls.memOK st inst sd)
    (h : Ladder.removeOrder asc onl p oid ls = .ok ls') :
    ls'.memOK st inst sd := by
  intro lv hlv
  rcases removeOrder_levels h lv hlv with h2 | ⟨l, hl, hp2, hf2, hne2⟩
  · exact hm lv h2
  · obtain ⟨_, hids⟩ := hm l hl
    refine ⟨hne2, fun x hx => ?_⟩
    have hx2 : x ∈ l.fifo := (List.erase_sublist oid l.fifo).mem (hf2 ▸ hx)
    have h1 := hids x hx2
    cases hg : Store.get st x with
    | none => rw [hg] at h1; exact h1.elim
    | some o =>
      rw [hg] at h1
      exact ⟨h1.1, h1.2.1, by rw [hp2]; exact h1.2.2.1, h1.2.2.2⟩

theorem memOK_insert {st : Store} {inst : String} {sd : Side}
    {ls : Ladder} {asc : Bool} {p : Price} {oid : Nat} {o1 : Order}
    (hm : ls.memOK st inst sd)
    (h1 : Store.get st oid = some o1) (h2 : o1.onList = true)
    (h3 : o1.side = sd) (h4 : o1.price = p) (h5 : o1.instrument = inst) :
    (Ladder.insertOrder asc p oid ls).memOK st inst sd := by
  intro lv hlv
  rcases insertOrder_levels asc p oid ls lv hlv with hc | hc | hc
  · exact hm lv hc
  · obtain ⟨hvp, l, hl, hlp, hlf⟩ := hc
    obtain ⟨hne, hids⟩ := hm l hl
    refine ⟨by rw [hlf]; simp, fun x hx => ?_⟩
    rw [hlf] at hx
    rcases List.mem_append.mp hx with hx2 | hx2
    · have h6 := hids x hx2
      cases hg : Store.get st x with
      | none => rw [hg] at h6; exact h6.elim
      | some o =>
        rw [hg] at h6
        exact ⟨h6.1, h6.2.1, by rw [hvp, ← hlp]; exact h6.2.2.1, h6.2.2.2⟩
    · have hx3 : x = oid := by simpa using hx2
      rw [hx3, h1]
      exact ⟨h2, h3, by rw [hvp]; exact h4, h5⟩
  · rw [hc]
    refine ⟨by simp, fun x hx => ?_⟩
    have hx3 : x = oid := by simpa using hx
    rw [hx3, h1]
    exact ⟨h2, h3, h4, h5⟩

theorem sumOK_upd {st : Store} (hnd : (st.map (·.1)).Nodup)
    (hs : sumOK st) (k : Nat) (f : Order → Order)
    (hf : ∀ o, Store.get st k = some o → sumPred (f o)) :
    sumOK (Store.upd st k f) := by
  intro p hp
  unfold Store.upd at hp
  obtain ⟨q, hq, hq2⟩ := List.mem_map.mp hp
  by_cases hk : q.1 = k
  · rw [if_pos hk] at hq2
    have hg : Store.get st k = some q.2 := by
      rw [← hk]
      exact Store.mem_get hnd (by rw [show (q.1, q.2) = q from rfl]; exact hq)
    rw [← hq2]
    exact hf q.2 hg
  · rw [if_neg hk] at hq2
    rw [← hq2]
    exact hs q hq

theorem sumOK_get {st : Store} (hs : sumOK st) {k : Nat} {o : Order}
    (h : Store.get st k = some o) : sumPred o :=
  hs (k, o) (Store.get_mem h)

/-! ## Front-of-book and fill-accounting helpers -/

theorem frontOid_none {st : Store} {inst : String} {sd : Side}
    {ls : Ladder} (hm : ls.memOK st inst sd)
    (h : Ladder.frontOid ls = none) : ls = [] := by
  cases ls with
  | nil => rfl
  | cons l ls =>
    exfalso
    have hne := (hm l (List.mem_cons_self l ls)).1
    have h2 : l.fifo.head? = none := by simpa [Ladder.frontOid] using h
    exact hne (List.head?_eq_none_iff.mp h2)

theorem frontOid_cases {ls : Ladder} {oid : Nat}
    (h : Ladder.frontOid ls = some oid) :
    ∃ l ls2, ls = l :: ls2 ∧ oid ∈ l.fifo := by
  cases ls with
  | nil => cases h
  | cons l ls2 =>
    refine ⟨l, ls2, rfl, ?_⟩
    have h2 : l.fifo.head? = some oid := by simpa [Ladder.frontOid] using h
    cases hf : l.fifo with
    | nil => rw [hf] at h2; cases h2
    | cons a t =>
      rw [hf] at h2
      simp only [List.head?_cons, Option.some.injEq] at h2
      rw [← h2]
      exact List.mem_cons_self a t

theorem sumPred_branch1 {o : Order} (h : sumPred o) (hl : o.onList = true) :
    o.remaining + o.filled = o.quantity := by
  rcases h with h | ⟨_, h2⟩
  · exact h
  · rw [hl] at h2; cases h2

theorem sumPred_fill {o : Order}
    (h : o.remaining + o.filled = o.quantity) (q : Int) (p : Price) :
    sumPred (o.fill q p) := by
  left
  show o.remaining - q + (o.filled + q) = o.quantity
  omega

/-! ## The matching-step invariant -/

theorem matchStep_inv (inst : String) (aggr : Side) (c : BookCtx)
    (hc : ctxInv inst c) :
    matchStep aggr c = .brk c ∨
    ∃ t c', matchStep aggr c = .traded t c' ∧ ctxInv inst c' ∧
      StoreEvol inst c.store c'.store ∧
      (∀ x, x ∈ Ladder.oids c'.bids → x ∈ Ladder.oids c.bids) ∧
      (∀ x, x ∈ Ladder.oids c'.asks → x ∈ Ladder.oids c.asks) ∧
      (ctxPos c → ctxPos c') := by
  obtain ⟨hnd, hsb, hsa, hmb, hma, hno, hsum, hol⟩ := hc
  cases hbf : Ladder.frontOid c.bids with
  | none =>
    left
    have hbe : c.bids = [] := frontOid_none hmb hbf
    simp only [matchStep, hbf]
    rw [if_pos (Or.inl hbe)]
  | some bOid =>
  cases haf : Ladder.frontOid c.asks with
  | none =>
    left
    have hae : c.asks = [] := frontOid_none hma haf
    simp only [matchStep, hbf, haf]
    rw [if_pos (Or.inr hae)]
  | some aOid =>
  obtain ⟨lb, lbs, hlbe, hlbm⟩ := frontOid_cases hbf
  obtain ⟨la, las, hlae, hlam⟩ := frontOid_cases haf
  have hlb : lb ∈ c.bids := by rw [hlbe]; exact List.mem_cons_self _ _
  have hla : la ∈ c.asks := by rw [hlae]; exact List.mem_cons_self _ _
  have hBm : bOid ∈ Ladder.oids c.bids := mem_oids.mpr ⟨lb, hlb, hlbm⟩
  have hAm : aOid ∈ Ladder.oids c.asks := mem_oids.mpr ⟨la, hla, hlam⟩
  have hdisj : List.Disjoint (Ladder.oids c.bids) (Ladder.oids c.asks) :=
    List.disjoint_of_nodup_append hno
  have hBA : bOid ≠ aOid := fun he => hdisj hBm (he ▸ hAm)
  have hb1 := (hmb lb hlb).2 bOid hlbm
  have ha1 := (hma la hla).2 aOid hlam
  cases hgb : Store.get c.store bOid with
  | none => rw [hgb] at hb1; exact hb1.elim
  | some bo =>
  cases hga : Store.get c.store aOid with
  | none => rw [hga] at ha1; exact ha1.elim
  | some ao =>
  rw [hgb] at hb1; rw [hga] at ha1
  obtain ⟨hbol, hbsd, hbpr, hbin⟩ := hb1
  obtain ⟨haol, hasd, hapr, hain⟩ := ha1
  by_cases hpr : ao.price ≤ bo.price
  case neg =>
    left
    simp only [matchStep, hbf, haf, hgb, hga]
    rw [if_neg hpr]
  case pos =>
  right
  simp only [matchStep, hbf, haf, hgb, hga]
  rw [if_pos hpr]
  rw [hbol, haol]
  generalize hqm : min bo.remaining ao.remaining = qm
  generalize hpm : min bo.price ao.price = pm
  -- shared facts about the twice-filled store
  have hfr : ∀ o : Order, ∀ q p,
      (Order.fill o q p).side = o.side ∧
      (Order.fill o q p).price = o.price ∧
      (Order.fill o q p).instrument = o.instrument ∧
      (Order.fill o q p).onList = o.onList :=
    fun o q p => ⟨rfl, rfl, rfl, rfl⟩
  have hg1b : Store.get (Store.upd (Store.upd c.store bOid
      (fun o => Order.fill o qm pm)) aOid (fun o => Order.fill o qm pm))
      bOid = some (Order.fill bo qm pm) := by
    rw [Store.get_upd, if_neg hBA, Store.get_upd, if_pos rfl, hgb]
    rfl
  have hg1a : Store.get (Store.upd (Store.upd c.store bOid
      (fun o => Order.fill o qm pm)) aOid (fun o => Order.fill o qm pm))
      aOid = some (Order.fill ao qm pm) := by
    rw [Store.get_upd, if_pos rfl, Store.get_upd,
      if_neg (fun h => hBA h.symm), hga]
    rfl
  have hg1x : ∀ x, x ≠ bOid → x ≠ aOid →
      Store.get (Store.upd (Store.upd c.store bOid
        (fun o => Order.fill o qm pm)) aOid (fun o => Order.fill o qm pm))
        x = Store.get c.store x := by
    intro x hxb hxa
    rw [Store.get_upd, if_neg hxa, Store.get_upd, if_neg hxb]
  have hkeys1 : (Store.upd (Store.upd c.store bOid
      (fun o => Order.fill o qm pm)) aOid
      (fun o => Order.fill o qm pm)).map (·.1) = c.store.map (·.1) := by
    rw [Store.upd_keys, Store.upd_keys]
  have hnd1 : ((Store.upd (Store.upd c.store bOid
      (fun o => Order.fill o qm pm)) aOid
      (fun o => Order.fill o qm pm)).map (·.1)).Nodup := by
    rw [hkeys1]; exact hnd
  have hndm : ((Store.upd c.store bOid
      (fun o => Order.fill o qm pm)).map (·.1)).Nodup := by
    rw [Store.upd_keys]; exact hnd
  have hevol1 : StoreEvol inst c.store
      (Store.upd (Store.upd c.store bOid
        (fun o => Order.fill o qm pm)) aOid
        (fun o => Order.fill o qm pm)) := by
    refine StoreEvol.trans (StoreEvol.upd c.store bOid
      (fun o => Order.fill o qm pm) (fun o => ⟨rfl, rfl, rfl⟩) ?_)
      (StoreEvol.upd (Store.upd c.store bOid (fun o => Order.fill o qm pm))
        aOid (fun o => Order.fill o qm pm) (fun o => ⟨rfl, rfl, rfl⟩) ?_)
    · intro o h
      rw [hgb] at h
      injection h with h
      rw [← h]
      exact hbin
    · intro o h
      rw [Store.get_upd, if_neg (fun h2 => hBA h2.symm), hga] at h
      injection h with h
      rw [← h]
      exact hain
  have hmb1 : c.bids.memOK (Store.upd (Store.upd c.store bOid
      (fun o => Order.fill o qm pm)) aOid
      (fun o => Order.fill o qm pm)) inst Side.buy :=
    memOK_upd_keep (memOK_upd_keep hmb bOid _ (fun o => hfr o qm pm))
      aOid _ (fun o => hfr o qm pm)
  have hma1 : c.asks.memOK (Store.upd (Store.upd c.store bOid
      (fun o => Order.fill o qm pm)) aOid
      (fun o => Order.fill o qm pm)) inst Side.sell :=
    memOK_upd_keep (memOK_upd_keep hma bOid _ (fun o => hfr o qm pm))
      aOid _ (fun o => hfr o qm pm)
  have hsum1 : sumOK (Store.upd (Store.upd c.store bOid
      (fun o => Order.fill o qm pm)) aOid
      (fun o => Order.fill o qm pm)) := by
    refine sumOK_upd hndm (sumOK_upd hnd hsum bOid _ ?_) aOid _ ?_
    · intro o h
      rw [hgb] at h
      injection h with h
      rw [← h]
      exact sumPred_fill (sumPred_branch1 (sumOK_get hsum hgb) hbol) qm pm
    · intro o h
      rw [Store.get_upd, if_neg (fun h2 => hBA h2.symm), hga] at h
      injection h with h
      rw [← h]
      exact sumPred_fill (sumPred_branch1 (sumOK_get hsum hga) haol) qm pm
  have hol1 : ∀ k o, Store.get (Store.upd (Store.upd c.store bOid
      (fun o => Order.fill o qm pm)) aOid
      (fun o => Order.fill o qm pm)) k = some o → o.onList = true →
      o.instrument = inst →
      (if o.side = Side.buy then k ∈ Ladder.oids c.bids
       else k ∈ Ladder.oids c.asks) := by
    intro k o hk hon hin
    by_cases h1 : k = aOid
    · subst h1
      rw [hg1a] at hk
      injection hk with hk
      subst hk
      rw [show (Order.fill ao qm pm).side = Side.sell from hasd,
        if_neg (by decide : ¬(Side.sell = Side.buy))]
      exact hAm
    · by_cases h2 : k = bOid
      · subst h2
        rw [hg1b] at hk
        injection hk with hk
        subst hk
        rw [show (Order.fill bo qm pm).side = Side.buy from hbsd,
          if_pos rfl]
        exact hBm
      · rw [hg1x k h2 h1] at hk
        exact hol k o hk hon hin
  -- bid-side removal always succeeds when needed
  by_cases hzb : (Order.fill bo qm pm).remaining = 0
  · rw [if_pos hzb]
    obtain ⟨bids1, hrb⟩ := removeOrder_success hsb lb hlb
      (show lb.price = (Order.fill bo qm pm).price from hbpr.symm) hlbm
    rw [hrb]
    dsimp only []
    have hndb : (Ladder.oids c.bids).Nodup := (List.nodup_append.mp hno).1
    have hb1nm : bOid ∉ Ladder.oids bids1 := removeOrder_not_mem hndb hrb
    have hb1sub : ∀ x, x ∈ Ladder.oids bids1 → x ∈ Ladder.oids c.bids :=
      fun x hx => removeOrder_mem_rev hrb hx
    have ha1nmb : aOid ∉ Ladder.oids bids1 :=
      fun hm2 => hdisj (hb1sub aOid hm2) hAm
    have hperm1 : List.Perm (Ladder.oids c.bids ++ Ladder.oids c.asks)
        (bOid :: (Ladder.oids bids1 ++ Ladder.oids c.asks)) :=
      (removeOrder_perm _ _ _ _ _ _ hrb).append_right _
    by_cases hza : (Order.fill ao qm pm).remaining = 0
    · rw [if_pos hza]
      obtain ⟨asks1, hra⟩ := removeOrder_success hsa la hla
        (show la.price = (Order.fill ao qm pm).price from hapr.symm) hlam
      rw [hra]
      dsimp only []
      have hnda : (Ladder.oids c.asks).Nodup := (List.nodup_append.mp hno).2.1
      have ha1nm : aOid ∉ Ladder.oids asks1 := removeOrder_not_mem hnda hra
      have ha1sub : ∀ x, x ∈ Ladder.oids asks1 → x ∈ Ladder.oids c.asks :=
        fun x hx => removeOrder_mem_rev hra hx
      have hb1nma : bOid ∉ Ladder.oids asks1 :=
        fun hm2 => hdisj hBm (ha1sub bOid hm2)
      have hperm2 : List.Perm (Ladder.oids bids1 ++ Ladder.oids c.asks)
          (aOid :: (Ladder.oids bids1 ++ Ladder.oids asks1)) :=
        ((removeOrder_perm _ _ _ _ _ _ hra).append_left _).trans
          List.perm_middle
      have hnodup2 : (Ladder.oids bids1 ++ Ladder.oids asks1).Nodup := by
        have := (hperm1.trans (hperm2.cons bOid)).nodup_iff.mp hno
        exact this.of_cons.of_cons
      have hg3 : ∀ x, x ≠ bOid → x ≠ aOid →
          Store.get (Store.upd (Store.upd (Store.upd (Store.upd c.store
            bOid (fun o => Order.fill o qm pm)) aOid
            (fun o => Order.fill o qm pm)) bOid
            (fun o => { o with onList := false })) aOid
            (fun o => { o with onList := false })) x =
          Store.get c.store x := by
        intro x hxb hxa
        rw [Store.get_upd, if_neg hxa, Store.get_upd, if_neg hxb,
          hg1x x hxb hxa]
      have hg3b : Store.get (Store.upd (Store.upd (Store.upd (Store.upd
          c.store bOid (fun o => Order.fill o qm pm)) aOid
          (fun o => Order.fill o qm pm)) bOid
          (fun o => { o with onList := false })) aOid
          (fun o => { o with onList := false })) bOid =
          some { Order.fill bo qm pm with onList := false } := by
        rw [Store.get_upd, if_neg hBA, Store.get_upd, if_pos rfl, hg1b]
        rfl
      have hg3a : Store.get (Store.upd (Store.upd (Store.upd (Store.upd
          c.store bOid (fun o => Order.fill o qm pm)) aOid
          (fun o => Order.fill o qm pm)) bOid
          (fun o => { o with onList := false })) aOid
          (fun o => { o with onList := false })) aOid =
          some { Order.fill ao qm pm with onList := false } := by
        rw [Store.get_upd, if_pos rfl, Store.get_upd,
          if_neg (fun h => hBA h.symm), hg1a]
        rfl
      refine ⟨_, _, rfl, ⟨?_, ?_, ?_, ?_, ?_, ?_, ?_, ?_⟩, ?_, ?_, ?_, ?_⟩
      · rw [Store.upd_keys, Store.upd_keys, hkeys1]
        exact hnd
      · exact removeOrder_sorted hrb hsb
      · exact removeOrder_sorted hra hsa
      · exact memOK_upd_irrelevant (memOK_upd_irrelevant
          (memOK_remove hmb1 hrb) bOid
          (fun o => { o with onList := false }) hb1nm) aOid
          (fun o => { o with onList := false }) ha1nmb
      · exact memOK_upd_irrelevant (memOK_upd_irrelevant
          (memOK_remove hma1 hra) bOid
          (fun o => { o with onList := false }) hb1nma) aOid
          (fun o => { o with onList := false }) ha1nm
      · exact hnodup2
      · refine sumOK_upd (by rw [Store.upd_keys]; exact hnd1)
          (sumOK_upd hnd1 hsum1 bOid
            (fun o => { o with onList := false }) ?_) aOid
          (fun o => { o with onList := false }) ?_
        · intro o h
          rw [hg1b] at h
          injection h with h
          rw [← h]
          exact Or.inr ⟨hzb, rfl⟩
        · intro o h
          rw [Store.get_upd, if_neg (fun h2 => hBA h2.symm), hg1a] at h
          injection h with h
          rw [← h]
          exact Or.inr ⟨hza, rfl⟩
      · intro k o hk hon hin
        by_cases h1 : k = aOid
        · subst h1
          rw [hg3a] at hk
          injection hk with hk
          subst hk
          cases hon
        · by_cases h2 : k = bOid
          · subst h2
            rw [hg3b] at hk
            injection hk with hk
            subst hk
            cases hon
          · rw [hg3 k h2 h1] at hk
            have := hol k o hk hon hin
            by_cases hsd : o.side = Side.buy
            · rw [if_pos hsd] at this ⊢
              exact removeOrder_mem_of_ne hrb this h2
            · rw [if_neg hsd] at this ⊢
              exact removeOrder_mem_of_ne hra this h1
      · refine StoreEvol.trans hevol1 (StoreEvol.trans
          (StoreEvol.upd (Store.upd (Store.upd c.store bOid
              (fun o => Order.fill o qm pm)) aOid
              (fun o => Order.fill o qm pm)) bOid
            (fun o => { o with onList := false })
            (fun o => ⟨rfl, rfl, rfl⟩) ?_)
          (StoreEvol.upd (Store.upd (Store.upd (Store.upd c.store bOid
              (fun o => Order.fill o qm pm)) aOid
              (fun o => Order.fill o qm pm)) bOid
              (fun o => { o with onList := false })) aOid
            (fun o => { o with onList := false })
            (fun o => ⟨rfl, rfl, rfl⟩) ?_))
        · intro o h
          rw [hg1b] at h
          injection h with h
          rw [← h]
          exact hbin
        · intro o h
          rw [Store.get_upd, if_neg (fun h2 => hBA h2.symm), hg1a] at h
          injection h with h
          rw [← h]
          exact hain
      · exact hb1sub
      · exact ha1sub
      · intro hpos x hx
        rcases List.mem_append.mp hx with hx2 | hx2
        · have hxb := hb1sub x hx2
          have hxnb : x ≠ bOid := fun he => hb1nm (he ▸ hx2)
          have hxna : x ≠ aOid := fun he => hdisj hxb (he ▸ hAm)
          have hfact := hpos x (List.mem_append_left _ hxb)
          exact (hg3 x hxnb hxna).symm ▸ hfact
        · have hxa := ha1sub x hx2
          have hxna : x ≠ aOid := fun he => ha1nm (he ▸ hx2)
          have hxnb : x ≠ bOid := fun he => hdisj (he ▸ hBm) hxa
          have hfact := hpos x (List.mem_append_right _ hxa)
          exact (hg3 x hxnb hxna).symm ▸ hfact
    · rw [if_neg hza]
      have hg2b : Store.get (Store.upd (Store.upd (Store.upd c.store bOid
          (fun o => Order.fill o qm pm)) aOid (fun o => Order.fill o qm pm))
          bOid (fun o => { o with onList := false })) bOid =
          some { Order.fill bo qm pm with onList := false } := by
        rw [Store.get_upd, if_pos rfl, hg1b]
        rfl
      have hg2a : Store.get (Store.upd (Store.upd (Store.upd c.store bOid
          (fun o => Order.fill o qm pm)) aOid (fun o => Order.fill o qm pm))
          bOid (fun o => { o with onList := false })) aOid =
          some (Order.fill ao qm pm) := by
        rw [Store.get_upd, if_neg (fun h => hBA h.symm), hg1a]
      have hg2x : ∀ x, x ≠ bOid → x ≠ aOid →
          Store.get (Store.upd (Store.upd (Store.upd c.store bOid
            (fun o => Order.fill o qm pm)) aOid
            (fun o => Order.fill o qm pm)) bOid
            (fun o => { o with onList := false })) x =
          Store.get c.store x := by
        intro x hxb hxa
        rw [Store.get_upd, if_neg hxb, hg1x x hxb hxa]
      refine ⟨_, _, rfl, ⟨?_, ?_, ?_, ?_, ?_, ?_, ?_, ?_⟩, ?_, ?_, ?_, ?_⟩
      · rw [Store.upd_keys, hkeys1]
        exact hnd
      · exact removeOrder_sorted hrb hsb
      · exact hsa
      · exact memOK_upd_irrelevant (memOK_remove hmb1 hrb) bOid
          (fun o => { o with onList := false }) hb1nm
      · exact memOK_upd_irrelevant hma1 bOid
          (fun o => { o with onList := false })
          (fun hm2 => hdisj hBm hm2)
      · exact (hperm1.nodup_iff.mp hno).of_cons
      · refine sumOK_upd hnd1 hsum1 bOid
          (fun o => { o with onList := false }) ?_
        intro o h
        rw [hg1b] at h
        injection h with h
        rw [← h]
        exact Or.inr ⟨hzb, rfl⟩
      · intro k o hk hon hin
        by_cases h1 : k = aOid
        · subst h1
          rw [hg2a] at hk
          injection hk with hk
          subst hk
          rw [show (Order.fill ao qm pm).side = Side.sell from hasd,
            if_neg (by decide : ¬(Side.sell = Side.buy))]
          exact hAm
        · by_cases h2 : k = bOid
          · subst h2
            rw [hg2b] at hk
            injection hk with hk
            subst hk
            cases hon
          · rw [hg2x k h2 h1] at hk
            have h3 := hol k o hk hon hin
            by_cases hsd : o.side = Side.buy
            · rw [if_pos hsd] at h3 ⊢
              exact removeOrder_mem_of_ne hrb h3 h2
            · rw [if_neg hsd] at h3 ⊢
              exact h3
      · refine StoreEvol.trans hevol1 (StoreEvol.upd (Store.upd (Store.upd
          c.store bOid (fun o => Order.fill o qm pm)) aOid
          (fun o => Order.fill o qm pm)) bOid
          (fun o => { o with onList := false })
          (fun o => ⟨rfl, rfl, rfl⟩) ?_)
        intro o h
        rw [hg1b] at h
        injection h with h
        rw [← h]
        exact hbin
      · exact hb1sub
      · exact fun x hx => hx
      · intro hpos x hx
        rcases List.mem_append.mp hx with hx2 | hx2
        · have hxb := hb1sub x hx2
          have hxnb : x ≠ bOid := fun he => hb1nm (he ▸ hx2)
          have hxna : x ≠ aOid := fun he => hdisj hxb (he ▸ hAm)
          have hfact := hpos x (List.mem_append_left _ hxb)
          exact (hg2x x hxnb hxna).symm ▸ hfact
        · by_cases hxa : x = aOid
          · have hpa : optHolds (Store.get c.store aOid)
                (fun o => 0 < o.remaining) :=
              hpos aOid (List.mem_append_right _ hAm)
            rw [hga] at hpa
            have hpa2 : (0 : Int) < ao.remaining := hpa
            have hq2 : qm ≤ ao.remaining := by
              rw [← hqm]
              exact min_le_right _ _
            have hza2 : ¬(ao.remaining - qm = 0) := hza
            have hlt : (0 : Int) < ao.remaining - qm := by omega
            have hopt : optHolds (some (Order.fill ao qm pm))
                (fun o => 0 < o.remaining) := hlt
            rw [hxa]
            exact hg2a.symm ▸ hopt
          · have hxnb : x ≠ bOid := fun he => hdisj (he ▸ hBm) hx2
            have hfact := hpos x (List.mem_append_right _ hx2)
            exact (hg2x x hxnb hxa).symm ▸ hfact
  · rw [if_neg hzb]
    by_cases hza : (Order.fill ao qm pm).remaining = 0
    · rw [if_pos hza]
      obtain ⟨asks1, hra⟩ := removeOrder_success hsa la hla
        (show la.price = (Order.fill ao qm pm).price from hapr.symm) hlam
      rw [hra]
      dsimp only []
      have hnda : (Ladder.oids c.asks).Nodup := (List.nodup_append.mp hno).2.1
      have ha1nm : aOid ∉ Ladder.oids asks1 := removeOrder_not_mem hnda hra
      have ha1sub : ∀ x, x ∈ Ladder.oids asks1 → x ∈ Ladder.oids c.asks :=
        fun x hx => removeOrder_mem_rev hra hx
      have hb1nma : bOid ∉ Ladder.oids asks1 :=
        fun hm2 => hdisj hBm (ha1sub bOid hm2)
      have hperm2 : List.Perm (Ladder.oids c.bids ++ Ladder.oids c.asks)
          (aOid :: (Ladder.oids c.bids ++ Ladder.oids asks1)) :=
        ((removeOrder_perm _ _ _ _ _ _ hra).append_left _).trans
          List.perm_middle
      have hg2b : Store.get (Store.upd (Store.upd (Store.upd c.store bOid
          (fun o => Order.fill o qm pm)) aOid (fun o => Order.fill o qm pm))
          aOid (fun o => { o with onList := false })) bOid =
          some (Order.fill bo qm pm) := by
        rw [Store.get_upd, if_neg hBA, hg1b]
      have hg2a : Store.get (Store.upd (Store.upd (Store.upd c.store bOid
          (fun o => Order.fill o qm pm)) aOid (fun o => Order.fill o qm pm))
          aOid (fun o => { o with onList := false })) aOid =
          some { Order.fill ao qm pm with onList := false } := by
        rw [Store.get_upd, if_pos rfl, hg1a]
        rfl
      have hg2x : ∀ x, x ≠ bOid → x ≠ aOid →
          Store.get (Store.upd (Store.upd (Store.upd c.store bOid
            (fun o => Order.fill o qm pm)) aOid
            (fun o => Order.fill o qm pm)) aOid
            (fun o => { o with onList := false })) x =
          Store.get c.store x := by
        intro x hxb hxa
        rw [Store.get_upd, if_neg hxa, hg1x x hxb hxa]
      refine ⟨_, _, rfl, ⟨?_, ?_, ?_, ?_, ?_, ?_, ?_, ?_⟩, ?_, ?_, ?_, ?_⟩
      · rw [Store.upd_keys, hkeys1]
        exact hnd
      · exact hsb
      · exact removeOrder_sorted hra hsa
      · exact memOK_upd_irrelevant hmb1 aOid
          (fun o => { o with onList := false })
          (fun hm2 => hdisj hm2 hAm)
      · exact memOK_upd_irrelevant (memOK_remove hma1 hra) aOid
          (fun o => { o with onList := false }) ha1nm
      · exact (hperm2.nodup_iff.mp hno).of_cons
      · refine sumOK_upd hnd1 hsum1 aOid
          (fun o => { o with onList := false }) ?_
        intro o h
        rw [hg1a] at h
        injection h with h
        rw [← h]
        exact Or.inr ⟨hza, rfl⟩
      · intro k o hk hon hin
        by_cases h1 : k = aOid
        · subst h1
          rw [hg2a] at hk
          injection hk with hk
          subst hk
          cases hon
        · by_cases h2 : k = bOid
          · subst h2
            rw [hg2b] at hk
            injection hk with hk
            subst hk
            rw [show (Order.fill bo qm pm).side = Side.buy from hbsd,
              if_pos rfl]
            exact hBm
          · rw [hg2x k h2 h1] at hk
            have h3 := hol k o hk hon hin
            by_cases hsd : o.side = Side.buy
            · rw [if_pos hsd] at h3 ⊢
              exact h3
            · rw [if_neg hsd] at h3 ⊢
              exact removeOrder_mem_of_ne hra h3 h1
      · refine StoreEvol.trans hevol1 (StoreEvol.upd (Store.upd (Store.upd
          c.store bOid (fun o => Order.fill o qm pm)) aOid
          (fun o => Order.fill o qm pm)) aOid
          (fun o => { o with onList := false })
          (fun o => ⟨rfl, rfl, rfl⟩) ?_)
        intro o h
        rw [hg1a] at h
        injection h with h
        rw [← h]
        exact hain
      · exact fun x hx => hx
      · exact ha1sub
      · intro hpos x hx
        rcases List.mem_append.mp hx with hx2 | hx2
        · by_cases hxb : x = bOid
          · have hpb : optHolds (Store.get c.store bOid)
                (fun o => 0 < o.remaining) :=
              hpos bOid (List.mem_append_left _ hBm)
            rw [hgb] at hpb
            have hpb2 : (0 : Int) < bo.remaining := hpb
            have hq2 : qm ≤ bo.remaining := by
              rw [← hqm]
              exact min_le_left _ _
            have hzb2 : ¬(bo.remaining - qm = 0) := hzb
            have hlt : (0 : Int) < bo.remaining - qm := by omega
            have hopt : optHolds (some (Order.fill bo qm pm))
                (fun o => 0 < o.remaining) := hlt
            rw [hxb]
            exact hg2b.symm ▸ hopt
          · have hxna : x ≠ aOid := fun he => hdisj hx2 (he ▸ hAm)
            have hfact := hpos x (List.mem_append_left _ hx2)
            exact (hg2x x hxb hxna).symm ▸ hfact
        · have hxa := ha1sub x hx2
          have hxna : x ≠ aOid := fun he => ha1nm (he ▸ hx2)
          have hxnb : x ≠ bOid := fun he => hdisj (he ▸ hBm) hxa
          have hfact := hpos x (List.mem_append_right _ hxa)
          exact (hg2x x hxnb hxna).symm ▸ hfact
    · exfalso
      rcases min_choice bo.remaining ao.remaining with hm | hm
      · rw [hqm] at hm
        exact hzb (show bo.remaining - qm = 0 by omega)
      · rw [hqm] at hm
        exact hza (show ao.remaining - qm = 0 by omega)

/-! ## One-sided removal and insertion preserve the invariant -/

theorem Store.upd_upd_same (st : Store) (k : Nat) (f g : Order → Order) :
    Store.upd (Store.upd st k f) k g =
      Store.upd st k (fun o => g (f o)) := by
  induction st with
  | nil => rfl
  | cons p st ih =>
    by_cases hp : p.1 = k
    · simp only [Store.upd, List.map_cons, if_pos hp, ite_true]
      exact congrArg (List.cons (p.1, g (f p.2)))
        (by simpa [Store.upd] using ih)
    · simp only [Store.upd, List.map_cons, if_neg hp, ite_false]
      exact congrArg (List.cons p) (by simpa [Store.upd] using ih)

theorem removeBid_inv {inst : String} {c : BookCtx} {oid : Nat} {o : Order}
    (f : Order → Order)
    (hget : Store.get c.store oid = some o)
    (hool : o.onList = true) (hsd : o.side = Side.buy)
    (hin : o.instrument = inst) (hc : ctxInv inst c)
    (hfl : ∀ o2, (f o2).onList = false)
    (hfs : ∀ o2, sumPred o2 → sumPred (f o2))
    (hfk : ∀ o2, (f o2).side = o2.side ∧ (f o2).instrument = o2.instrument ∧
      (f o2).sessionId = o2.sessionId) :
    ∃ lad1, Ladder.removeOrder false true o.price oid c.bids = .ok lad1 ∧
      oid ∉ Ladder.oids lad1 ∧
      (∀ x, x ∈ Ladder.oids lad1 → x ∈ Ladder.oids c.bids) ∧
      ∀ evs, ctxInv inst
        { store := Store.upd c.store oid f, bids := lad1,
          asks := c.asks, events := evs } ∧
        StoreEvol inst c.store (Store.upd c.store oid f) ∧
        (ctxPos c → ctxPos
          { store := Store.upd c.store oid f, bids := lad1,
            asks := c.asks, events := evs }) := by
  obtain ⟨hnd, hsb, hsa, hmb, hma, hno, hsum, hol⟩ := hc
  have hrest : oid ∈ Ladder.oids c.bids := by
    have h1 := hol oid o hget hool hin
    rw [if_pos hsd] at h1
    exact h1
  obtain ⟨l, hl, hm⟩ := mem_oids.mp hrest
  have hp1 := (hmb l hl).2 oid hm
  rw [hget] at hp1
  have hlp : l.price = o.price := hp1.2.2.1.symm
  obtain ⟨lad1, hrem⟩ := removeOrder_success hsb l hl hlp hm
  have hdisj : List.Disjoint (Ladder.oids c.bids) (Ladder.oids c.asks) :=
    List.disjoint_of_nodup_append hno
  have hndb : (Ladder.oids c.bids).Nodup := (List.nodup_append.mp hno).1
  have hnm1 : oid ∉ Ladder.oids lad1 := removeOrder_not_mem hndb hrem
  have hsub1 : ∀ x, x ∈ Ladder.oids lad1 → x ∈ Ladder.oids c.bids :=
    fun x hx => removeOrder_mem_rev hrem hx
  have hnma : oid ∉ Ladder.oids c.asks := fun h2 => hdisj hrest h2
  have hgu : Store.get (Store.upd c.store oid f) oid = some (f o) := by
    rw [Store.get_upd, if_pos rfl, hget]
    rfl
  have hgx : ∀ x, x ≠ oid →
      Store.get (Store.upd c.store oid f) x = Store.get c.store x := by
    intro x hx
    rw [Store.get_upd, if_neg hx]
  have hperm : List.Perm (Ladder.oids c.bids ++ Ladder.oids c.asks)
      (oid :: (Ladder.oids lad1 ++ Ladder.oids c.asks)) :=
    (removeOrder_perm _ _ _ _ _ _ hrem).append_right _
  refine ⟨lad1, hrem, hnm1, hsub1, fun evs => ⟨⟨?_, ?_, ?_, ?_, ?_, ?_, ?_, ?_⟩,
    ?_, ?_⟩⟩
  · rw [Store.upd_keys]
    exact hnd
  · exact removeOrder_sorted hrem hsb
  · exact hsa
  · exact memOK_upd_irrelevant (memOK_remove hmb hrem) oid f hnm1
  · exact memOK_upd_irrelevant hma oid f hnma
  · exact (hperm.nodup_iff.mp hno).of_cons
  · refine sumOK_upd hnd hsum oid f ?_
    intro o2 h2
    rw [hget] at h2
    injection h2 with h2
    rw [← h2]
    exact hfs o (sumOK_get hsum hget)
  · intro k o2 hk hon hin2
    by_cases h1 : k = oid
    · subst h1
      rw [hgu] at hk
      injection hk with hk
      rw [← hk] at hon
      rw [hfl o] at hon
      cases hon
    · rw [hgx k h1] at hk
      have h3 := hol k o2 hk hon hin2
      by_cases hsd2 : o2.side = Side.buy
      · rw [if_pos hsd2] at h3 ⊢
        exact removeOrder_mem_of_ne hrem h3 h1
      · rw [if_neg hsd2] at h3 ⊢
        exact h3
  · refine StoreEvol.upd c.store oid f (fun o2 => ⟨(hfk o2).1, (hfk o2).2.1,
      (hfk o2).2.2⟩) ?_
    intro o2 h2
    rw [hget] at h2
    injection h2 with h2
    rw [← h2]
    exact hin
  · intro hpos x hx
    rcases List.mem_append.mp hx with hx2 | hx2
    · have hxb := hsub1 x hx2
      have hxn : x ≠ oid := fun he => hnm1 (he ▸ hx2)
      have hfact := hpos x (List.mem_append_left _ hxb)
      exact (hgx x hxn).symm ▸ hfact
    · have hxn : x ≠ oid := fun he => hnma (he ▸ hx2)
      have hfact := hpos x (List.mem_append_right _ hx2)
      exact (hgx x hxn).symm ▸ hfact

theorem removeAsk_inv {inst : String} {c : BookCtx} {oid : Nat} {o : Order}
    (f : Order → Order)
    (hget : Store.get c.store oid = some o)
    (hool : o.onList = true) (hsd : o.side = Side.sell)
    (hin : o.instrument = inst) (hc : ctxInv inst c)
    (hfl : ∀ o2, (f o2).onList = false)
    (hfs : ∀ o2, sumPred o2 → sumPred (f o2))
    (hfk : ∀ o2, (f o2).side = o2.side ∧ (f o2).instrument = o2.instrument ∧
      (f o2).sessionId = o2.sessionId) :
    ∃ lad1, Ladder.removeOrder true true o.price oid c.asks = .ok lad1 ∧
      oid ∉ Ladder.oids lad1 ∧
      (∀ x, x ∈ Ladder.oids lad1 → x ∈ Ladder.oids c.asks) ∧
      ∀ evs, ctxInv inst
        { store := Store.upd c.store oid f,
          bids := c.bids, asks := lad1, events := evs } ∧
        StoreEvol inst c.store (Store.upd c.store oid f) ∧
        (ctxPos c → ctxPos
          { store := Store.upd c.store oid f,
            bids := c.bids, asks := lad1, events := evs }) := by
  obtain ⟨hnd, hsb, hsa, hmb, hma, hno, hsum, hol⟩ := hc
  have hrest : oid ∈ Ladder.oids c.asks := by
    have h1 := hol oid o hget hool hin
    rw [hsd, if_neg (by decide : ¬(Side.sell = Side.buy))] at h1
    exact h1
  obtain ⟨l, hl, hm⟩ := mem_oids.mp hrest
  have hp1 := (hma l hl).2 oid hm
  rw [hget] at hp1
  have hlp : l.price = o.price := hp1.2.2.1.symm
  obtain ⟨lad1, hrem⟩ := removeOrder_success hsa l hl hlp hm
  have hdisj : List.Disjoint (Ladder.oids c.bids) (Ladder.oids c.asks) :=
    List.disjoint_of_nodup_append hno
  have hnda : (Ladder.oids c.asks).Nodup := (List.nodup_append.mp hno).2.1
  have hnm1 : oid ∉ Ladder.oids lad1 := removeOrder_not_mem hnda hrem
  have hsub1 : ∀ x, x ∈ Ladder.oids lad1 → x ∈ Ladder.oids c.asks :=
    fun x hx => removeOrder_mem_rev hrem hx
  have hnmb : oid ∉ Ladder.oids c.bids := fun h2 => hdisj h2 hrest
  have hgu : Store.get (Store.upd c.store oid f) oid = some (f o) := by
    rw [Store.get_upd, if_pos rfl, hget]
    rfl
  have hgx : ∀ x, x ≠ oid →
      Store.get (Store.upd c.store oid f) x = Store.get c.store x := by
    intro x hx
    rw [Store.get_upd, if_neg hx]
  have hperm : List.Perm (Ladder.oids c.bids ++ Ladder.oids c.asks)
      (oid :: (Ladder.oids c.bids ++ Ladder.oids lad1)) :=
    ((removeOrder_perm _ _ _ _ _ _ hrem).append_left _).trans
      List.perm_middle
  refine ⟨lad1, hrem, hnm1, hsub1, fun evs => ⟨⟨?_, ?_, ?_, ?_, ?_, ?_, ?_, ?_⟩,
    ?_, ?_⟩⟩
  · rw [Store.upd_keys]
    exact hnd
  · exact hsb
  · exact removeOrder_sorted hrem hsa
  · exact memOK_upd_irrelevant hmb oid f hnmb
  · exact memOK_upd_irrelevant (memOK_remove hma hrem) oid f hnm1
  · exact (hperm.nodup_iff.mp hno).of_cons
  · refine sumOK_upd hnd hsum oid f ?_
    intro o2 h2
    rw [hget] at h2
    injection h2 with h2
    rw [← h2]
    exact hfs o (sumOK_get hsum hget)
  · intro k o2 hk hon hin2
    by_cases h1 : k = oid
    · subst h1
      rw [hgu] at hk
      injection hk with hk
      rw [← hk] at hon
      rw [hfl o] at hon
      cases hon
    · rw [hgx k h1] at hk
      have h3 := hol k o2 hk hon hin2
      by_cases hsd2 : o2.side = Side.buy
      · rw [if_pos hsd2] at h3 ⊢
        exact h3
      · rw [if_neg hsd2] at h3 ⊢
        exact removeOrder_mem_of_ne hrem h3 h1
  · refine StoreEvol.upd c.store oid f (fun o2 => ⟨(hfk o2).1, (hfk o2).2.1,
      (hfk o2).2.2⟩) ?_
    intro o2 h2
    rw [hget] at h2
    injection h2 with h2
    rw [← h2]
    exact hin
  · intro hpos x hx
    rcases List.mem_append.mp hx with hx2 | hx2
    · have hxn : x ≠ oid := fun he => hnmb (he ▸ hx2)
      have hfact := hpos x (List.mem_append_left _ hx2)
      exact (hgx x hxn).symm ▸ hfact
    · have hxa := hsub1 x hx2
      have hxn : x ≠ oid := fun he => hnm1 (he ▸ hx2)
      have hfact := hpos x (List.mem_append_right _ hxa)
      exact (hgx x hxn).symm ▸ hfact

theorem insertBid_inv {inst : String} {c : BookCtx} {oid : Nat} {o : Order}
    (f : Order → Order) (p : Price)
    (hget : Store.get c.store oid = some o)
    (hnb : oid ∉ Ladder.oids c.bids) (hna : oid ∉ Ladder.oids c.asks)
    (hc : ctxInv inst c)
    (hfl : (f o).onList = true) (hfsd : (f o).side = Side.buy)
    (hfin : (f o).instrument = inst) (hfp : (f o).price = p)
    (hfs : sumPred (f o))
    (hfk : ∀ o2, (f o2).side = o2.side ∧ (f o2).instrument = o2.instrument ∧
      (f o2).sessionId = o2.sessionId) :
    ∀ evs, ctxInv inst
      { store := Store.upd c.store oid f,
        bids := Ladder.insertOrder false p oid c.bids,
        asks := c.asks, events := evs } ∧
      StoreEvol inst c.store (Store.upd c.store oid f) ∧
      (ctxPos c → 0 < (f o).remaining → ctxPos
        { store := Store.upd c.store oid f,
          bids := Ladder.insertOrder false p oid c.bids,
          asks := c.asks, events := evs }) := by
  obtain ⟨hnd, hsb, hsa, hmb, hma, hno, hsum, hol⟩ := hc
  have hgu : Store.get (Store.upd c.store oid f) oid = some (f o) := by
    rw [Store.get_upd, if_pos rfl, hget]
    rfl
  have hgx : ∀ x, x ≠ oid →
      Store.get (Store.upd c.store oid f) x = Store.get c.store x := by
    intro x hx
    rw [Store.get_upd, if_neg hx]
  have hoin : o.instrument = inst := by rw [← (hfk o).2.1]; exact hfin
  have hperm : List.Perm
      (Ladder.oids (Ladder.insertOrder false p oid c.bids) ++
        Ladder.oids c.asks)
      (oid :: (Ladder.oids c.bids ++ Ladder.oids c.asks)) :=
    (insertOrder_oids_perm false p oid c.bids).append_right _
  have hmemi : oid ∈ Ladder.oids (Ladder.insertOrder false p oid c.bids) :=
    (insertOrder_oids_perm false p oid c.bids).mem_iff.mpr
      (List.mem_cons_self _ _)
  have hmemt : ∀ x, x ∈ Ladder.oids c.bids →
      x ∈ Ladder.oids (Ladder.insertOrder false p oid c.bids) :=
    fun x hx => (insertOrder_oids_perm false p oid c.bids).mem_iff.mpr
      (List.mem_cons_of_mem _ hx)
  have hnmem : oid ∉ Ladder.oids c.bids ++ Ladder.oids c.asks := by
    intro h2
    rcases List.mem_append.mp h2 with h3 | h3
    · exact hnb h3
    · exact hna h3
  intro evs
  refine ⟨⟨?_, ?_, ?_, ?_, ?_, ?_, ?_, ?_⟩, ?_, ?_⟩
  · rw [Store.upd_keys]
    exact hnd
  · exact insertOrder_sorted false p oid c.bids hsb
  · exact hsa
  · exact memOK_insert (memOK_upd_irrelevant hmb oid f hnb) hgu hfl hfsd
      hfp hfin
  · exact memOK_upd_irrelevant hma oid f hna
  · exact hperm.nodup_iff.mpr (List.nodup_cons.mpr ⟨hnmem, hno⟩)
  · refine sumOK_upd hnd hsum oid f ?_
    intro o2 h2
    rw [hget] at h2
    injection h2 with h2
    rw [← h2]
    exact hfs
  · intro k o2 hk hon hin2
    by_cases h1 : k = oid
    · subst h1
      rw [hgu] at hk
      injection hk with hk
      rw [← hk, hfsd, if_pos rfl]
      exact hmemi
    · rw [hgx k h1] at hk
      have h3 := hol k o2 hk hon hin2
      by_cases hsd2 : o2.side = Side.buy
      · rw [if_pos hsd2] at h3 ⊢
        exact hmemt k h3
      · rw [if_neg hsd2] at h3 ⊢
        exact h3
  · refine StoreEvol.upd c.store oid f (fun o2 => ⟨(hfk o2).1, (hfk o2).2.1,
      (hfk o2).2.2⟩) ?_
    intro o2 h2
    rw [hget] at h2
    injection h2 with h2
    rw [← h2]
    exact hoin
  · intro hpos hfr x hx
    rcases List.mem_append.mp hx with hx2 | hx2
    · have hx3 := (insertOrder_oids_perm false p oid c.bids).mem_iff.mp hx2
      rcases List.mem_cons.mp hx3 with h4 | h4
      · rw [h4]
        have hopt : optHolds (some (f o)) (fun o2 => 0 < o2.remaining) := hfr
        exact hgu.symm ▸ hopt
      · have hxn : x ≠ oid := fun he => hnb (he ▸ h4)
        have hfact := hpos x (List.mem_append_left _ h4)
        exact (hgx x hxn).symm ▸ hfact
    · have hxn : x ≠ oid := fun he => hna (he ▸ hx2)
      have hfact := hpos x (List.mem_append_right _ hx2)
      exact (hgx x hxn).symm ▸ hfact

theorem insertAsk_inv {inst : String} {c : BookCtx} {oid : Nat} {o : Order}
    (f : Order → Order) (p : Price)
    (hget : Store.get c.store oid = some o)
    (hnb : oid ∉ Ladder.oids c.bids) (hna : oid ∉ Ladder.oids c.asks)
    (hc : ctxInv inst c)
    (hfl : (f o).onList = true) (hfsd : (f o).side = Side.sell)
    (hfin : (f o).instrument = inst) (hfp : (f o).price = p)
    (hfs : sumPred (f o))
    (hfk : ∀ o2, (f o2).side = o2.side ∧ (f o2).instrument = o2.instrument ∧
      (f o2).sessionId = o2.sessionId) :
    ∀ evs, ctxInv inst
      { store := Store.upd c.store oid f,
        bids := c.bids,
        asks := Ladder.insertOrder true p oid c.asks, events := evs } ∧
      StoreEvol inst c.store (Store.upd c.store oid f) ∧
      (ctxPos c → 0 < (f o).remaining → ctxPos
        { store := Store.upd c.store oid f,
          bids := c.bids,
          asks := Ladder.insertOrder true p oid c.asks, events := evs }) := by
  obtain ⟨hnd, hsb, hsa, hmb, hma, hno, hsum, hol⟩ := hc
  have hgu : Store.get (Store.upd c.store oid f) oid = some (f o) := by
    rw [Store.get_upd, if_pos rfl, hget]
    rfl
  have hgx : ∀ x, x ≠ oid →
      Store.get (Store.upd c.store oid f) x = Store.get c.store x := by
    intro x hx
    rw [Store.get_upd, if_neg hx]
  have hoin : o.instrument = inst := by rw [← (hfk o).2.1]; exact hfin
  have hperm : List.Perm
      (Ladder.oids c.bids ++
        Ladder.oids (Ladder.insertOrder true p oid c.asks))
      (oid :: (Ladder.oids c.bids ++ Ladder.oids c.asks)) :=
    ((insertOrder_oids_perm true p oid c.asks).append_left _).trans
      List.perm_middle
  have hmemi : oid ∈ Ladder.oids (Ladder.insertOrder true p oid c.asks) :=
    (insertOrder_oids_perm true p oid c.asks).mem_iff.mpr
      (List.mem_cons_self _ _)
  have hmemt : ∀ x, x ∈ Ladder.oids c.asks →
      x ∈ Ladder.oids (Ladder.insertOrder true p oid c.asks) :=
    fun x hx => (insertOrder_oids_perm true p oid c.asks).mem_iff.mpr
      (List.mem_cons_of_mem _ hx)
  have hnmem : oid ∉ Ladder.oids c.bids ++ Ladder.oids c.asks := by
    intro h2
    rcases List.mem_append.mp h2 with h3 | h3
    · exact hnb h3
    · exact hna h3
  intro evs
  refine ⟨⟨?_, ?_, ?_, ?_, ?_, ?_, ?_, ?_⟩, ?_, ?_⟩
  · rw [Store.upd_keys]
    exact hnd
  · exact hsb
  · exact insertOrder_sorted true p oid c.asks hsa
  · exact memOK_upd_irrelevant hmb oid f hnb
  · exact memOK_insert (memOK_upd_irrelevant hma oid f hna) hgu hfl hfsd
      hfp hfin
  · exact hperm.nodup_iff.mpr (List.nodup_cons.mpr ⟨hnmem, hno⟩)
  · refine sumOK_upd hnd hsum oid f ?_
    intro o2 h2
    rw [hget] at h2
    injection h2 with h2
    rw [← h2]
    exact hfs
  · intro k o2 hk hon hin2
    by_cases h1 : k = oid
    · subst h1
      rw [hgu] at hk
      injection hk with hk
      rw [← hk, hfsd, if_neg (by decide : ¬(Side.sell = Side.buy))]
      exact hmemi
    · rw [hgx k h1] at hk
      have h3 := hol k o2 hk hon hin2
      by_cases hsd2 : o2.side = Side.buy
      · rw [if_pos hsd2] at h3 ⊢
        exact h3
      · rw [if_neg hsd2] at h3 ⊢
        exact hmemt k h3
  · refine StoreEvol.upd c.store oid f (fun o2 => ⟨(hfk o2).1, (hfk o2).2.1,
      (hfk o2).2.2⟩) ?_
    intro o2 h2
    rw [hget] at h2
    injection h2 with h2
    rw [← h2]
    exact hoin
  · intro hpos hfr x hx
    rcases List.mem_append.mp hx with hx2 | hx2
    · have hxn : x ≠ oid := fun he => hnb (he ▸ hx2)
      have hfact := hpos x (List.mem_append_left _ hx2)
      exact (hgx x hxn).symm ▸ hfact
    · have hx3 := (insertOrder_oids_perm true p oid c.asks).mem_iff.mp hx2
      rcases List.mem_cons.mp hx3 with h4 | h4
      · rw [h4]
        have hopt : optHolds (some (f o)) (fun o2 => 0 < o2.remaining) := hfr
        exact hgu.symm ▸ hopt
      · have hxn : x ≠ oid := fun he => hna (he ▸ h4)
        have hfact := hpos x (List.mem_append_right _ h4)
        exact (hgx x hxn).symm ▸ hfact

theorem matchLoopGo_inv (inst : String) (aggr : Side) :
    ∀ (fuel : Nat) (c : BookCtx), ctxInv inst c → c.restingCount < fuel →
      ∃ c', matchLoopGo fuel aggr c = (c', none) ∧ ctxInv inst c' ∧
        StoreEvol inst c.store c'.store ∧
        (∀ x, x ∈ Ladder.oids c'.bids → x ∈ Ladder.oids c.bids) ∧
        (∀ x, x ∈ Ladder.oids c'.asks → x ∈ Ladder.oids c.asks) ∧
        (ctxPos c → ctxPos c') := by
  intro fuel
  induction fuel using Nat.strong_induction_on with
  | _ fuel ih =>
    intro c hc hlt
    cases fuel with
    | zero => exact absurd hlt (Nat.not_lt_zero _)
    | succ m =>
      rcases matchStep_inv inst aggr c hc with hbrk |
        ⟨t, c1, hstep, hc1, hev, hsb2, hsa2, hp2⟩
      · refine ⟨c, ?_, hc, StoreEvol.refl inst c.store, fun x hx => hx,
          fun x hx => hx, fun h => h⟩
        simp only [matchLoopGo, hbrk]
      · have hdec := matchStep_traded_decreases aggr c t c1 hstep
        obtain ⟨c2, hc2eq, hc2, hev2, hsb3, hsa3, hp3⟩ :=
          ih m (Nat.lt_succ_self m) c1 hc1 (by omega)
        refine ⟨c2, ?_, hc2, hev.trans hev2,
          fun x hx => hsb2 x (hsb3 x hx), fun x hx => hsa2 x (hsa3 x hx),
          fun h => hp3 (hp2 h)⟩
        simp only [matchLoopGo, hstep]
        exact hc2eq

theorem residualCancel_inv (inst : String) (aggr : Side) (c : BookCtx)
    (hc : ctxInv inst c) :
    ∃ c', residualCancel aggr c = (c', none) ∧ ctxInv inst c' ∧
      StoreEvol inst c.store c'.store ∧
      (∀ x, x ∈ Ladder.oids c'.bids → x ∈ Ladder.oids c.bids) ∧
      (∀ x, x ∈ Ladder.oids c'.asks → x ∈ Ladder.oids c.asks) ∧
      (ctxPos c → ctxPos c') := by
  cases aggr with
  | buy =>
    unfold residualCancel
    dsimp only []
    rw [if_pos (rfl : Side.buy = Side.buy)]
    cases hf : Ladder.frontOid c.bids with
    | none =>
      exact ⟨c, rfl, hc, StoreEvol.refl inst c.store, fun x hx => hx,
        fun x hx => hx, fun h => h⟩
    | some oid =>
      obtain ⟨l, ls2, hle, hlm⟩ := frontOid_cases hf
      have hl : l ∈ c.bids := by rw [hle]; exact List.mem_cons_self _ _
      have h1 := (hc.2.2.2.1 l hl).2 oid hlm
      cases hg : Store.get c.store oid with
      | none => rw [hg] at h1; exact h1.elim
      | some o =>
      rw [hg] at h1
      obtain ⟨hool, hosd, hopr, hoin⟩ := h1
      dsimp only []
      rw [hg]
      dsimp only []
      by_cases hmkt : o.isMarket
      case neg =>
        rw [if_neg hmkt]
        exact ⟨c, rfl, hc, StoreEvol.refl inst c.store, fun x hx => hx,
          fun x hx => hx, fun h => h⟩
      case pos =>
      rw [if_pos hmkt, hool]
      obtain ⟨lad1, hrem, hnm1, hsub1, hrest⟩ := removeBid_inv
        (fun x => { x.cancel with onList := false }) hg hool hosd hoin
        ⟨hc.1, hc.2.1, hc.2.2.1, hc.2.2.2.1, hc.2.2.2.2.1,
          hc.2.2.2.2.2.1, hc.2.2.2.2.2.2.1, hc.2.2.2.2.2.2.2⟩
        (fun o2 => rfl) (fun o2 _ => Or.inr ⟨rfl, rfl⟩)
        (fun o2 => ⟨rfl, rfl, rfl⟩)
      rw [show decide (Side.buy = Side.sell) = false from rfl, hrem]
      dsimp only []
      rw [if_pos (rfl : Side.buy = Side.buy)]
      obtain ⟨hcinv, hevol, hpos⟩ :=
        hrest (c.events ++ [Event.onOrder { o.cancel with onList := false }])
      exact ⟨_, rfl, hcinv, hevol, fun x hx => hsub1 x hx, fun x hx => hx,
        hpos⟩
  | sell =>
    unfold residualCancel
    dsimp only []
    rw [if_neg (by decide : ¬(Side.sell = Side.buy))]
    cases hf : Ladder.frontOid c.asks with
    | none =>
      exact ⟨c, rfl, hc, StoreEvol.refl inst c.store, fun x hx => hx,
        fun x hx => hx, fun h => h⟩
    | some oid =>
      obtain ⟨l, ls2, hle, hlm⟩ := frontOid_cases hf
      have hl : l ∈ c.asks := by rw [hle]; exact List.mem_cons_self _ _
      have h1 := (hc.2.2.2.2.1 l hl).2 oid hlm
      cases hg : Store.get c.store oid with
      | none => rw [hg] at h1; exact h1.elim
      | some o =>
      rw [hg] at h1
      obtain ⟨hool, hosd, hopr, hoin⟩ := h1
      dsimp only []
      rw [hg]
      dsimp only []
      by_cases hmkt : o.isMarket
      case neg =>
        rw [if_neg hmkt]
        exact ⟨c, rfl, hc, StoreEvol.refl inst c.store, fun x hx => hx,
          fun x hx => hx, fun h => h⟩
      case pos =>
      rw [if_pos hmkt, hool]
      obtain ⟨lad1, hrem, hnm1, hsub1, hrest⟩ := removeAsk_inv
        (fun x => { x.cancel with onList := false }) hg hool hosd hoin
        ⟨hc.1, hc.2.1, hc.2.2.1, hc.2.2.2.1, hc.2.2.2.2.1,
          hc.2.2.2.2.2.1, hc.2.2.2.2.2.2.1, hc.2.2.2.2.2.2.2⟩
        (fun o2 => rfl) (fun o2 _ => Or.inr ⟨rfl, rfl⟩)
        (fun o2 => ⟨rfl, rfl, rfl⟩)
      rw [show decide (Side.sell = Side.sell) = true from rfl, hrem]
      dsimp only []
      rw [if_neg (by decide : ¬(Side.sell = Side.buy))]
      obtain ⟨hcinv, hevol, hpos⟩ :=
        hrest (c.events ++ [Event.onOrder { o.cancel with onList := false }])
      exact ⟨_, rfl, hcinv, hevol, fun x hx => hx, fun x hx => hsub1 x hx,
        hpos⟩

theorem matchOrders_inv (inst : String) (aggr : Side) (c : BookCtx)
    (hc : ctxInv inst c) :
    ∃ c', matchOrders aggr c = (c', none) ∧ ctxInv inst c' ∧
      StoreEvol inst c.store c'.store ∧
      (∀ x, x ∈ Ladder.oids c'.bids → x ∈ Ladder.oids c.bids) ∧
      (∀ x, x ∈ Ladder.oids c'.asks → x ∈ Ladder.oids c.asks) ∧
      (ctxPos c → ctxPos c') := by
  obtain ⟨c1, h1, hc1, hev1, hb1, ha1, hp1⟩ :=
    matchLoopGo_inv inst aggr (c.restingCount + 1) c hc (Nat.lt_succ_self _)
  obtain ⟨c2, h2, hc2, hev2, hb2, ha2, hp2⟩ :=
    residualCancel_inv inst aggr c1 hc1
  refine ⟨c2, ?_, hc2, hev1.trans hev2, fun x hx => hb1 x (hb2 x hx),
    fun x hx => ha1 x (ha2 x hx), fun h => hp2 (hp1 h)⟩
  unfold matchOrders
  rw [h1]
  exact h2

theorem obInsertOrder_inv (inst : String) (oid : Nat) (c : BookCtx)
    (hc : ctxInv inst c)
    (hok : ∀ o, Store.get c.store oid = some o →
      o.instrument = inst ∧ o.onList = false) :
    ∃ c', obInsertOrder oid c = (c', none) ∧ ctxInv inst c' ∧
      StoreEvol inst c.store c'.store ∧
      (ctxPos c → ctxPos c') := by
  unfold obInsertOrder
  cases hg : Store.get c.store oid with
  | none =>
    exact ⟨c, rfl, hc, StoreEvol.refl inst c.store, fun h => h⟩
  | some o =>
    obtain ⟨hin, honl⟩ := hok o hg
    dsimp only []
    by_cases hq : o.remaining ≤ 0
    · rw [if_pos hq]
      exact ⟨c, rfl, hc, StoreEvol.refl inst c.store, fun h => h⟩
    · rw [if_neg hq]
      have hnb : oid ∉ Ladder.oids c.bids := by
        intro hmem
        obtain ⟨l, hl, hm⟩ := mem_oids.mp hmem
        have h1 := (hc.2.2.2.1 l hl).2 oid hm
        rw [hg] at h1
        obtain ⟨h11, _, _, _⟩ := h1
        rw [honl] at h11
        cases h11
      have hna : oid ∉ Ladder.oids c.asks := by
        intro hmem
        obtain ⟨l, hl, hm⟩ := mem_oids.mp hmem
        have h1 := (hc.2.2.2.2.1 l hl).2 oid hm
        rw [hg] at h1
        obtain ⟨h11, _, _, _⟩ := h1
        rw [honl] at h11
        cases h11
      have hsump : sumPred ({ o with onList := true } : Order) := by
        rcases sumOK_get hc.2.2.2.2.2.2.1 hg with h | ⟨h0, _⟩
        · exact Or.inl h
        · exact absurd (by omega : o.remaining ≤ 0) hq
      have hrempos : (0 : Int) < ({ o with onList := true } : Order).remaining := by
        show (0 : Int) < o.remaining
        omega
      by_cases hsd : o.side = Side.buy
      · rw [if_pos hsd]
        obtain ⟨hcinv, hevol, hposi⟩ := insertBid_inv
          (fun x => { x with onList := true }) o.price hg hnb hna hc
          rfl hsd hin rfl hsump (fun o2 => ⟨rfl, rfl, rfl⟩)
          (c.events ++ [Event.onOrder { o with onList := true }])
        obtain ⟨c2, heq, hc2, hev2, _, _, hp2⟩ :=
          matchOrders_inv inst o.side
            { store := Store.upd c.store oid
                (fun x => { x with onList := true }),
              bids := Ladder.insertOrder false o.price oid c.bids,
              asks := c.asks,
              events := c.events ++
                [Event.onOrder { o with onList := true }] } hcinv
        exact ⟨c2, heq, hc2, hevol.trans hev2,
          fun h => hp2 (hposi h hrempos)⟩
      · rw [if_neg hsd]
        have hsd2 : o.side = Side.sell := by
          cases hs2 : o.side with
          | buy => exact absurd hs2 hsd
          | sell => rfl
        obtain ⟨hcinv, hevol, hposi⟩ := insertAsk_inv
          (fun x => { x with onList := true }) o.price hg hnb hna hc
          rfl hsd2 hin rfl hsump (fun o2 => ⟨rfl, rfl, rfl⟩)
          (c.events ++ [Event.onOrder { o with onList := true }])
        obtain ⟨c2, heq, hc2, hev2, _, _, hp2⟩ :=
          matchOrders_inv inst o.side
            { store := Store.upd c.store oid
                (fun x => { x with onList := true }),
              bids := c.bids,
              asks := Ladder.insertOrder true o.price oid c.asks,
              events := c.events ++
                [Event.onOrder { o with onList := true }] } hcinv
        exact ⟨c2, heq, hc2, hevol.trans hev2,
          fun h => hp2 (hposi h hrempos)⟩

theorem obCancelOrder_inv (inst : String) (oid : Nat) (c : BookCtx)
    (hc : ctxInv inst c)
    (hok : ∀ o, Store.get c.store oid = some o → o.instrument = inst) :
    ∃ res c', obCancelOrder oid c = (.ok res, c') ∧ ctxInv inst c' ∧
      StoreEvol inst c.store c'.store ∧
      (ctxPos c → ctxPos c') := by
  unfold obCancelOrder
  cases hg : Store.get c.store oid with
  | none =>
    exact ⟨-1, c, rfl, hc, StoreEvol.refl inst c.store, fun h => h⟩
  | some o =>
    have hin := hok o hg
    dsimp only []
    by_cases hr : 0 < o.remaining
    case neg =>
      rw [if_neg hr]
      exact ⟨-1, c, rfl, hc, StoreEvol.refl inst c.store, fun h => h⟩
    case pos =>
    rw [if_pos hr]
    by_cases hl : o.onList
    case neg =>
      rw [if_neg hl]
      have honl : o.onList = false := by
        revert hl; cases o.onList <;> simp
      have hnb : oid ∉ Ladder.oids c.bids := by
        intro hmem
        obtain ⟨l2, hl2, hm2⟩ := mem_oids.mp hmem
        have h1 := (hc.2.2.2.1 l2 hl2).2 oid hm2
        rw [hg] at h1
        obtain ⟨h11, _, _, _⟩ := h1
        rw [honl] at h11
        cases h11
      have hna : oid ∉ Ladder.oids c.asks := by
        intro hmem
        obtain ⟨l2, hl2, hm2⟩ := mem_oids.mp hmem
        have h1 := (hc.2.2.2.2.1 l2 hl2).2 oid hm2
        rw [hg] at h1
        obtain ⟨h11, _, _, _⟩ := h1
        rw [honl] at h11
        cases h11
      obtain ⟨hnd, hsb, hsa, hmb, hma, hno, hsum, hol⟩ := hc
      have hgx : ∀ x, x ≠ oid →
          Store.get (Store.upd c.store oid Order.cancel) x =
            Store.get c.store x := by
        intro x hx
        rw [Store.get_upd, if_neg hx]
      refine ⟨-1, _, rfl, ⟨?_, hsb, hsa, ?_, ?_, hno, ?_, ?_⟩, ?_, ?_⟩
      · rw [Store.upd_keys]
        exact hnd
      · exact memOK_upd_irrelevant hmb oid Order.cancel hnb
      · exact memOK_upd_irrelevant hma oid Order.cancel hna
      · refine sumOK_upd hnd hsum oid Order.cancel ?_
        intro o2 h2
        rw [hg] at h2
        injection h2 with h2
        rw [← h2]
        exact Or.inr ⟨rfl, honl⟩
      · intro k o2 hk hon hin2
        by_cases h1 : k = oid
        · subst h1
          rw [Store.get_upd, if_pos rfl, hg] at hk
          injection hk with hk
          rw [← hk] at hon
          exact absurd hon hl
        · rw [hgx k h1] at hk
          exact hol k o2 hk hon hin2
      · refine StoreEvol.upd c.store oid Order.cancel
          (fun o2 => ⟨rfl, rfl, rfl⟩) ?_
        intro o2 h2
        rw [hg] at h2
        injection h2 with h2
        rw [← h2]
        exact hin
      · intro hpos x hx
        have hxn : x ≠ oid := by
          intro he
          rcases List.mem_append.mp hx with h2 | h2
          · exact hnb (he ▸ h2)
          · exact hna (he ▸ h2)
        have hfact := hpos x hx
        exact (hgx x hxn).symm ▸ hfact
    case pos =>
    rw [if_pos hl]
    have hlt : o.onList = true := hl
    by_cases hsd : o.side = Side.buy
    · rw [hsd]
      rw [if_pos (rfl : Side.buy = Side.buy)]
      obtain ⟨lad1, hrem, hnm1, hsub1, hrest⟩ := removeBid_inv
        (fun x => { x.cancel with onList := false }) hg hlt hsd hin hc
        (fun o2 => rfl)
        (fun o2 _ => Or.inr ⟨rfl, rfl⟩)
        (fun o2 => ⟨rfl, rfl, rfl⟩)
      rw [show decide (Side.buy = Side.sell) = false from rfl, hlt, hrem]
      dsimp only []
      rw [if_pos (rfl : Side.buy = Side.buy)]
      obtain ⟨hcinv, hevol, hpos⟩ := hrest
        (c.events ++ [Event.onOrder { o.cancel with onList := false }])
      refine ⟨0, _, rfl, ?_, ?_, ?_⟩
      · rw [Store.upd_upd_same]
        exact hcinv
      · rw [Store.upd_upd_same]
        exact hevol
      · rw [Store.upd_upd_same]
        exact hpos
    · have hsd2 : o.side = Side.sell := by
        cases hs2 : o.side with
        | buy => exact absurd hs2 hsd
        | sell => rfl
      rw [hsd2]
      rw [if_neg (by decide : ¬(Side.sell = Side.buy))]
      obtain ⟨lad1, hrem, hnm1, hsub1, hrest⟩ := removeAsk_inv
        (fun x => { x.cancel with onList := false }) hg hlt hsd2 hin hc
        (fun o2 => rfl)
        (fun o2 _ => Or.inr ⟨rfl, rfl⟩)
        (fun o2 => ⟨rfl, rfl, rfl⟩)
      rw [show decide (Side.sell = Side.sell) = true from rfl, hlt, hrem]
      dsimp only []
      rw [if_neg (by decide : ¬(Side.sell = Side.buy))]
      obtain ⟨hcinv, hevol, hpos⟩ := hrest
        (c.events ++ [Event.onOrder { o.cancel with onList := false }])
      refine ⟨0, _, rfl, ?_, ?_, ?_⟩
      · rw [Store.upd_upd_same]
        exact hcinv
      · rw [Store.upd_upd_same]
        exact hevol
      · rw [Store.upd_upd_same]
        exact hpos

theorem quoteBidLeg_inv (inst : String) (bId : Nat) (bp : Price) (bq : Int)
    (c2 : BookCtx) (hc2 : ctxInv inst c2)
    (hbo : optHolds (Store.get c2.store bId)
      (fun o => o.side = Side.buy ∧ o.instrument = inst))
    (hnb : bId ∉ Ladder.oids c2.bids) (hna : bId ∉ Ladder.oids c2.asks) :
    ∃ c3,
      (if bq ≠ 0 then
        matchOrders Side.buy
          { c2 with
            store := Store.upd c2.store bId
              (fun x => { x.rearm bp bq with onList := true }),
            bids := Ladder.insertOrder false bp bId c2.bids }
      else (c2, none)) = (c3, none) ∧
      ctxInv inst c3 ∧ StoreEvol inst c2.store c3.store ∧
      (∀ x, x ∈ Ladder.oids c3.bids → x = bId ∨ x ∈ Ladder.oids c2.bids) ∧
      (∀ x, x ∈ Ladder.oids c3.asks → x ∈ Ladder.oids c2.asks) ∧
      (ctxPos c2 → 0 ≤ bq → ctxPos c3) := by
  by_cases hbq : bq ≠ 0
  case neg =>
    rw [if_neg hbq]
    exact ⟨c2, rfl, hc2, StoreEvol.refl inst c2.store,
      fun x hx => Or.inr hx, fun x hx => hx, fun h _ => h⟩
  case pos =>
  rw [if_pos hbq]
  cases hgb : Store.get c2.store bId with
  | none => rw [hgb] at hbo; exact hbo.elim
  | some bo2 =>
  rw [hgb] at hbo
  obtain ⟨hside, hinstr⟩ := hbo
  have hsump : sumPred ({ bo2.rearm bp bq with onList := true } : Order) :=
    Or.inl (show bq + 0 = bq by omega)
  obtain ⟨hcinv, hevol, hposi⟩ := insertBid_inv
    (fun x => { x.rearm bp bq with onList := true }) bp hgb hnb hna hc2
    rfl hside hinstr rfl hsump (fun o2 => ⟨rfl, rfl, rfl⟩) c2.events
  obtain ⟨c3, heq, hc3, hev3, hbs3, has3, hp3⟩ :=
    matchOrders_inv inst Side.buy
      { store := Store.upd c2.store bId
          (fun x => { x.rearm bp bq with onList := true }),
        bids := Ladder.insertOrder false bp bId c2.bids,
        asks := c2.asks, events := c2.events } hcinv
  refine ⟨c3, heq, hc3, hevol.trans hev3, ?_, ?_, ?_⟩
  · intro x hx
    have h2 := (insertOrder_oids_perm false bp bId c2.bids).mem_iff.mp
      (hbs3 x hx)
    rcases List.mem_cons.mp h2 with h3 | h3
    · exact Or.inl h3
    · exact Or.inr h3
  · intro x hx
    exact has3 x hx
  · intro hpos hbq2
    refine hp3 (hposi hpos ?_)
    show (0 : Int) < bq
    omega

theorem quoteAskLeg_inv (inst : String) (aId : Nat) (ap : Price) (aq : Int)
    (c3 : BookCtx) (hc3 : ctxInv inst c3)
    (hao : optHolds (Store.get c3.store aId)
      (fun o => o.side = Side.sell ∧ o.instrument = inst))
    (hnb : aId ∉ Ladder.oids c3.bids) (hna : aId ∉ Ladder.oids c3.asks) :
    ∃ c4,
      (if aq ≠ 0 then
        matchOrders Side.sell
          { c3 with
            store := Store.upd c3.store aId
              (fun x => { x.rearm ap aq with onList := true }),
            asks := Ladder.insertOrder true ap aId c3.asks }
      else (c3, none)) = (c4, none) ∧
      ctxInv inst c4 ∧ StoreEvol inst c3.store c4.store ∧
      (ctxPos c3 → 0 ≤ aq → ctxPos c4) := by
  by_cases haq : aq ≠ 0
  case neg =>
    rw [if_neg haq]
    exact ⟨c3, rfl, hc3, StoreEvol.refl inst c3.store, fun h _ => h⟩
  case pos =>
  rw [if_pos haq]
  cases hga : Store.get c3.store aId with
  | none => rw [hga] at hao; exact hao.elim
  | some ao2 =>
  rw [hga] at hao
  obtain ⟨hside, hinstr⟩ := hao
  have hsump : sumPred ({ ao2.rearm ap aq with onList := true } : Order) :=
    Or.inl (show aq + 0 = aq by omega)
  obtain ⟨hcinv, hevol, hposi⟩ := insertAsk_inv
    (fun x => { x.rearm ap aq with onList := true }) ap hga hnb hna hc3
    rfl hside hinstr rfl hsump (fun o2 => ⟨rfl, rfl, rfl⟩) c3.events
  obtain ⟨c4, heq, hc4, hev4, _, _, hp4⟩ :=
    matchOrders_inv inst Side.sell
      { store := Store.upd c3.store aId
          (fun x => { x.rearm ap aq with onList := true }),
        bids := c3.bids,
        asks := Ladder.insertOrder true ap aId c3.asks,
        events := c3.events } hcinv
  refine ⟨c4, heq, hc4, hevol.trans hev4, ?_⟩
  intro hpos haq2
  refine hp4 (hposi hpos ?_)
  show (0 : Int) < aq
  omega

theorem obQuote_inv (inst : String) (refs : Option Nat × Option Nat)
    (bp : Price) (bq : Int) (ap : Price) (aq : Int) (c : BookCtx)
    (hc : ctxInv inst c)
    (hbref : ∀ i, refs.1 = some i → optHolds (Store.get c.store i)
      (fun o => o.side = Side.buy ∧ o.instrument = inst))
    (haref : ∀ i, refs.2 = some i → optHolds (Store.get c.store i)
      (fun o => o.side = Side.sell ∧ o.instrument = inst)) :
    ∃ c' e, obQuote refs bp bq ap aq c = (c', e) ∧ ctxInv inst c' ∧
      StoreEvol inst c.store c'.store ∧
      (ctxPos c → 0 ≤ bq → 0 ≤ aq → ctxPos c') := by
  obtain ⟨ob, oa⟩ := refs
  unfold obQuote
  cases ob with
  | none =>
    exact ⟨c, some "null pointer dereference", rfl, hc,
      StoreEvol.refl inst c.store, fun h _ _ => h⟩
  | some bId =>
  have hbo := hbref bId rfl
  dsimp only []
  cases hgb : Store.get c.store bId with
  | none => rw [hgb] at hbo; exact hbo.elim
  | some bo =>
  rw [hgb] at hbo
  obtain ⟨hbsd, hbin⟩ := hbo
  dsimp only []
  -- the shared tail over an arbitrary post-removal context
  have htail : ∀ aId : Nat, bId ≠ aId → ∀ c2 : BookCtx, ctxInv inst c2 →
      optHolds (Store.get c2.store bId)
        (fun o => o.side = Side.buy ∧ o.instrument = inst) →
      optHolds (Store.get c2.store aId)
        (fun o => o.side = Side.sell ∧ o.instrument = inst) →
      bId ∉ Ladder.oids c2.bids → bId ∉ Ladder.oids c2.asks →
      aId ∉ Ladder.oids c2.bids → aId ∉ Ladder.oids c2.asks →
      ∃ c3 c4,
        (if bq ≠ 0 then
          matchOrders Side.buy
            { c2 with
              store := Store.upd c2.store bId
                (fun x => { x.rearm bp bq with onList := true }),
              bids := Ladder.insertOrder false bp bId c2.bids }
        else (c2, none)) = (c3, none) ∧
        (if aq ≠ 0 then
          matchOrders Side.sell
            { c3 with
              store := Store.upd c3.store aId
                (fun x => { x.rearm ap aq with onList := true }),
              asks := Ladder.insertOrder true ap aId c3.asks }
        else (c3, none)) = (c4, none) ∧
        ctxInv inst c4 ∧ StoreEvol inst c2.store c4.store ∧
        (ctxPos c2 → 0 ≤ bq → 0 ≤ aq → ctxPos c4) := by
    intro aId hne c2 hc2 hbo2 hao2 hbnb hbna hanb hana
    obtain ⟨c3, he3, hc3, hev3, hbs3, has3, hp3⟩ :=
      quoteBidLeg_inv inst bId bp bq c2 hc2 hbo2 hbnb hbna
    have hao3 : optHolds (Store.get c3.store aId)
        (fun o => o.side = Side.sell ∧ o.instrument = inst) := by
      cases hga2 : Store.get c2.store aId with
      | none => rw [hga2] at hao2; exact hao2.elim
      | some ao2 =>
        rw [hga2] at hao2
        obtain ⟨ao3, hg3, hs3, hi3, _, _⟩ := hev3.2 aId ao2 hga2
        rw [hg3]
        exact ⟨hs3.trans hao2.1, hi3.trans hao2.2⟩
    have hanb3 : aId ∉ Ladder.oids c3.bids := by
      intro hmem
      rcases hbs3 aId hmem with h2 | h2
      · exact hne h2.symm
      · exact hanb h2
    have hana3 : aId ∉ Ladder.oids c3.asks :=
      fun hmem => hana (has3 aId hmem)
    obtain ⟨c4, he4, hc4, hev4, hp4⟩ :=
      quoteAskLeg_inv inst aId ap aq c3 hc3 hao3 hanb3 hana3
    exact ⟨c3, c4, he3, he4, hc4, hev3.trans hev4,
      fun hp hb ha => hp4 (hp3 hp hb) ha⟩
  by_cases hbl : bo.onList
  case pos =>
    rw [if_pos hbl]
    have hblt : bo.onList = true := hbl
    have hBm : bId ∈ Ladder.oids c.bids := by
      have h1 := hc.2.2.2.2.2.2.2 bId bo hgb hblt hbin
      rw [if_pos hbsd] at h1
      exact h1
    have hdisj : List.Disjoint (Ladder.oids c.bids) (Ladder.oids c.asks) :=
      List.disjoint_of_nodup_append hc.2.2.2.2.2.1
    have hBna : bId ∉ Ladder.oids c.asks := fun h2 => hdisj hBm h2
    obtain ⟨lad1, hrem, hnm1, hsub1, hrest⟩ := removeBid_inv
      (fun x => { x with onList := false }) hgb hblt hbsd hbin hc
      (fun o2 => rfl)
      (fun o2 hs => by
        rcases hs with h | ⟨h0, _⟩
        · exact Or.inl h
        · exact Or.inr ⟨h0, rfl⟩)
      (fun o2 => ⟨rfl, rfl, rfl⟩)
    rw [hblt, hrem]
    dsimp only []
    obtain ⟨hc1, hev1, hp1⟩ := hrest c.events
    cases oa with
    | none =>
      exact ⟨_, some "null pointer dereference", rfl, hc1, hev1,
        fun h _ _ => hp1 h⟩
    | some aId =>
    have hao := haref aId rfl
    cases hga : Store.get c.store aId with
    | none => rw [hga] at hao; exact hao.elim
    | some ao =>
    rw [hga] at hao
    obtain ⟨hasd, hain⟩ := hao
    have hne : bId ≠ aId := by
      intro he
      rw [← he, hgb] at hga
      injection hga with hga
      rw [← hga] at hasd
      rw [hbsd] at hasd
      cases hasd
    have hga1 : Store.get (Store.upd c.store bId
        (fun x => { x with onList := false })) aId = some ao := by
      rw [Store.get_upd, if_neg (fun h2 => hne h2.symm), hga]
    dsimp only []
    rw [hga1]
    dsimp only []
    by_cases hal : ao.onList
    case pos =>
      rw [if_pos hal]
      have halt : ao.onList = true := hal
      obtain ⟨lad2, hrem2, hnm2, hsub2, hrest2⟩ := removeAsk_inv
        (fun x => { x with onList := false }) hga1 halt hasd hain hc1
        (fun o2 => rfl)
        (fun o2 hs => by
          rcases hs with h | ⟨h0, _⟩
          · exact Or.inl h
          · exact Or.inr ⟨h0, rfl⟩)
        (fun o2 => ⟨rfl, rfl, rfl⟩)
      rw [halt, hrem2]
      dsimp only []
      obtain ⟨hc2, hev2, hp2⟩ := hrest2 c.events
      have hgb2 : Store.get (Store.upd (Store.upd c.store bId
          (fun x => { x with onList := false })) aId
          (fun x => { x with onList := false })) bId =
          some { bo with onList := false } := by
        rw [Store.get_upd, if_neg hne, Store.get_upd, if_pos rfl, hgb]
        rfl
      have hga2 : Store.get (Store.upd (Store.upd c.store bId
          (fun x => { x with onList := false })) aId
          (fun x => { x with onList := false })) aId =
          some { ao with onList := false } := by
        rw [Store.get_upd, if_pos rfl, hga1]
        rfl
      have hAm : aId ∈ Ladder.oids c.asks := by
        have h1 := hc.2.2.2.2.2.2.2 aId ao hga halt hain
        rw [hasd, if_neg (by decide : ¬(Side.sell = Side.buy))] at h1
        exact h1
      obtain ⟨c3, c4, he3, he4, hc4, hev4, hp4⟩ := htail aId hne _ hc2
        (by rw [hgb2]; exact ⟨hbsd, hbin⟩)
        (by rw [hga2]; exact ⟨hasd, hain⟩)
        hnm1 (fun h2 => hBna (hsub2 bId h2)) (fun h2 => hdisj (hsub1 aId h2) hAm)
        hnm2
      try dsimp only [] at he3
      rw [he3]
      dsimp only []
      try dsimp only [] at he4
      rw [he4]
      exact ⟨c4, none, rfl, hc4, (hev1.trans hev2).trans hev4,
        fun hp hb ha => hp4 (hp2 (hp1 hp)) hb ha⟩
    case neg =>
      rw [if_neg hal]
      dsimp only []
      have half : ao.onList = false := by
        revert hal; cases ao.onList <;> simp
      have hanb : aId ∉ Ladder.oids c.bids := by
        intro hmem
        obtain ⟨l2, hl2, hm2⟩ := mem_oids.mp hmem
        have h1 := (hc.2.2.2.1 l2 hl2).2 aId hm2
        rw [hga] at h1
        obtain ⟨h11, _, _, _⟩ := h1
        rw [half] at h11
        cases h11
      have hana : aId ∉ Ladder.oids c.asks := by
        intro hmem
        obtain ⟨l2, hl2, hm2⟩ := mem_oids.mp hmem
        have h1 := (hc.2.2.2.2.1 l2 hl2).2 aId hm2
        rw [hga] at h1
        obtain ⟨h11, _, _, _⟩ := h1
        rw [half] at h11
        cases h11
      have hgb1 : Store.get (Store.upd c.store bId
          (fun x => { x with onList := false })) bId =
          some { bo with onList := false } := by
        rw [Store.get_upd, if_pos rfl, hgb]
        rfl
      obtain ⟨c3, c4, he3, he4, hc4, hev4, hp4⟩ := htail aId hne _ hc1
        (by rw [hgb1]; exact ⟨hbsd, hbin⟩)
        (by rw [hga1]; exact ⟨hasd, hain⟩)
        hnm1 hBna (fun h2 => hanb (hsub1 aId h2)) hana
      try dsimp only [] at he3
      rw [he3]
      dsimp only []
      try dsimp only [] at he4
      rw [he4]
      exact ⟨c4, none, rfl, hc4, hev1.trans hev4,
        fun hp hb ha => hp4 (hp1 hp) hb ha⟩
  case neg =>
    rw [if_neg hbl]
    have hblf : bo.onList = false := by
      revert hbl; cases bo.onList <;> simp
    have hbnb : bId ∉ Ladder.oids c.bids := by
      intro hmem
      obtain ⟨l2, hl2, hm2⟩ := mem_oids.mp hmem
      have h1 := (hc.2.2.2.1 l2 hl2).2 bId hm2
      rw [hgb] at h1
      obtain ⟨h11, _, _, _⟩ := h1
      rw [hblf] at h11
      cases h11
    have hbna : bId ∉ Ladder.oids c.asks := by
      intro hmem
      obtain ⟨l2, hl2, hm2⟩ := mem_oids.mp hmem
      have h1 := (hc.2.2.2.2.1 l2 hl2).2 bId hm2
      rw [hgb] at h1
      obtain ⟨h11, _, _, _⟩ := h1
      rw [hblf] at h11
      cases h11
    dsimp only []
    cases oa with
    | none =>
      exact ⟨c, some "null pointer dereference", rfl, hc,
        StoreEvol.refl inst c.store, fun h _ _ => h⟩
    | some aId =>
    have hao := haref aId rfl
    cases hga : Store.get c.store aId with
    | none => rw [hga] at hao; exact hao.elim
    | some ao =>
    rw [hga] at hao
    obtain ⟨hasd, hain⟩ := hao
    have hne : bId ≠ aId := by
      intro he
      rw [← he, hgb] at hga
      injection hga with hga
      rw [← hga] at hasd
      rw [hbsd] at hasd
      cases hasd
    dsimp only []
    rw [hga]
    dsimp only []
    by_cases hal : ao.onList
    case pos =>
      rw [if_pos hal]
      have halt : ao.onList = true := hal
      obtain ⟨lad2, hrem2, hnm2, hsub2, hrest2⟩ := removeAsk_inv
        (fun x => { x with onList := false }) hga halt hasd hain hc
        (fun o2 => rfl)
        (fun o2 hs => by
          rcases hs with h | ⟨h0, _⟩
          · exact Or.inl h
          · exact Or.inr ⟨h0, rfl⟩)
        (fun o2 => ⟨rfl, rfl, rfl⟩)
      rw [halt, hrem2]
      dsimp only []
      obtain ⟨hc2, hev2, hp2⟩ := hrest2 c.events
      have hgb2 : Store.get (Store.upd c.store aId
          (fun x => { x with onList := false })) bId = some bo := by
        rw [Store.get_upd, if_neg hne, hgb]
      have hga2 : Store.get (Store.upd c.store aId
          (fun x => { x with onList := false })) aId =
          some { ao with onList := false } := by
        rw [Store.get_upd, if_pos rfl, hga]
        rfl
      have hanb : aId ∉ Ladder.oids c.bids := by
        intro hmem
        obtain ⟨l2, hl2, hm2⟩ := mem_oids.mp hmem
        have h1 := (hc.2.2.2.1 l2 hl2).2 aId hm2
        rw [hga] at h1
        obtain ⟨_, h12, _, _⟩ := h1
        rw [hasd] at h12
        cases h12
      obtain ⟨c3, c4, he3, he4, hc4, hev4, hp4⟩ := htail aId hne _ hc2
        (by rw [hgb2]; exact ⟨hbsd, hbin⟩)
        (by rw [hga2]; exact ⟨hasd, hain⟩)
        hbnb (fun h2 => hbna (hsub2 bId h2))
        hanb hnm2
      try dsimp only [] at he3
      rw [he3]
      dsimp only []
      try dsimp only [] at he4
      rw [he4]
      exact ⟨c4, none, rfl, hc4, hev2.trans hev4,
        fun hp hb ha => hp4 (hp2 hp) hb ha⟩
    case neg =>
      rw [if_neg hal]
      dsimp only []
      have half : ao.onList = false := by
        revert hal; cases ao.onList <;> simp
      have hanb : aId ∉ Ladder.oids c.bids := by
        intro hmem
        obtain ⟨l2, hl2, hm2⟩ := mem_oids.mp hmem
        have h1 := (hc.2.2.2.1 l2 hl2).2 aId hm2
        rw [hga] at h1
        obtain ⟨h11, _, _, _⟩ := h1
        rw [half] at h11
        cases h11
      have hana : aId ∉ Ladder.oids c.asks := by
        intro hmem
        obtain ⟨l2, hl2, hm2⟩ := mem_oids.mp hmem
        have h1 := (hc.2.2.2.2.1 l2 hl2).2 aId hm2
        rw [hga] at h1
        obtain ⟨h11, _, _, _⟩ := h1
        rw [half] at h11
        cases h11
      obtain ⟨c3, c4, he3, he4, hc4, hev4, hp4⟩ := htail aId hne c hc
        (by rw [hgb]; exact ⟨hbsd, hbin⟩)
        (by rw [hga]; exact ⟨hasd, hain⟩)
        hbnb hbna hanb hana
      try dsimp only [] at he3
      rw [he3]
      dsimp only []
      try dsimp only [] at he4
      rw [he4]
      exact ⟨c4, none, rfl, hc4, hev4, hp4⟩

/-! ## Bridges between engine-level and book-level invariants -/

theorem getBook_mem {bs : List (String × BookState)} {inst : String}
    {b : BookState} (h : getBook bs inst = some b) : (inst, b) ∈ bs := by
  unfold getBook at h
  cases hf : bs.find? (fun p => p.1 = inst) with
  | none => rw [hf] at h; cases h
  | some p =>
    rw [hf] at h
    have hm := List.mem_of_find?_eq_some hf
    have hp : p.1 = inst := by simpa using List.find?_some hf
    have hb : p.2 = b := by simpa using h
    rw [← hp, ← hb]
    exact hm

theorem getBook_none_keys {bs : List (String × BookState)} {inst : String}
    (h : getBook bs inst = none) : inst ∉ bs.map (·.1) := by
  intro hmem
  obtain ⟨p, hp, hk⟩ := List.mem_map.mp hmem
  unfold getBook at h
  cases hf : bs.find? (fun q => q.1 = inst) with
  | some q => rw [hf] at h; cases h
  | none =>
    have := List.find?_eq_none.mp hf p hp
    simp [hk] at this

theorem mem_setBook {bs : List (String × BookState)} {inst : String}
    {nb : BookState} {q : String × BookState} (h : q ∈ setBook bs inst nb) :
    (q ∈ bs ∧ q.1 ≠ inst) ∨ (q.1 = inst ∧ q.2 = nb) := by
  unfold setBook at h
  obtain ⟨p, hp, he⟩ := List.mem_map.mp h
  by_cases hk : p.1 = inst
  · rw [if_pos hk] at he
    right
    rw [← he]
    exact ⟨hk, rfl⟩
  · rw [if_neg hk] at he
    left
    rw [← he]
    exact ⟨hp, hk⟩

theorem memOK_evol {st st' : Store} {inst0 inst : String} {sd : Side}
    {ls : Ladder} (h : ls.memOK st inst sd)
    (hev : StoreEvol inst0 st st') (hne : inst ≠ inst0) :
    ls.memOK st' inst sd := by
  intro l hl
  obtain ⟨hfe, hids⟩ := h l hl
  refine ⟨hfe, fun oid hoid => ?_⟩
  have h1 := hids oid hoid
  cases hg : Store.get st oid with
  | none => rw [hg] at h1; exact h1.elim
  | some o =>
    rw [hg] at h1
    obtain ⟨o2, hg2, _, _, _, hun⟩ := hev.2 oid o hg
    rw [hun (by rw [h1.2.2.2]; exact hne)] at hg2
    rw [hg2]
    exact h1

theorem quotesOK_evol {st st' : Store} {inst0 inst : String}
    {qs : List ((String × String) × (Option Nat × Option Nat))}
    (h : quotesOK st inst qs) (hev : StoreEvol inst0 st st') :
    quotesOK st' inst qs := by
  intro e he
  obtain ⟨h1, h2⟩ := h e he
  constructor
  · intro oid ho
    have h3 := h1 oid ho
    cases hg : Store.get st oid with
    | none => rw [hg] at h3; exact h3.elim
    | some o =>
      rw [hg] at h3
      obtain ⟨o2, hg2, hs2, hi2, _, _⟩ := hev.2 oid o hg
      rw [hg2]
      exact ⟨hs2.trans h3.1, hi2.trans h3.2⟩
  · intro oid ho
    have h3 := h2 oid ho
    cases hg : Store.get st oid with
    | none => rw [hg] at h3; exact h3.elim
    | some o =>
      rw [hg] at h3
      obtain ⟨o2, hg2, hs2, hi2, _, _⟩ := hev.2 oid o hg
      rw [hg2]
      exact ⟨hs2.trans h3.1, hi2.trans h3.2⟩

theorem bookWF_empty (st : Store) (inst : String) :
    bookWF st inst emptyBook := by
  refine ⟨?_, ?_, ?_, ?_, ?_, ?_⟩ <;>
    simp [emptyBook, Ladder.sortedBy, Ladder.memOK, BookState.oids,
      Ladder.oids, quotesOK]

theorem Store.get_cons_fresh {st : Store} {id : Nat} {o : Order}
    (hfresh : id ∉ st.map (·.1)) {k : Nat} {o2 : Order}
    (h : Store.get st k = some o2) :
    Store.get ((id, o) :: st) k = some o2 := by
  have hne : ¬ k = id := by
    intro he
    rw [he] at h
    exact hfresh (Store.get_mem_keys h)
  rw [Store.get_cons, if_neg hne]
  exact h

theorem memOK_cons {st : Store} {inst : String} {sd : Side} {ls : Ladder}
    (h : ls.memOK st inst sd) {id : Nat} {o : Order}
    (hfresh : id ∉ st.map (·.1)) :
    ls.memOK ((id, o) :: st) inst sd := by
  intro l hl
  obtain ⟨hfe, hids⟩ := h l hl
  refine ⟨hfe, fun oid hoid => ?_⟩
  have h1 := hids oid hoid
  cases hg : Store.get st oid with
  | none => rw [hg] at h1; exact h1.elim
  | some o2 =>
    rw [hg] at h1
    rw [Store.get_cons_fresh hfresh hg]
    exact h1

theorem quotesOK_cons {st : Store} {inst : String}
    {qs : List ((String × String) × (Option Nat × Option Nat))}
    (h : quotesOK st inst qs) {id : Nat} {o : Order}
    (hfresh : id ∉ st.map (·.1)) :
    quotesOK ((id, o) :: st) inst qs := by
  intro e he
  obtain ⟨h1, h2⟩ := h e he
  constructor
  · intro oid ho
    have h3 := h1 oid ho
    cases hg : Store.get st oid with
    | none => rw [hg] at h3; exact h3.elim
    | some o2 =>
      rw [hg] at h3
      rw [Store.get_cons_fresh hfresh hg]
      exact h3
  · intro oid ho
    have h3 := h2 oid ho
    cases hg : Store.get st oid with
    | none => rw [hg] at h3; exact h3.elim
    | some o2 =>
      rw [hg] at h3
      rw [Store.get_cons_fresh hfresh hg]
      exact h3

theorem ctxInv_of_WF {s : ExchState} {inst : String} {b : BookState}
    (hw : WF s) (hb : getBook s.books inst = some b) (evs : List Event) :
    ctxInv inst
      { store := s.orders, bids := b.bids, asks := b.asks, events := evs } := by
  obtain ⟨hnd, hbnd, hbknd, hbks, hsum, holk⟩ := hw
  have hbw := hbks (inst, b) (getBook_mem hb)
  obtain ⟨hsb, hsa, hmb, hma, hno, hq⟩ := hbw
  refine ⟨hnd, hsb, hsa, hmb, hma, hno, hsum, ?_⟩
  intro k o hk hon hin
  have h1 := holk (k, o) (Store.get_mem hk) hon
  rw [hin, hb] at h1
  exact h1

theorem ctxPos_of_posOK {s : ExchState} {inst : String} {b : BookState}
    (hp : posOK s) (hb : getBook s.books inst = some b) (evs : List Event) :
    ctxPos { store := s.orders, bids := b.bids, asks := b.asks,
             events := evs } := by
  intro oid hoid
  exact hp (inst, b) (getBook_mem hb) oid hoid

theorem WF_reassemble {s : ExchState} {inst : String} {b : BookState}
    (hw : WF s) (hb : getBook s.books inst = some b) {c' : BookCtx}
    (hci : ctxInv inst c') (hev : StoreEvol inst s.orders c'.store)
    (qs : List ((String × String) × (Option Nat × Option Nat)))
    (hqs : quotesOK c'.store inst qs) (evs : List Event) :
    WF { orders := c'.store,
         books := setBook s.books inst
           { bids := c'.bids, asks := c'.asks, quotes := qs },
         nextId := s.nextId, events := evs } := by
  obtain ⟨hnd, hbnd, hbknd, hbks, hsum, holk⟩ := hw
  obtain ⟨hnd2, hsb2, hsa2, hmb2, hma2, hno2, hsum2, hol2⟩ := hci
  refine ⟨?_, ?_, ?_, ?_, hsum2, ?_⟩
  · rw [hev.1]
    exact hnd
  · intro k hk
    rw [hev.1] at hk
    exact hbnd k hk
  · rw [setBook_keys]
    exact hbknd
  · intro p hp
    rcases mem_setBook hp with ⟨hmem, hne⟩ | ⟨hk, hbv⟩
    · have hold := hbks p hmem
      obtain ⟨h1, h2, h3, h4, h5, h6⟩ := hold
      exact ⟨h1, h2, memOK_evol h3 hev hne, memOK_evol h4 hev hne, h5,
        quotesOK_evol h6 hev⟩
    · rw [hbv, hk]
      exact ⟨hsb2, hsa2, hmb2, hma2, hno2, hqs⟩
  · intro p hp hon
    have hgp : Store.get c'.store p.1 = some p.2 := Store.mem_get hnd2 hp
    have hkeys : p.1 ∈ s.orders.map (·.1) := by
      rw [← hev.1]
      exact Store.get_mem_keys hgp
    obtain ⟨o0, hg0⟩ := Store.get_isSome hkeys
    obtain ⟨o', hg', hside', hin', _, hun'⟩ := hev.2 p.1 o0 hg0
    have hpo : p.2 = o' := by
      rw [hgp] at hg'
      injection hg'
    by_cases hin2 : p.2.instrument = inst
    · have h1 := hol2 p.1 p.2 hgp hon hin2
      rw [hin2, getBook_setBook, if_pos rfl, hb]
      exact h1
    · have ho0in : o0.instrument ≠ inst := by
        rw [← hin']
        rw [← hpo]
        exact hin2
      have ho0eq : o' = o0 := hun' ho0in
      have hpo2 : p.2 = o0 := by rw [hpo, ho0eq]
      have h1 := holk (p.1, o0) (Store.get_mem hg0) (by rw [← hpo2]; exact hon)
      rw [hpo2] at hin2
      rw [hpo2, getBook_setBook, if_neg hin2]
      exact h1

theorem posOK_reassemble {s : ExchState} {inst : String} {b : BookState}
    (hw : WF s) (hp : posOK s) (hb : getBook s.books inst = some b)
    {c' : BookCtx} (hci : ctxInv inst c')
    (hev : StoreEvol inst s.orders c'.store) (hcp : ctxPos c')
    (qs : List ((String × String) × (Option Nat × Option Nat)))
    (evs : List Event) :
    posOK { orders := c'.store,
            books := setBook s.books inst
              { bids := c'.bids, asks := c'.asks, quotes := qs },
            nextId := s.nextId, events := evs } := by
  intro p hpm oid hoid
  rcases mem_setBook hpm with ⟨hmem, hne⟩ | ⟨hk, hbv⟩
  · have hold := hp p hmem oid hoid
    cases hg : Store.get s.orders oid with
    | none => rw [hg] at hold; exact hold.elim
    | some o =>
      rw [hg] at hold
      have hic : o.instrument = p.1 := by
        rcases List.mem_append.mp hoid with h2 | h2
        · obtain ⟨l, hl, hml⟩ := mem_oids.mp h2
          have h3 := ((hw.2.2.2.1 p hmem).2.2.1 l hl).2 oid hml
          rw [hg] at h3
          exact h3.2.2.2
        · obtain ⟨l, hl, hml⟩ := mem_oids.mp h2
          have h3 := ((hw.2.2.2.1 p hmem).2.2.2.1 l hl).2 oid hml
          rw [hg] at h3
          exact h3.2.2.2
      obtain ⟨o', hg', _, _, _, hun'⟩ := hev.2 oid o hg
      rw [hun' (by rw [hic]; exact hne)] at hg'
      rw [hg']
      exact hold
  · rw [hbv] at hoid
    have h1 := hcp oid hoid
    exact h1

theorem quotesOK_append {st : Store} {inst : String}
    {qs1 qs2 : List ((String × String) × (Option Nat × Option Nat))}
    (h1 : quotesOK st inst qs1) (h2 : quotesOK st inst qs2) :
    quotesOK st inst (qs1 ++ qs2) := by
  intro e he
  rcases List.mem_append.mp he with h3 | h3
  · exact h1 e h3
  · exact h2 e h3

theorem WF_getOrCreate (s : ExchState) (inst : String) (hw : WF s) :
    WF { orders := s.orders,
         books := (getOrCreate s.books inst).2,
         nextId := s.nextId,
         events := s.events } ∧
    (posOK s →
      posOK { orders := s.orders,
              books := (getOrCreate s.books inst).2,
              nextId := s.nextId,
              events := s.events }) := by
  unfold getOrCreate
  cases hg : getBook s.books inst with
  | some b =>
    dsimp only []
    exact ⟨hw, fun h => h⟩
  | none =>
    dsimp only []
    obtain ⟨hnd, hbnd, hbknd, hbks, hsum, holk⟩ := hw
    have hnotin := getBook_none_keys hg
    refine ⟨⟨hnd, hbnd, ?_, ?_, hsum, ?_⟩, ?_⟩
    · rw [List.map_append]
      refine List.nodup_append.mpr ⟨hbknd, ?_, ?_⟩
      · exact List.nodup_singleton inst
      · intro x hx hx2
        have hx3 : x = inst := by
          have h4 : x ∈ [inst] := hx2
          rwa [List.mem_singleton] at h4
        rw [hx3] at hx
        exact hnotin hx
    · intro p hp
      rcases List.mem_append.mp hp with h1 | h1
      · exact hbks p h1
      · have h2 : p = (inst, emptyBook) := by
          have h4 : p ∈ [(inst, emptyBook)] := h1
          rwa [List.mem_singleton] at h4
        rw [h2]
        exact bookWF_empty s.orders inst
    · intro p hp hon
      have h1 := holk p hp hon
      cases hg2 : getBook s.books p.2.instrument with
      | none => rw [hg2] at h1; exact h1.elim
      | some b2 =>
        rw [hg2] at h1
        have h3 := getBook_append_found s.books p.2.instrument
          [(inst, emptyBook)] b2 hg2
        show optHolds (getBook (s.books ++ [(inst, emptyBook)])
            p.2.instrument)
          (fun b3 => if p.2.side = Side.buy then p.1 ∈ Ladder.oids b3.bids
            else p.1 ∈ Ladder.oids b3.asks)
        rw [h3]
        exact h1
    · intro hp p hpm oid hoid
      rcases List.mem_append.mp hpm with h1 | h1
      · exact hp p h1 oid hoid
      · have h2 : p = (inst, emptyBook) := by
          have h4 : p ∈ [(inst, emptyBook)] := h1
          rwa [List.mem_singleton] at h4
        rw [h2] at hoid
        exact absurd hoid (List.not_mem_nil oid)

theorem WF_publish1 {s : ExchState} (sess ostr inst2 : String) (p : Price)
    (q : Int) (sd : Side) (id nid : Nat) (hw : WF s)
    (hfresh : id ∉ s.orders.map (·.1)) (hpos : 0 < id) (hle : id ≤ nid)
    (hold : s.nextId ≤ nid) :
    WF { orders := (id, mkOrder sess ostr inst2 p q sd id) :: s.orders,
         books := s.books,
         nextId := nid,
         events := s.events } ∧
    (posOK s →
      posOK { orders := (id, mkOrder sess ostr inst2 p q sd id) :: s.orders,
              books := s.books,
              nextId := nid,
              events := s.events }) := by
  obtain ⟨hnd, hbnd, hbknd, hbks, hsum, holk⟩ := hw
  refine ⟨⟨?_, ?_, hbknd, ?_, ?_, ?_⟩, ?_⟩
  · rw [List.map_cons]
    exact List.nodup_cons.mpr ⟨hfresh, hnd⟩
  · intro k hk
    rw [List.map_cons, List.mem_cons] at hk
    rcases hk with h1 | h1
    · subst h1
      exact ⟨hpos, hle⟩
    · have h2 := hbnd k h1
      exact ⟨h2.1, le_trans h2.2 hold⟩
  · intro p2 hp2
    have h1 := hbks p2 hp2
    obtain ⟨ha, hb2, hc, hd, he, hf⟩ := h1
    exact ⟨ha, hb2, memOK_cons hc hfresh, memOK_cons hd hfresh, he,
      quotesOK_cons hf hfresh⟩
  · intro p2 hp2
    rcases List.mem_cons.mp hp2 with h1 | h1
    · rw [h1]
      exact Or.inl (show q + 0 = q by omega)
    · exact hsum p2 h1
  · intro p2 hp2 hon
    rcases List.mem_cons.mp hp2 with h1 | h1
    · rw [h1] at hon
      exact Bool.noConfusion hon
    · exact holk p2 h1 hon
  · intro hp p2 hp2 oid hoid
    have h1 := hp p2 hp2 oid hoid
    cases hg : Store.get s.orders oid with
    | none => rw [hg] at h1; exact h1.elim
    | some o2 =>
      rw [hg] at h1
      show optHolds (Store.get
        ((id, mkOrder sess ostr inst2 p q sd id) :: s.orders) oid)
        (fun o => 0 < o.remaining)
      rw [Store.get_cons_fresh hfresh hg]
      exact h1

theorem exchInsertCore_WF (s : ExchState) (sess inst : String) (p : Price)
    (q : Int) (sd : Side) (ostr : String) (hw : WF s) :
    (WF (exchInsertCore s sess inst p q sd ostr).1.2 ∧
     (posOK s → posOK (exchInsertCore s sess inst p q sd ostr).1.2)) ∧
    (exchInsertCore s sess inst p q sd ostr).2 = none := by
  obtain ⟨hw1, hp1⟩ := WF_getOrCreate s inst hw
  have hfresh : s.nextId + 1 ∉ s.orders.map (·.1) := by
    intro hmem
    have h2 := hw.2.1 (s.nextId + 1) hmem
    omega
  obtain ⟨hw2, hp2i⟩ := WF_publish1 sess ostr inst p q sd (s.nextId + 1)
    (s.nextId + 1) hw1 hfresh (by omega) (le_refl _)
    (show s.nextId ≤ s.nextId + 1 by omega)
  have hw2' : WF
      { orders := (s.nextId + 1,
          mkOrder sess ostr inst p q sd (s.nextId + 1)) :: s.orders,
        books := (getOrCreate s.books inst).2,
        nextId := s.nextId + 1,
        events := s.events } := hw2
  have hgb : getBook (getOrCreate s.books inst).2 inst =
      some (getOrCreate s.books inst).1 := getOrCreate_get s.books inst
  have hci : ctxInv inst
      { store := (s.nextId + 1,
          mkOrder sess ostr inst p q sd (s.nextId + 1)) :: s.orders,
        bids := (getOrCreate s.books inst).1.bids,
        asks := (getOrCreate s.books inst).1.asks,
        events := s.events } := ctxInv_of_WF hw2' hgb s.events
  have hok : ∀ o2, Store.get ((s.nextId + 1,
        mkOrder sess ostr inst p q sd (s.nextId + 1)) :: s.orders)
      (s.nextId + 1) = some o2 →
      o2.instrument = inst ∧ o2.onList = false := by
    intro o2 ho2
    rw [Store.get_cons, if_pos rfl] at ho2
    injection ho2 with ho2
    rw [← ho2]
    exact ⟨rfl, rfl⟩
  obtain ⟨c', heq, hci', hev, hposi⟩ := obInsertOrder_inv inst (s.nextId + 1)
    { store := (s.nextId + 1,
        mkOrder sess ostr inst p q sd (s.nextId + 1)) :: s.orders,
      bids := (getOrCreate s.books inst).1.bids,
      asks := (getOrCreate s.books inst).1.asks,
      events := s.events } hci hok
  have hq0 : quotesOK ((s.nextId + 1,
      mkOrder sess ostr inst p q sd (s.nextId + 1)) :: s.orders) inst
      (getOrCreate s.books inst).1.quotes :=
    (hw2'.2.2.2.1 (inst, (getOrCreate s.books inst).1)
      (getBook_mem hgb)).2.2.2.2.2
  have hqs := quotesOK_evol hq0 hev
  unfold exchInsertCore
  dsimp only []
  rw [heq]
  dsimp only []
  refine ⟨⟨?_, ?_⟩, rfl⟩
  · exact WF_reassemble hw2' hgb hci' hev
      (getOrCreate s.books inst).1.quotes hqs c'.events
  · intro hp
    have hpB' : posOK
        { orders := (s.nextId + 1,
            mkOrder sess ostr inst p q sd (s.nextId + 1)) :: s.orders,
          books := (getOrCreate s.books inst).2,
          nextId := s.nextId + 1,
          events := s.events } := hp2i (hp1 hp)
    exact posOK_reassemble hw2' hpB' hgb hci' hev
      (hposi (ctxPos_of_posOK hpB' hgb s.events))
      (getOrCreate s.books inst).1.quotes c'.events

theorem exchInsertOrder_snd (s : ExchState) (sess inst : String)
    (p : Price) (q : Int) (sd : Side) (ostr : String) :
    (exchInsertOrder s sess inst p q sd ostr).2 =
      (exchInsertCore s sess inst p q sd ostr).1.2 := by
  unfold exchInsertOrder
  rcases h : exchInsertCore s sess inst p q sd ostr with ⟨⟨id, s1⟩, er⟩
  cases er <;> rfl

theorem exchCancel_WF (s : ExchState) (xid : Nat) (sess : String)
    (hw : WF s) :
    WF (exchCancel s xid sess).2 ∧
    (posOK s → posOK (exchCancel s xid sess).2) := by
  unfold exchCancel
  cases hg : Store.get s.orders xid with
  | none => exact ⟨hw, fun h => h⟩
  | some o =>
    dsimp only []
    by_cases hs2 : o.sessionId ≠ sess
    · rw [if_pos hs2]
      exact ⟨hw, fun h => h⟩
    · rw [if_neg hs2]
      cases hb : getBook s.books o.instrument with
      | none => exact ⟨hw, fun h => h⟩
      | some b =>
        dsimp only []
        have hci := ctxInv_of_WF hw hb s.events
        have hok : ∀ o2, Store.get s.orders xid = some o2 →
            o2.instrument = o.instrument := by
          intro o2 ho2
          rw [hg] at ho2
          injection ho2 with ho2
          rw [ho2]
        obtain ⟨res, c', heq, hci', hev, hposi⟩ := obCancelOrder_inv
          o.instrument xid
          { store := s.orders, bids := b.bids, asks := b.asks,
            events := s.events } hci hok
        rw [heq]
        dsimp only []
        have hqb : quotesOK s.orders o.instrument b.quotes :=
          (hw.2.2.2.1 (o.instrument, b) (getBook_mem hb)).2.2.2.2.2
        constructor
        · exact WF_reassemble hw hb hci' hev b.quotes
            (quotesOK_evol hqb hev) c'.events
        · intro hp
          exact posOK_reassemble hw hp hb hci' hev
            (hposi (ctxPos_of_posOK hp hb s.events)) b.quotes c'.events

theorem exchQuoteAssemble_WF (sQ : ExchState) (inst : String)
    (refs : Option Nat × Option Nat) (bp : Price) (bq : Int) (ap : Price)
    (aq : Int) (b0 : BookState)
    (qs : List ((String × String) × (Option Nat × Option Nat)))
    (hwQ : WF sQ) (hgQ : getBook sQ.books inst = some b0)
    (hbr : ∀ i, refs.1 = some i → optHolds (Store.get sQ.orders i)
      (fun o => o.side = Side.buy ∧ o.instrument = inst))
    (har : ∀ i, refs.2 = some i → optHolds (Store.get sQ.orders i)
      (fun o => o.side = Side.sell ∧ o.instrument = inst))
    (hqsQ : quotesOK sQ.orders inst qs) :
    WF { orders := (obQuote refs bp bq ap aq
           { store := sQ.orders,
             bids := b0.bids,
             asks := b0.asks,
             events := sQ.events }).1.store,
         books := setBook sQ.books inst
           { bids := (obQuote refs bp bq ap aq
               { store := sQ.orders,
                 bids := b0.bids,
                 asks := b0.asks,
                 events := sQ.events }).1.bids,
             asks := (obQuote refs bp bq ap aq
               { store := sQ.orders,
                 bids := b0.bids,
                 asks := b0.asks,
                 events := sQ.events }).1.asks,
             quotes := qs },
         nextId := sQ.nextId,
         events := (obQuote refs bp bq ap aq
           { store := sQ.orders,
             bids := b0.bids,
             asks := b0.asks,
             events := sQ.events }).1.events } ∧
    (posOK sQ → 0 ≤ bq → 0 ≤ aq →
      posOK { orders := (obQuote refs bp bq ap aq
                { store := sQ.orders,
                  bids := b0.bids,
                  asks := b0.asks,
                  events := sQ.events }).1.store,
              books := setBook sQ.books inst
                { bids := (obQuote refs bp bq ap aq
                    { store := sQ.orders,
                      bids := b0.bids,
                      asks := b0.asks,
                      events := sQ.events }).1.bids,
                  asks := (obQuote refs bp bq ap aq
                    { store := sQ.orders,
                      bids := b0.bids,
                      asks := b0.asks,
                      events := sQ.events }).1.asks,
                  quotes := qs },
              nextId := sQ.nextId,
              events := (obQuote refs bp bq ap aq
                { store := sQ.orders,
                  bids := b0.bids,
                  asks := b0.asks,
                  events := sQ.events }).1.events }) := by
  have hci := ctxInv_of_WF hwQ hgQ sQ.events
  obtain ⟨c', er, heq, hci', hev, hposi⟩ := obQuote_inv inst refs bp bq ap aq
    { store := sQ.orders,
      bids := b0.bids,
      asks := b0.asks,
      events := sQ.events } hci hbr har
  rw [heq]
  dsimp only []
  constructor
  · exact WF_reassemble hwQ hgQ hci' hev qs (quotesOK_evol hqsQ hev)
      c'.events
  · intro hp hbq2 haq2
    exact posOK_reassemble hwQ hp hgQ hci' hev
      (hposi (ctxPos_of_posOK hp hgQ sQ.events) hbq2 haq2) qs c'.events

theorem exchQuote_WF (s : ExchState) (sess inst : String) (bp : Price)
    (bq : Int) (ap : Price) (aq : Int) (qid : String) (hw : WF s) :
    WF (exchQuote s sess inst bp bq ap aq qid).1 ∧
    (posOK s → 0 ≤ bq → 0 ≤ aq →
      posOK (exchQuote s sess inst bp bq ap aq qid).1) := by
  obtain ⟨hwS, hpS⟩ := WF_getOrCreate s inst hw
  have hgS : getBook (getOrCreate s.books inst).2 inst =
      some (getOrCreate s.books inst).1 := getOrCreate_get s.books inst
  have hq0 : quotesOK s.orders inst (getOrCreate s.books inst).1.quotes :=
    (hwS.2.2.2.1 (inst, (getOrCreate s.books inst).1)
      (getBook_mem hgS)).2.2.2.2.2
  unfold exchQuote
  dsimp only []
  cases hf0 : (getOrCreate s.books inst).1.quotes.find?
      (fun e => e.1 = (sess, qid)) with
  | some e =>
    dsimp only [Option.map]
    have he := hq0 e (List.mem_of_find?_eq_some hf0)
    obtain ⟨hWF, hPOS⟩ := exchQuoteAssemble_WF
      { orders := s.orders,
        books := (getOrCreate s.books inst).2,
        nextId := s.nextId,
        events := s.events } inst e.2 bp bq ap aq
      (getOrCreate s.books inst).1 (getOrCreate s.books inst).1.quotes
      hwS hgS he.1 he.2 hq0
    exact ⟨hWF, fun hp hb2 ha2 => hPOS (hpS hp) hb2 ha2⟩
  | none =>
    dsimp only [Option.map]
    by_cases hbq : 0 < bq
    · by_cases haq : 0 < aq
      · simp only [if_pos hbq, if_pos haq]
        have hfreshA : s.nextId + 1 + 1 ∉ s.orders.map (·.1) := by
          intro hmem
          have h2 := hw.2.1 _ hmem
          omega
        obtain ⟨hwA, hpA⟩ := WF_publish1 sess qid inst ap aq Side.sell
          (s.nextId + 1 + 1) (s.nextId + 1 + 1) hwS hfreshA (by omega)
          (le_refl _) (show s.nextId ≤ s.nextId + 1 + 1 by omega)
        have hwA' : WF
            { orders := (s.nextId + 1 + 1,
                mkOrder sess qid inst ap aq Side.sell (s.nextId + 1 + 1)) ::
                  s.orders,
              books := (getOrCreate s.books inst).2,
              nextId := s.nextId + 1 + 1,
              events := s.events } := hwA
        have hfreshB : s.nextId + 1 ∉ ((s.nextId + 1 + 1,
            mkOrder sess qid inst ap aq Side.sell (s.nextId + 1 + 1)) ::
              s.orders).map (·.1) := by
          intro hmem
          rw [List.map_cons, List.mem_cons] at hmem
          rcases hmem with h1 | h1
          · have h2 : s.nextId + 1 = s.nextId + 1 + 1 := h1
            omega
          · have h2 := hw.2.1 _ h1
            omega
        obtain ⟨hwC, hpC⟩ := WF_publish1 sess qid inst bp bq Side.buy
          (s.nextId + 1) (s.nextId + 1 + 1) hwA' hfreshB (by omega)
          (by omega) (show s.nextId + 1 + 1 ≤ s.nextId + 1 + 1 from
            le_refl _)
        have hwC' : WF
            { orders := (s.nextId + 1,
                mkOrder sess qid inst bp bq Side.buy (s.nextId + 1)) ::
                  (s.nextId + 1 + 1,
                    mkOrder sess qid inst ap aq Side.sell
                      (s.nextId + 1 + 1)) :: s.orders,
              books := (getOrCreate s.books inst).2,
              nextId := s.nextId + 1 + 1,
              events := s.events } := hwC
        have hpC' : posOK s → posOK
            { orders := (s.nextId + 1,
                mkOrder sess qid inst bp bq Side.buy (s.nextId + 1)) ::
                  (s.nextId + 1 + 1,
                    mkOrder sess qid inst ap aq Side.sell
                      (s.nextId + 1 + 1)) :: s.orders,
              books := (getOrCreate s.books inst).2,
              nextId := s.nextId + 1 + 1,
              events := s.events } := fun hp => hpC (hpA (hpS hp))
        have hbr : ∀ i, (some (s.nextId + 1) : Option Nat) = some i →
            optHolds (Store.get ((s.nextId + 1,
                mkOrder sess qid inst bp bq Side.buy (s.nextId + 1)) ::
                  (s.nextId + 1 + 1,
                    mkOrder sess qid inst ap aq Side.sell
                      (s.nextId + 1 + 1)) :: s.orders) i)
              (fun o => o.side = Side.buy ∧ o.instrument = inst) := by
          intro i hi
          injection hi with hi
          rw [← hi, Store.get_cons, if_pos rfl]
          exact ⟨rfl, rfl⟩
        have har : ∀ i, (some (s.nextId + 1 + 1) : Option Nat) = some i →
            optHolds (Store.get ((s.nextId + 1,
                mkOrder sess qid inst bp bq Side.buy (s.nextId + 1)) ::
                  (s.nextId + 1 + 1,
                    mkOrder sess qid inst ap aq Side.sell
                      (s.nextId + 1 + 1)) :: s.orders) i)
              (fun o => o.side = Side.sell ∧ o.instrument = inst) := by
          intro i hi
          injection hi with hi
          rw [← hi, Store.get_cons, if_neg (by omega), Store.get_cons,
            if_pos rfl]
          exact ⟨rfl, rfl⟩
        have hqs1 : quotesOK ((s.nextId + 1,
            mkOrder sess qid inst bp bq Side.buy (s.nextId + 1)) ::
              (s.nextId + 1 + 1,
                mkOrder sess qid inst ap aq Side.sell
                  (s.nextId + 1 + 1)) :: s.orders) inst
            ((getOrCreate s.books inst).1.quotes ++
              [((sess, qid), (some (s.nextId + 1),
                some (s.nextId + 1 + 1)))]) := by
          refine quotesOK_append ?_ ?_
          · exact quotesOK_cons (quotesOK_cons hq0 hfreshA) hfreshB
          · intro e2 he2
            have h2 : e2 = ((sess, qid), (some (s.nextId + 1),
                some (s.nextId + 1 + 1))) := by
              have h4 : e2 ∈ [((sess, qid), (some (s.nextId + 1),
                  some (s.nextId + 1 + 1)))] := he2
              rwa [List.mem_singleton] at h4
            rw [h2]
            exact ⟨hbr, har⟩
        obtain ⟨hWF, hPOS⟩ := exchQuoteAssemble_WF
          { orders := (s.nextId + 1,
              mkOrder sess qid inst bp bq Side.buy (s.nextId + 1)) ::
                (s.nextId + 1 + 1,
                  mkOrder sess qid inst ap aq Side.sell
                    (s.nextId + 1 + 1)) :: s.orders,
            books := (getOrCreate s.books inst).2,
            nextId := s.nextId + 1 + 1,
            events := s.events } inst
          (some (s.nextId + 1), some (s.nextId + 1 + 1)) bp bq ap aq
          (getOrCreate s.books inst).1
          ((getOrCreate s.books inst).1.quotes ++
            [((sess, qid), (some (s.nextId + 1),
              some (s.nextId + 1 + 1)))])
          hwC' hgS hbr har hqs1
        exact ⟨hWF, fun hp hb2 ha2 => hPOS (hpC' hp) hb2 ha2⟩
      · simp only [if_pos hbq, if_neg haq]
        have hfreshB : s.nextId + 1 ∉ s.orders.map (·.1) := by
          intro hmem
          have h2 := hw.2.1 _ hmem
          omega
        obtain ⟨hwC, hpC⟩ := WF_publish1 sess qid inst bp bq Side.buy
          (s.nextId + 1) (s.nextId + 1) hwS hfreshB (by omega) (le_refl _)
          (show s.nextId ≤ s.nextId + 1 by omega)
        have hwC' : WF
            { orders := (s.nextId + 1,
                mkOrder sess qid inst bp bq Side.buy (s.nextId + 1)) ::
                  s.orders,
              books := (getOrCreate s.books inst).2,
              nextId := s.nextId + 1,
              events := s.events } := hwC
        have hpC' : posOK s → posOK
            { orders := (s.nextId + 1,
                mkOrder sess qid inst bp bq Side.buy (s.nextId + 1)) ::
                  s.orders,
              books := (getOrCreate s.books inst).2,
              nextId := s.nextId + 1,
              events := s.events } := fun hp => hpC (hpS hp)
        have hbr : ∀ i, (some (s.nextId + 1) : Option Nat) = some i →
            optHolds (Store.get ((s.nextId + 1,
                mkOrder sess qid inst bp bq Side.buy (s.nextId + 1)) ::
                  s.orders) i)
              (fun o => o.side = Side.buy ∧ o.instrument = inst) := by
          intro i hi
          injection hi with hi
          rw [← hi, Store.get_cons, if_pos rfl]
          exact ⟨rfl, rfl⟩
        have har : ∀ i, (none : Option Nat) = some i →
            optHolds (Store.get ((s.nextId + 1,
                mkOrder sess qid inst bp bq Side.buy (s.nextId + 1)) ::
                  s.orders) i)
              (fun o => o.side = Side.sell ∧ o.instrument = inst) :=
          fun i hi => Option.noConfusion hi
        have hqs1 : quotesOK ((s.nextId + 1,
            mkOrder sess qid inst bp bq Side.buy (s.nextId + 1)) ::
              s.orders) inst
            ((getOrCreate s.books inst).1.quotes ++
              [((sess, qid), (some (s.nextId + 1),
                (none : Option Nat)))]) := by
          refine quotesOK_append ?_ ?_
          · exact quotesOK_cons hq0 hfreshB
          · intro e2 he2
            have h2 : e2 = ((sess, qid), (some (s.nextId + 1),
                (none : Option Nat))) := by
              have h4 : e2 ∈ [((sess, qid), (some (s.nextId + 1),
                  (none : Option Nat)))] := he2
              rwa [List.mem_singleton] at h4
            rw [h2]
            exact ⟨hbr, har⟩
        obtain ⟨hWF, hPOS⟩ := exchQuoteAssemble_WF
          { orders := (s.nextId + 1,
              mkOrder sess qid inst bp bq Side.buy (s.nextId + 1)) ::
                s.orders,
            books := (getOrCreate s.books inst).2,
            nextId := s.nextId + 1,
            events := s.events } inst
          (some (s.nextId + 1), (none : Option Nat)) bp bq ap aq
          (getOrCreate s.books inst).1
          ((getOrCreate s.books inst).1.quotes ++
            [((sess, qid), (some (s.nextId + 1), (none : Option Nat)))])
          hwC' hgS hbr har hqs1
        exact ⟨hWF, fun hp hb2 ha2 => hPOS (hpC' hp) hb2 ha2⟩
    · by_cases haq : 0 < aq
      · simp only [if_neg hbq, if_pos haq]
        have hfreshA : s.nextId + 1 ∉ s.orders.map (·.1) := by
          intro hmem
          have h2 := hw.2.1 _ hmem
          omega
        obtain ⟨hwC, hpC⟩ := WF_publish1 sess qid inst ap aq Side.sell
          (s.nextId + 1) (s.nextId + 1) hwS hfreshA (by omega) (le_refl _)
          (show s.nextId ≤ s.nextId + 1 by omega)
        have hwC' : WF
            { orders := (s.nextId + 1,
                mkOrder sess qid inst ap aq Side.sell (s.nextId + 1)) ::
                  s.orders,
              books := (getOrCreate s.books inst).2,
              nextId := s.nextId + 1,
              events := s.events } := hwC
        have hpC' : posOK s → posOK
            { orders := (s.nextId + 1,
                mkOrder sess qid inst ap aq Side.sell (s.nextId + 1)) ::
                  s.orders,
              books := (getOrCreate s.books inst).2,
              nextId := s.nextId + 1,
              events := s.events } := fun hp => hpC (hpS hp)
        have hbr : ∀ i, (none : Option Nat) = some i →
            optHolds (Store.get ((s.nextId + 1,
                mkOrder sess qid inst ap aq Side.sell (s.nextId + 1)) ::
                  s.orders) i)
              (fun o => o.side = Side.buy ∧ o.instrument = inst) :=
          fun i hi => Option.noConfusion hi
        have har : ∀ i, (some (s.nextId + 1) : Option Nat) = some i →
            optHolds (Store.get ((s.nextId + 1,
                mkOrder sess qid inst ap aq Side.sell (s.nextId + 1)) ::
                  s.orders) i)
              (fun o => o.side = Side.sell ∧ o.instrument = inst) := by
          intro i hi
          injection hi with hi
          rw [← hi, Store.get_cons, if_pos rfl]
          exact ⟨rfl, rfl⟩
        have hqs1 : quotesOK ((s.nextId + 1,
            mkOrder sess qid inst ap aq Side.sell (s.nextId + 1)) ::
              s.orders) inst
            ((getOrCreate s.books inst).1.quotes ++
              [((sess, qid), ((none : Option Nat),
                some (s.nextId + 1)))]) := by
          refine quotesOK_append ?_ ?_
          · exact quotesOK_cons hq0 hfreshA
          · intro e2 he2
            have h2 : e2 = ((sess, qid), ((none : Option Nat),
                some (s.nextId + 1))) := by
              have h4 : e2 ∈ [((sess, qid), ((none : Option Nat),
                  some (s.nextId + 1)))] := he2
              rwa [List.mem_singleton] at h4
            rw [h2]
            exact ⟨hbr, har⟩
        obtain ⟨hWF, hPOS⟩ := exchQuoteAssemble_WF
          { orders := (s.nextId + 1,
              mkOrder sess qid inst ap aq Side.sell (s.nextId + 1)) ::
                s.orders,
            books := (getOrCreate s.books inst).2,
            nextId := s.nextId + 1,
            events := s.events } inst
          ((none : Option Nat), some (s.nextId + 1)) bp bq ap aq
          (getOrCreate s.books inst).1
          ((getOrCreate s.books inst).1.quotes ++
            [((sess, qid), ((none : Option Nat), some (s.nextId + 1)))])
          hwC' hgS hbr har hqs1
        exact ⟨hWF, fun hp hb2 ha2 => hPOS (hpC' hp) hb2 ha2⟩
      · simp only [if_neg hbq, if_neg haq]
        have hbr : ∀ i, (none : Option Nat) = some i →
            optHolds (Store.get s.orders i)
              (fun o => o.side = Side.buy ∧ o.instrument = inst) :=
          fun i hi => Option.noConfusion hi
        have har : ∀ i, (none : Option Nat) = some i →
            optHolds (Store.get s.orders i)
              (fun o => o.side = Side.sell ∧ o.instrument = inst) :=
          fun i hi => Option.noConfusion hi
        have hqs1 : quotesOK s.orders inst
            ((getOrCreate s.books inst).1.quotes ++
              [((sess, qid), ((none : Option Nat),
                (none : Option Nat)))]) := by
          refine quotesOK_append hq0 ?_
          intro e2 he2
          have h2 : e2 = ((sess, qid), ((none : Option Nat),
              (none : Option Nat))) := by
            have h4 : e2 ∈ [((sess, qid), ((none : Option Nat),
                (none : Option Nat)))] := he2
            rwa [List.mem_singleton] at h4
          rw [h2]
          exact ⟨hbr, har⟩
        obtain ⟨hWF, hPOS⟩ := exchQuoteAssemble_WF
          { orders := s.orders,
            books := (getOrCreate s.books inst).2,
            nextId := s.nextId,
            events := s.events } inst
          ((none : Option Nat), (none : Option Nat)) bp bq ap aq
          (getOrCreate s.books inst).1
          ((getOrCreate s.books inst).1.quotes ++
            [((sess, qid), ((none : Option Nat), (none : Option Nat)))])
          hwS hgS hbr har hqs1
        exact ⟨hWF, fun hp hb2 ha2 => hPOS (hpS hp) hb2 ha2⟩

theorem WF_applyOp (s : ExchState) (op : Op) (hw : WF s) :
    WF (applyOp s op) ∧ (posOK s → PosOp op → posOK (applyOp s op)) := by
  cases op with
  | limit sd sess inst p q ostr =>
    have h0 := exchInsertCore_WF s sess inst (Price.lim p) q sd ostr hw
    constructor
    · show WF (exchInsertOrder s sess inst (Price.lim p) q sd ostr).2
      rw [exchInsertOrder_snd]
      exact h0.1.1
    · intro hp _
      show posOK (exchInsertOrder s sess inst (Price.lim p) q sd ostr).2
      rw [exchInsertOrder_snd]
      exact h0.1.2 hp
  | market sd sess inst q ostr =>
    have h0 := exchInsertCore_WF s sess inst
      (if sd = Side.buy then Price.mktBuy else Price.mktSell) q sd ostr hw
    constructor
    · show WF (exchInsertOrder s sess inst
        (if sd = Side.buy then Price.mktBuy else Price.mktSell) q sd
        ostr).2
      rw [exchInsertOrder_snd]
      exact h0.1.1
    · intro hp _
      show posOK (exchInsertOrder s sess inst
        (if sd = Side.buy then Price.mktBuy else Price.mktSell) q sd
        ostr).2
      rw [exchInsertOrder_snd]
      exact h0.1.2 hp
  | quoteOp sess inst bp bq ap aq qid =>
    obtain ⟨h1, h2⟩ := exchQuote_WF s sess inst (Price.lim bp) bq
      (Price.lim ap) aq qid hw
    exact ⟨h1, fun hp hpo => h2 hp hpo.1 hpo.2⟩
  | cancelOp xid sess =>
    obtain ⟨h1, h2⟩ := exchCancel_WF s xid sess hw
    exact ⟨h1, fun hp _ => h2 hp⟩

theorem Reachable_WF {s : ExchState} (h : Reachable s) : WF s := by
  induction h with
  | init => decide
  | step op h2 ih => exact (WF_applyOp _ op ih).1

theorem ReachablePos_WF {s : ExchState} (h : ReachablePos s) :
    WF s ∧ posOK s := by
  induction h with
  | init => exact ⟨by decide, by decide⟩
  | step op hpo h2 ih =>
    obtain ⟨hw, hp⟩ := ih
    exact ⟨(WF_applyOp _ op hw).1, (WF_applyOp _ op hw).2 hp hpo⟩

/-- Claim C2 (amended): in every reachable engine state, every order in
the `OrderMap` satisfies `remaining + filled = quantity`, or has been
cancelled — `remaining = 0` with `filled` untouched — and is off every
list; the unqualified `remaining + filled = originalQuantity` of the
claim fails after any successful cancel. -/
theorem C2_sum_invariant (s : ExchState) (h : Reachable s) :
    ∀ p ∈ s.orders,
      p.2.remaining + p.2.filled = p.2.quantity ∨
      (p.2.remaining = 0 ∧ p.2.onList = false) := by
  intro p hp
  exact (Reachable_WF h).2.2.2.2.1 p hp

theorem C2_sum_invariant_witness :
    cancelRunPair.2.remaining + cancelRunPair.2.filled =
      cancelRunPair.2.quantity ∨
    (cancelRunPair.2.remaining = 0 ∧ cancelRunPair.2.onList = false) :=
  C2_sum_invariant cancelRun
    (Reachable.step _ (Reachable.step _ Reachable.init))
    cancelRunPair (by decide)

/-- Claim C3 (amended): in every engine state reachable using only
nonnegative quote target quantities, every order resting on a ladder
has strictly positive remaining quantity and its id occurs exactly once
among the book's resting ids — hence in exactly one price level on its
side; a negative quote target (see the counterexample) breaks the
positivity half. -/
theorem C3_resting_positive_unique (s : ExchState) (h : ReachablePos s) :
    ∀ p ∈ s.books, ∀ oid ∈ p.2.oids,
      List.count oid p.2.oids = 1 ∧
      optHolds (Store.get s.orders oid) (fun o => 0 < o.remaining) := by
  obtain ⟨hw, hp⟩ := ReachablePos_WF h
  intro p hpm oid hoid
  refine ⟨?_, hp p hpm oid hoid⟩
  have hnd := (hw.2.2.2.1 p hpm).2.2.2.2.1
  have hle := List.nodup_iff_count_le_one.mp hnd oid
  have hpos := List.count_pos_iff.mpr hoid
  omega

theorem C3_resting_positive_unique_witness :
    List.count 1 (("I", quoteBaseBook) : String × BookState).2.oids = 1 ∧
    optHolds (Store.get quoteBase.orders 1) (fun o => 0 < o.remaining) :=
  C3_resting_positive_unique quoteBase
    (ReachablePos.step _ ⟨by decide, by decide⟩ ReachablePos.init)
    ("I", quoteBaseBook) (by decide) 1 (by decide)

end Clob
